import Mathlib

/-!
# NDLC link-layer engine (ndlc.c, ndlc_commands.c)

A shallow embedding of the NDLC frame engine `ndlc_send_receive` and of the two
command builders `NDLC_abort` and `NDLC_apdu`.

* Bytes are natural numbers (below 256 for what a real transport stores); a
  buffer is a `List Nat` indexed from the pointer the C code receives. Storing
  past the end of a list extends it and reading past the end gives 0: the
  capacity of the C buffers is not part of this model of the control flow.
* The physical transfer `NDLC_SEND_RECEIVE_PHY` is a deterministic state
  machine `Phy σ`: it is handed the requested length and the bytes to transmit
  and answers with a result code and the bytes it stores at the start of the
  receive buffer.
* The `while` loop of `ndlc_send_receive` is run with a bound on the number of
  iterations; `none` means that the loop is still running after that many
  iterations. The loop state carries a record of the transport calls and
  replies, which the engine never reads.

The receive callback of the console (`CMD_RxCpltCallback`, cmd.c) is embedded in
the namespace `Cmd`, with a record of the stores it makes into the line buffers.
-/

namespace Ndlc

/-! ## Constants of ndlc.c -/

/-- PCB Supervisor Ack Frame. -/
abbrev NDLC_PCB_SUPERVISOR_ACK : Nat := 0xE0
/-- PCB Supervisor Ack Frame ReSend. -/
abbrev NDLC_PCB_SUPERVISOR_ACK_RESEND : Nat := 0xE2
/-- PCB Supervisor NAck Frame. -/
abbrev NDLC_PCB_SUPERVISOR_NACK : Nat := 0xD0
/-- PCB Supervisor Nack Frame ReSend. -/
abbrev NDLC_PCB_SUPERVISOR_NACK_RESEND : Nat := 0xD2
/-- PCB Data Frame. -/
abbrev NDLC_PCB_DATA : Nat := 0x80
/-- PCB Data Frame ReSend. -/
abbrev NDLC_PCB_DATA_RESEND : Nat := 0x84
/-- Message from reader, to send APDU data frame. -/
abbrev NDLC_MESSAGE_HEADER_EVT_C_APDU : Nat := 0x50
/-- Message from reader, after reset. -/
abbrev NDLC_MESSAGE_HEADER_EVT_ABORT : Nat := 0x51
/-- Message from card, to send APDU data frame. -/
abbrev NDLC_MESSAGE_HEADER_EVT_R_APDU : Nat := 0x50
/-- Message from card, to send WTX. -/
abbrev NDLC_MESSAGE_HEADER_EVT_WTX : Nat := 0x51
/-- Message from card, to send ATR. -/
abbrev NDLC_MESSAGE_HEADER_EVT_ATR : Nat := 0x52
/-- Dummy byte value. -/
abbrev DUMMY_BYTE : Nat := 0xFE

/-! ## Data model (ndlc_config.h) -/

/-- The enum `ndlc_status`. -/
inductive ndlc_status where
  | NDLC_IDLE
  | NDLC_SENDCMD
  | NDLC_READACK
  | NDLC_READHEADER
  | NLDC_READDATA
  | NLDC_SENDACK
  deriving DecidableEq, Repr

open ndlc_status

/-- The struct `ndlc_device_t`; `data` is the buffer the pointer `data` refers to. -/
structure ndlc_device_t where
  handlePtr : Nat
  status : ndlc_status
  dataLen : Nat
  data : List Nat
  deriving DecidableEq, Repr

/-! ## The physical transfer -/

/-- One call of `NDLC_SEND_RECEIVE_PHY`: the requested length and the first
`len` bytes of the transmit buffer. -/
structure PhyCall where
  len : Nat
  tx : List Nat
  deriving DecidableEq, Repr

/-- What one call of `NDLC_SEND_RECEIVE_PHY` does: the value it returns and the
bytes it stores at the start of the receive buffer. -/
structure PhyReply where
  res : Int
  rx : List Nat
  deriving DecidableEq, Repr

/-- A deterministic transport with internal state `σ`. -/
abbrev Phy (σ : Type) := σ → PhyCall → σ × PhyReply

/-- Store `bytes` at the start of `buf`, keeping the rest of `buf`. -/
def writeBuf (buf bytes : List Nat) : List Nat :=
  bytes ++ buf.drop bytes.length

/-- Read `buf[i]`. -/
def rd (buf : List Nat) (i : Nat) : Nat := buf.getD i 0

/-! ## ndlc_send_receive -/

/-- The local variables of `ndlc_send_receive` together with the device, the
receive buffer `indata`, the state of the transport and the record of the
transport calls made so far with their replies (oldest first). The record is
only written, never read, by the engine. -/
structure LoopState (σ : Type) where
  status : ndlc_status
  dataLen : Nat
  indata : List Nat
  retry : Nat
  exit : Bool
  plen : Nat
  phy : σ
  log : List (PhyCall × PhyReply)

/-- Perform one transport call from the loop: the call is logged, the
transport state advances and the received bytes are stored in `indata`. -/
def xfer {σ : Type} (phy : Phy σ) (s : LoopState σ) (c : PhyCall) : LoopState σ × Int :=
  let r := phy s.phy c
  ({ s with phy := r.1, indata := writeBuf s.indata r.2.rx, log := s.log ++ [(c, r.2)] }, r.2.res)

/-- The body of the `while` loop of `ndlc_send_receive` (one `switch`).
The increment `retry++` is on a `uint8_t` that the loop guard keeps below 100, so it
never wraps. The result of a transfer is an `int32_t` and the lengths it is compared
with are `uint16_t`, so the casts in `(res > 0) && ((uint32_t)res == (uint32_t)len)`
and in `== ((int32_t)plen)` do not change the values compared. The subtraction
`plen - 2U` is done on 32 bits and stored in the `uint16_t` field `dataLen`. -/
def ndlc_body {σ : Type} (phy : Phy σ) (len : Nat) (outdata : List Nat)
    (s : LoopState σ) : LoopState σ :=
  match s.status with
  | NDLC_IDLE => { s with status := NDLC_SENDCMD, retry := 0 }
  | NDLC_SENDCMD =>
    let (s1, res) := xfer phy s ⟨len, outdata.take len⟩
    if 0 < res ∧ res = (len : Int) then
      if rd s1.indata 0 = DUMMY_BYTE then
        { s1 with status := NDLC_READACK, retry := 0 }
      else
        { s1 with retry := s1.retry + 1 }
    else
      { s1 with retry := s1.retry + 1 }
  | NDLC_READACK =>
    let (s1, res) := xfer phy s ⟨2, [DUMMY_BYTE, DUMMY_BYTE]⟩
    if res = 2 then
      if rd s1.indata 0 = NDLC_PCB_SUPERVISOR_ACK then
        { s1 with status := NDLC_READHEADER, retry := 0 }
      else if rd s1.indata 0 = NDLC_PCB_SUPERVISOR_NACK then
        { s1 with status := NDLC_SENDCMD, retry := 0 }
      else
        s1
    else
      { s1 with retry := s1.retry + 1 }
  | NDLC_READHEADER =>
    let (s1, res) := xfer phy s ⟨2, [DUMMY_BYTE, DUMMY_BYTE]⟩
    if res = 2 then
      if rd s1.indata 0 = NDLC_PCB_DATA then
        { s1 with status := NLDC_READDATA, plen := rd s1.indata 1, retry := 0 }
      else
        { s1 with retry := s1.retry + 1 }
    else
      { s1 with retry := s1.retry + 1 }
  | NLDC_READDATA =>
    let s0 := { s with indata := writeBuf s.indata (List.replicate s.plen DUMMY_BYTE) }
    let (s1, res) := xfer phy s0 ⟨s0.plen, s0.indata.take s0.plen⟩
    if res = (s1.plen : Int) then
      if rd s1.indata 0 = NDLC_PCB_SUPERVISOR_ACK
          ∧ (rd s1.indata 1 = NDLC_MESSAGE_HEADER_EVT_C_APDU
              ∨ rd s1.indata 1 = NDLC_MESSAGE_HEADER_EVT_ATR) then
        { s1 with status := NLDC_SENDACK, dataLen := (s1.plen + 2 ^ 32 - 2) % 2 ^ 32 % 2 ^ 16,
                  retry := 0 }
      else if rd s1.indata 0 = NDLC_PCB_SUPERVISOR_ACK
          ∧ rd s1.indata 1 = NDLC_MESSAGE_HEADER_EVT_WTX then
        { s1 with status := NDLC_READHEADER, retry := 0 }
      else
        { s1 with retry := s1.retry + 1 }
    else
      { s1 with retry := s1.retry + 1 }
  | NLDC_SENDACK =>
    let (s1, res) := xfer phy s ⟨2, [NDLC_PCB_SUPERVISOR_ACK, 0x00]⟩
    if res = 2 then
      if rd s1.indata 0 = DUMMY_BYTE then
        { s1 with status := NDLC_IDLE, exit := true }
      else
        { s1 with retry := s1.retry + 1 }
    else
      { s1 with retry := s1.retry + 1 }

/-- The guard of the `while` loop. -/
def ndlc_guard {σ : Type} (s : LoopState σ) : Bool :=
  decide (s.retry < 100) && (s.exit == false)

/-- At most `n` iterations of the `while` loop. -/
def ndlc_iter {σ : Type} (phy : Phy σ) (len : Nat) (outdata : List Nat) :
    Nat → LoopState σ → LoopState σ
  | 0, s => s
  | n + 1, s =>
    if ndlc_guard s then ndlc_iter phy len outdata n (ndlc_body phy len outdata s) else s

/-- The state on entry of the loop: `dataLen`, `retry` and `plen` are zeroed. -/
def ndlc_entry {σ : Type} (p_dev : ndlc_device_t) (indata : List Nat) (t : σ) : LoopState σ :=
  { status := p_dev.status, dataLen := 0, indata := indata, retry := 0, exit := false,
    plen := 0, phy := t, log := [] }

/-- What `ndlc_send_receive` leaves behind when it returns. -/
structure EngineResult (σ : Type) where
  res : Int
  dev : ndlc_device_t
  indata : List Nat
  retry : Nat
  phy : σ
  log : List (PhyCall × PhyReply)

/-- The function `ndlc_send_receive`, its loop bounded by `fuel` iterations. -/
def ndlc_send_receive {σ : Type} (phy : Phy σ) (fuel : Nat) (t : σ) (p_dev : ndlc_device_t)
    (len : Nat) (outdata indata : List Nat) : Option (EngineResult σ) :=
  let s := ndlc_iter phy len outdata fuel (ndlc_entry p_dev indata t)
  if ndlc_guard s then none
  else some
    { res := if s.exit = true then 0 else -1
      dev := { p_dev with status := s.status, dataLen := s.dataLen }
      indata := s.indata
      retry := s.retry
      phy := s.phy
      log := s.log }


/-- The transport calls made during the first `fuel` iterations of the loop of
`ndlc_send_receive`, whether or not the loop has ended by then. -/
def ndlc_send_receive_calls {σ : Type} (phy : Phy σ) (fuel : Nat) (t : σ) (p_dev : ndlc_device_t)
    (len : Nat) (outdata indata : List Nat) : List PhyCall :=
  (ndlc_iter phy len outdata fuel (ndlc_entry p_dev indata t)).log.map Prod.fst

/-! ## ndlc_commands.c -/

/-- The function `NDLC_Initialization`. -/
def NDLC_Initialization (p_dev : ndlc_device_t) : ndlc_device_t :=
  { p_dev with status := NDLC_IDLE }

/-- The function `NDLC_DeInitialization`. -/
def NDLC_DeInitialization (p_dev : ndlc_device_t) : ndlc_device_t :=
  { p_dev with status := NDLC_IDLE }

/-- What a command builder leaves behind when it returns: its return value, the
device (with the response buffer), the caller's output buffer, the state of the
transport and the transport calls made. -/
structure CmdResult (σ : Type) where
  result : Int
  dev : ndlc_device_t
  outdata : List Nat
  phy : σ
  log : List (PhyCall × PhyReply)

/-- The call `memcpy(outdata, &p_dev->data[2], p_dev->dataLen)`. -/
def copy_out (outdata data : List Nat) (dataLen : Nat) : List Nat :=
  writeBuf outdata ((data.drop 2).take dataLen)

/-- The function `NDLC_abort`, called with a pointer `outdata` to a buffer distinct
from the response buffer `p_dev->data`. The call with `outdata = p_dev->data` is
`NDLC_abort_ptr` at `OutPtr.response`. -/
def NDLC_abort {σ : Type} (phy : Phy σ) (fuel : Nat) (t : σ) (p_dev : ndlc_device_t)
    (outdata : List Nat) : Option (CmdResult σ) :=
  let cmd : List Nat := [0x80, 0x02, 0xE0, 0x51]
  let p_dev := { p_dev with status := NDLC_IDLE }
  match ndlc_send_receive phy fuel t p_dev 4 cmd p_dev.data with
  | none => none
  | some e =>
    let dev := { e.dev with data := e.indata }
    if e.res = 0 then
      some { result := 0, dev := dev, outdata := copy_out outdata dev.data dev.dataLen,
             phy := e.phy, log := e.log }
    else
      some { result := -1, dev := dev, outdata := outdata, phy := e.phy, log := e.log }

/-- The command buffer built by `NDLC_apdu`: the four header bytes, the length byte
being `2U + (uint8_t)apdu_len` stored in a `uint8_t`, then `apdu[0 .. apdu_len-1]`. -/
def apdu_cmd (apdu : List Nat) (apdu_len : Nat) : List Nat :=
  [0x80, (2 + apdu_len % 256) % 256, 0xE0, 0x50] ++ apdu.take apdu_len

/-- The function `NDLC_apdu`; `apdu_len` is a `uint16_t`, the length `4U + apdu_len`
is passed as a `uint16_t`, and `outdata` is a buffer distinct from the response
buffer. -/
def NDLC_apdu {σ : Type} (phy : Phy σ) (fuel : Nat) (t : σ) (p_dev : ndlc_device_t)
    (apdu : List Nat) (apdu_len : Nat) (outdata : List Nat) : Option (CmdResult σ) :=
  let cmd := apdu_cmd apdu apdu_len
  let p_dev := { p_dev with status := NDLC_IDLE }
  match ndlc_send_receive phy fuel t p_dev ((4 + apdu_len) % 2 ^ 16) cmd p_dev.data with
  | none => none
  | some e =>
    let dev := { e.dev with data := e.indata }
    if e.res = 0 then
      some { result := (dev.dataLen : Int), dev := dev,
             outdata := copy_out outdata dev.data dev.dataLen, phy := e.phy, log := e.log }
    else
      some { result := -1, dev := dev, outdata := outdata, phy := e.phy, log := e.log }

/-- The transport calls made during the first `fuel` loop iterations of the exchange
started by `NDLC_apdu`. -/
def NDLC_apdu_calls {σ : Type} (phy : Phy σ) (fuel : Nat) (t : σ) (p_dev : ndlc_device_t)
    (apdu : List Nat) (apdu_len : Nat) : List PhyCall :=
  ndlc_send_receive_calls phy fuel t { p_dev with status := NDLC_IDLE }
    ((4 + apdu_len) % 2 ^ 16) (apdu_cmd apdu apdu_len) p_dev.data

/-! ## Transports used to state the properties -/

/-- The replies a transport gives to a sequence of calls, starting in state `t`. -/
def phyReplies {σ : Type} (phy : Phy σ) : σ → List PhyCall → List PhyReply
  | _, [] => []
  | t, c :: cs => (phy t c).2 :: phyReplies phy (phy t c).1 cs

/-- The state of a transport after a sequence of calls, starting in state `t`. -/
def phyAfter {σ : Type} (phy : Phy σ) : σ → List PhyCall → σ
  | t, [] => t
  | t, c :: cs => phyAfter phy (phy t c).1 cs

/-- A scripted transport: it plays the replies of its script in order, whatever it is
asked to transmit, and fails with -1 once the script is over. -/
def scriptPhy : Phy (List PhyReply)
  | [], _ => ([], ⟨-1, []⟩)
  | r :: rs, _ => (rs, r)

/-- A transport without state that reports the full requested length and fills the
receive buffer with the byte `b`. -/
def constPhy (b : Nat) : Phy Unit :=
  fun _ c => ((), ⟨(c.len : Int), List.replicate c.len b⟩)

/-- The five transport calls of an APDU exchange on the happy path, for the payload
`p` and a response payload of `n` bytes. -/
def happyCalls (p : List Nat) (n : Nat) : List PhyCall :=
  [⟨4 + p.length, [0x80, 2 + p.length, 0xE0, 0x50] ++ p⟩,
   ⟨2, [0xFE, 0xFE]⟩,
   ⟨2, [0xFE, 0xFE]⟩,
   ⟨2 + n, List.replicate (2 + n) 0xFE⟩,
   ⟨2, [0xE0, 0x00]⟩]

/-- The five replies of the happy path: `0xFE` to the command, an ACK, the header
announcing `2 + |r|` bytes, the data body carrying `r`, and `0xFE` to the final ACK. -/
def happyReplies (p r t1 : List Nat) (b2 b5 : Nat) : List PhyReply :=
  [⟨(4 + p.length : Nat), 0xFE :: t1⟩,
   ⟨2, [0xE0, b2]⟩,
   ⟨2, [0x80, 2 + r.length]⟩,
   ⟨(2 + r.length : Nat), [0xE0, 0x50] ++ r⟩,
   ⟨2, [0xFE, b5]⟩]

/-- The transport calls of a sequence of wait-time extensions, one header poll and one
body poll for each; `w` is what follows `[0xE0, 0x51]` in the body of a round, so the
header of that round announces `2 + |w|` bytes. The calls `tail` follow. -/
def wtxRoundCalls : List (List Nat) → List PhyCall → List PhyCall
  | [], tail => tail
  | w :: ws, tail =>
    ⟨2, [0xFE, 0xFE]⟩ :: ⟨2 + w.length, List.replicate (2 + w.length) 0xFE⟩
      :: wtxRoundCalls ws tail

/-- The replies of a sequence of wait-time extensions: for each round a header
`[0x80, 2 + |w|]` and a body `[0xE0, 0x51] ++ w`. The replies `tail` follow. -/
def wtxRoundReplies : List (List Nat) → List PhyReply → List PhyReply
  | [], tail => tail
  | w :: ws, tail =>
    ⟨2, [0x80, 2 + w.length]⟩ :: ⟨(2 + w.length : Nat), [0xE0, 0x51] ++ w⟩
      :: wtxRoundReplies ws tail

/-- The transport calls of an APDU exchange in which the card asks for `ws.length`
wait-time extensions before it answers with `n` payload bytes. -/
def wtxCalls (p : List Nat) (ws : List (List Nat)) (n : Nat) : List PhyCall :=
  ⟨4 + p.length, [0x80, 2 + p.length, 0xE0, 0x50] ++ p⟩ :: ⟨2, [0xFE, 0xFE]⟩
    :: wtxRoundCalls ws
        [⟨2, [0xFE, 0xFE]⟩, ⟨2 + n, List.replicate (2 + n) 0xFE⟩, ⟨2, [0xE0, 0x00]⟩]

/-- The replies of that exchange; all transfers other than the wait-time extensions
are on the happy path. -/
def wtxReplies (p r t1 : List Nat) (b2 b5 : Nat) (ws : List (List Nat)) : List PhyReply :=
  ⟨(4 + p.length : Nat), 0xFE :: t1⟩ :: ⟨2, [0xE0, b2]⟩
    :: wtxRoundReplies ws
        [⟨2, [0x80, 2 + r.length]⟩, ⟨(2 + r.length : Nat), [0xE0, 0x50] ++ r⟩,
          ⟨2, [0xFE, b5]⟩]

/-- The transport calls of an exchange whose command is refused once: the command,
an acknowledgement poll, the command again, and then the happy path with a data body
of `l` bytes. -/
def nackCalls (len : Nat) (outdata : List Nat) (l : Nat) : List PhyCall :=
  [⟨len, outdata.take len⟩, ⟨2, [0xFE, 0xFE]⟩, ⟨len, outdata.take len⟩, ⟨2, [0xFE, 0xFE]⟩,
   ⟨2, [0xFE, 0xFE]⟩, ⟨l, List.replicate l 0xFE⟩, ⟨2, [0xE0, 0x00]⟩]

/-- The replies of that exchange: the first acknowledgement poll is answered with a
NACK (`0xD0`), every other transfer is on the happy path. -/
def nackReplies (len : Nat) (t1 t2 t3 t4 : List Nat) (l : Nat) (body t7 : List Nat) :
    List PhyReply :=
  [⟨(len : Nat), 0xFE :: t1⟩, ⟨2, 0xD0 :: t2⟩, ⟨(len : Nat), 0xFE :: t3⟩, ⟨2, 0xE0 :: t4⟩,
   ⟨2, [0x80, l]⟩, ⟨(l : Nat), 0xE0 :: 0x50 :: body⟩, ⟨2, 0xFE :: t7⟩]

/-- A transport that writes exactly the bytes it reports: the number of bytes it stores
is its result (none when the result is negative), a transfer never exchanges more than
the requested length, and what it stores are bytes. -/
def ExactPhy {σ : Type} (phy : Phy σ) : Prop :=
  ∀ t c, (phy t c).2.rx.length = (phy t c).2.res.toNat
    ∧ (phy t c).2.res ≤ (c.len : Int)
    ∧ ∀ b ∈ (phy t c).2.rx, b < 256

/-- A scripted transport that writes exactly the bytes it reports: it answers a call
with the next entry of its script, cut to the requested length, and reports the number
of bytes stored; it fails with -1 once the script is over. -/
def exactScriptPhy : Phy (List (List Nat))
  | [], _ => ([], ⟨-1, []⟩)
  | r :: rs, c =>
    (rs, ⟨(((r.take c.len).map (· % 256)).length : Nat), (r.take c.len).map (· % 256)⟩)

/-- The record `log` of an exchange shows that `payload` was delivered: a header
announcing `2 + |payload|` bytes, then only ReadData transfers of that length, the last
of which was answered by `[0xE0, ev] ++ payload` in full, then only SendAck transfers;
`dataLen` is `|payload|` and the response buffer `data` holds `payload` from offset 2. -/
def Delivered (log : List (PhyCall × PhyReply)) (dataLen : Nat) (data payload : List Nat) :
    Prop :=
  ∃ pre mid post ev a b rest,
    log = pre ++ [(⟨2, [0xFE, 0xFE]⟩, ⟨2, [0x80, 2 + payload.length]⟩)] ++ mid
        ++ [(⟨2 + payload.length, List.replicate (2 + payload.length) 0xFE⟩,
            ⟨(2 + payload.length : Nat), 0xE0 :: ev :: payload⟩)] ++ post
    ∧ (∀ x ∈ mid, x.1 = ⟨2 + payload.length, List.replicate (2 + payload.length) 0xFE⟩)
    ∧ (∀ x ∈ post, x.1 = ⟨2, [0xE0, 0x00]⟩)
    ∧ (ev = 0x50 ∨ ev = 0x52)
    ∧ 2 + payload.length < 256
    ∧ dataLen = payload.length
    ∧ data = a :: b :: (payload ++ rest)

/-- In ReadData: the last header accepted announced `plen` bytes, only ReadData
transfers followed it, and where `plen` is 0 or 1 the bytes of the receive buffer that
a transfer of `plen` bytes cannot reach still hold the header. -/
def HeaderSeen (plen : Nat) (indata : List Nat) (log : List (PhyCall × PhyReply)) : Prop :=
  plen < 256 ∧ ∃ pre mid b0 b1 rest,
    log = pre ++ [(⟨2, [0xFE, 0xFE]⟩, ⟨2, [0x80, plen]⟩)] ++ mid
    ∧ (∀ x ∈ mid, x.1 = ⟨plen, List.replicate plen 0xFE⟩)
    ∧ indata = b0 :: b1 :: rest
    ∧ (plen = 0 → b0 = 0x80)
    ∧ (plen ≤ 1 → b1 = plen)

/-- The invariant of an exchange started in Idle. -/
def ExchangeInv {σ : Type} (s : LoopState σ) : Prop :=
  (s.status = NLDC_READDATA → HeaderSeen s.plen s.indata s.log)
    ∧ ((s.status = NLDC_SENDACK ∨ s.exit = true) →
        ∃ payload, Delivered s.log s.dataLen s.indata payload)

/-- The loop state of `ndlc_send_receive` after `n` iterations (the final state when
the loop ends sooner). -/
def ndlc_state {σ : Type} (phy : Phy σ) (t : σ) (p_dev : ndlc_device_t) (len : Nat)
    (outdata indata : List Nat) (n : Nat) : LoopState σ :=
  ndlc_iter phy len outdata n (ndlc_entry p_dev indata t)

/-- The edges of the state machine of the engine. -/
def ndlc_edges : List (ndlc_status × ndlc_status) :=
  [(NDLC_IDLE, NDLC_SENDCMD), (NDLC_SENDCMD, NDLC_READACK), (NDLC_READACK, NDLC_READHEADER),
   (NDLC_READACK, NDLC_SENDCMD), (NDLC_READHEADER, NLDC_READDATA),
   (NLDC_READDATA, NLDC_SENDACK), (NLDC_READDATA, NDLC_READHEADER),
   (NLDC_SENDACK, NDLC_IDLE)]

/-- The loop state, after `n` iterations, of the exchange started by `NDLC_abort`. -/
def NDLC_abort_state {σ : Type} (phy : Phy σ) (t : σ) (p_dev : ndlc_device_t) (n : Nat) :
    LoopState σ :=
  ndlc_state phy t { p_dev with status := NDLC_IDLE } 4 [0x80, 0x02, 0xE0, 0x51] p_dev.data n

/-- The loop state, after `n` iterations, of the exchange started by `NDLC_apdu`. -/
def NDLC_apdu_state {σ : Type} (phy : Phy σ) (t : σ) (p_dev : ndlc_device_t)
    (apdu : List Nat) (apdu_len : Nat) (n : Nat) : LoopState σ :=
  ndlc_state phy t { p_dev with status := NDLC_IDLE } ((4 + apdu_len) % 2 ^ 16)
    (apdu_cmd apdu apdu_len) p_dev.data n

/-- A transport that writes at most the requested number of bytes, all of them bytes. -/
def BoundedPhy {σ : Type} (phy : Phy σ) : Prop :=
  ∀ t c, (phy t c).2.rx.length ≤ c.len ∧ ∀ b ∈ (phy t c).2.rx, b < 256

/-- The byte strings that one iteration of the loop stores in the receive buffer, in
order, each of them from index 0 on: the bytes received by the transfer of that state
and, in ReadData, before them the `plen` filler bytes. -/
def ndlc_writes {σ : Type} (phy : Phy σ) (len : Nat) (outdata : List Nat)
    (s : LoopState σ) : List (List Nat) :=
  match s.status with
  | NDLC_IDLE => []
  | NDLC_SENDCMD => [(phy s.phy ⟨len, outdata.take len⟩).2.rx]
  | NDLC_READACK => [(phy s.phy ⟨2, [DUMMY_BYTE, DUMMY_BYTE]⟩).2.rx]
  | NDLC_READHEADER => [(phy s.phy ⟨2, [DUMMY_BYTE, DUMMY_BYTE]⟩).2.rx]
  | NLDC_READDATA =>
    [List.replicate s.plen DUMMY_BYTE,
      (phy s.phy ⟨s.plen, List.replicate s.plen DUMMY_BYTE⟩).2.rx]
  | NLDC_SENDACK => [(phy s.phy ⟨2, [NDLC_PCB_SUPERVISOR_ACK, 0x00]⟩).2.rx]

/-- The invariant behind the capacity of the response buffer: the buffer holds bytes,
`plen` is a byte, in ReadData the bytes that a transfer of `plen < 2` bytes cannot
reach still hold the header, and once a body is accepted `2 + dataLen` is in range. -/
def CapInv {σ : Type} (s : LoopState σ) : Prop :=
  (∀ b ∈ s.indata, b < 256) ∧ s.plen < 256
    ∧ (s.status = NLDC_READDATA →
        (s.plen = 0 → rd s.indata 0 = 0x80) ∧ (s.plen ≤ 1 → rd s.indata 1 = s.plen))
    ∧ ((s.status = NLDC_SENDACK ∨ s.exit = true) → 2 + s.dataLen ≤ 258)

/-- What two response buffers must share for two exchanges to go on alike: in ReadData
the header bytes that a transfer of `plen < 2` bytes cannot reach, and once a body is
accepted the `dataLen` bytes from offset 2. -/
def BufRel (status : ndlc_status) (exit : Bool) (plen dataLen : Nat)
    (ind1 ind2 : List Nat) : Prop :=
  (status = NLDC_READDATA →
      (plen = 0 → rd ind1 0 = 0x80 ∧ rd ind2 0 = 0x80)
      ∧ (plen ≤ 1 → rd ind1 1 = plen ∧ rd ind2 1 = plen))
    ∧ ((status = NLDC_SENDACK ∨ exit = true) →
        (ind1.drop 2).take dataLen = (ind2.drop 2).take dataLen)

/-- Two loop states that differ at most in the contents of the receive buffer, and
there only in bytes that the rest of the exchange does not read. -/
def Sim {σ : Type} (s1 s2 : LoopState σ) : Prop :=
  s1.status = s2.status ∧ s1.dataLen = s2.dataLen ∧ s1.retry = s2.retry
    ∧ s1.exit = s2.exit ∧ s1.plen = s2.plen ∧ s1.phy = s2.phy ∧ s1.log = s2.log
    ∧ BufRel s1.status s1.exit s1.plen s1.dataLen s1.indata s2.indata

/-- What the caller of a command builder observes, if the builder returns: the value
returned, the output buffer and the transport calls made, with their replies. -/
def cmd_outcome {σ : Type} (r : Option (CmdResult σ)) :
    Option (Int × List Nat × List (PhyCall × PhyReply)) :=
  r.map (fun e => (e.result, e.outdata, e.log))

/-- The transfer that an iteration of the loop asks of the transport in a given status
(none in Idle); `plen` is the length of the ReadData transfer. -/
def ndlc_call (len : Nat) (outdata : List Nat) (plen : Nat) : ndlc_status → Option PhyCall
  | NDLC_IDLE => none
  | NDLC_SENDCMD => some ⟨len, outdata.take len⟩
  | NDLC_READACK => some ⟨2, [DUMMY_BYTE, DUMMY_BYTE]⟩
  | NDLC_READHEADER => some ⟨2, [DUMMY_BYTE, DUMMY_BYTE]⟩
  | NLDC_READDATA => some ⟨plen, List.replicate plen DUMMY_BYTE⟩
  | NLDC_SENDACK => some ⟨2, [NDLC_PCB_SUPERVISOR_ACK, 0x00]⟩

/-- The transport calls of an exchange in which the transfer of SendCmd, ReadAck,
ReadHeader, ReadData and SendAck is made `n1 + 1`, `n2 + 1`, `n3 + 1`, `n4 + 1` and
`n5 + 1` times; the data body has `l` bytes. -/
def retryCalls (len : Nat) (outdata : List Nat) (l n1 n2 n3 n4 n5 : Nat) : List PhyCall :=
  List.replicate n1 ⟨len, outdata.take len⟩ ++ ⟨len, outdata.take len⟩ ::
    (List.replicate n2 ⟨2, [0xFE, 0xFE]⟩ ++ ⟨2, [0xFE, 0xFE]⟩ ::
      (List.replicate n3 ⟨2, [0xFE, 0xFE]⟩ ++ ⟨2, [0xFE, 0xFE]⟩ ::
        (List.replicate n4 ⟨l, List.replicate l 0xFE⟩ ++ ⟨l, List.replicate l 0xFE⟩ ::
          (List.replicate n5 ⟨2, [0xE0, 0x00]⟩ ++ [⟨2, [0xE0, 0x00]⟩]))))

/-- The replies of that exchange: in each of the five states the replies `f1` .. `f5`
come first, then the reply of the happy path; the response payload is `r`. -/
def retryReplies (len : Nat) (f1 f2 f3 f4 f5 : List PhyReply) (t1 t2 r t5 : List Nat) :
    List PhyReply :=
  f1 ++ ⟨(len : Nat), 0xFE :: t1⟩ ::
    (f2 ++ ⟨2, 0xE0 :: t2⟩ ::
      (f3 ++ ⟨2, [0x80, 2 + r.length]⟩ ::
        (f4 ++ ⟨(2 + r.length : Nat), 0xE0 :: 0x50 :: r⟩ ::
          (f5 ++ [⟨2, 0xFE :: t5⟩]))))

/-! ## The output pointer of the command builders -/

/-- Where the pointer `outdata` handed to a command builder points: to a buffer of the
caller that is distinct from the response buffer (with its contents), or to the
response buffer `p_dev->data` itself, as in the calls
`NDLC_abort(p_handler, p_handler->data)` of spi_ndlc.c. -/
inductive OutPtr where
  | caller (buf : List Nat)
  | response

/-- The function `NDLC_abort` for either kind of pointer `outdata`. The field `outdata`
of the result is the contents, on return, of the memory that `outdata` points to. When
`outdata` is the response buffer, the regions of the `memcpy` overlap as soon as
`dataLen > 2`; the copy is then taken to move the bytes as `memmove` does. -/
def NDLC_abort_ptr {σ : Type} (phy : Phy σ) (fuel : Nat) (t : σ) (p_dev : ndlc_device_t)
    (outdata : OutPtr) : Option (CmdResult σ) :=
  let cmd : List Nat := [0x80, 0x02, 0xE0, 0x51]
  let p_dev := { p_dev with status := NDLC_IDLE }
  match ndlc_send_receive phy fuel t p_dev 4 cmd p_dev.data with
  | none => none
  | some e =>
    let dev := { e.dev with data := e.indata }
    match outdata with
    | OutPtr.caller buf =>
      if e.res = 0 then
        some { result := 0, dev := dev, outdata := copy_out buf dev.data dev.dataLen,
               phy := e.phy, log := e.log }
      else
        some { result := -1, dev := dev, outdata := buf, phy := e.phy, log := e.log }
    | OutPtr.response =>
      if e.res = 0 then
        some { result := 0,
               dev := { dev with data := copy_out dev.data dev.data dev.dataLen },
               outdata := copy_out dev.data dev.data dev.dataLen,
               phy := e.phy, log := e.log }
      else
        some { result := -1, dev := dev, outdata := dev.data, phy := e.phy, log := e.log }

/-- The function `NDLC_apdu` for either kind of pointer `outdata`, as `NDLC_abort_ptr`. -/
def NDLC_apdu_ptr {σ : Type} (phy : Phy σ) (fuel : Nat) (t : σ) (p_dev : ndlc_device_t)
    (apdu : List Nat) (apdu_len : Nat) (outdata : OutPtr) : Option (CmdResult σ) :=
  let cmd := apdu_cmd apdu apdu_len
  let p_dev := { p_dev with status := NDLC_IDLE }
  match ndlc_send_receive phy fuel t p_dev ((4 + apdu_len) % 2 ^ 16) cmd p_dev.data with
  | none => none
  | some e =>
    let dev := { e.dev with data := e.indata }
    match outdata with
    | OutPtr.caller buf =>
      if e.res = 0 then
        some { result := (dev.dataLen : Int), dev := dev,
               outdata := copy_out buf dev.data dev.dataLen, phy := e.phy, log := e.log }
      else
        some { result := -1, dev := dev, outdata := buf, phy := e.phy, log := e.log }
    | OutPtr.response =>
      if e.res = 0 then
        some { result := (dev.dataLen : Int),
               dev := { dev with data := copy_out dev.data dev.data dev.dataLen },
               outdata := copy_out dev.data dev.data dev.dataLen,
               phy := e.phy, log := e.log }
      else
        some { result := -1, dev := dev, outdata := dev.data, phy := e.phy, log := e.log }

/-- The function `spi_ndlc_atr` of spi_ndlc.c: `NDLC_abort(p_handler, p_handler->data)`.
Acquiring, initialising and releasing the SPI bus are part of the transport. -/
def spi_ndlc_atr {σ : Type} (phy : Phy σ) (fuel : Nat) (t : σ) (p_handler : ndlc_device_t) :
    Option (CmdResult σ) :=
  NDLC_abort_ptr phy fuel t p_handler OutPtr.response

/-- The function `spi_ndlc_abort_apdu` of spi_ndlc.c:
`NDLC_abort(p_handler, p_handler->data)`. -/
def spi_ndlc_abort_apdu {σ : Type} (phy : Phy σ) (fuel : Nat) (t : σ)
    (p_handler : ndlc_device_t) : Option (CmdResult σ) :=
  NDLC_abort_ptr phy fuel t p_handler OutPtr.response

/-! ## A peer that asks for wait-time extensions without end -/

/-- A transport whose state is the number of calls made: it answers the command with
as many bytes `0xFE`, the acknowledgement poll with an ACK, and from then on, alternately, a header
announcing 2 bytes and the wait-time extension body `[0xE0, 0x51]`. -/
def wtxForeverPhy : Phy Nat
  | 0, c => (1, ⟨(c.len : Int), List.replicate c.len 0xFE⟩)
  | 1, _ => (2, ⟨2, [0xE0, 0x00]⟩)
  | k + 2, _ => (k + 3, if k % 2 = 0 then ⟨2, [0x80, 2]⟩ else ⟨2, [0xE0, 0x51]⟩)

/-- The loop states of an exchange with `wtxForeverPhy`: the counter is 0, `exit` is
not set, and the status goes with the number of calls made. -/
def WtxLoop (s : LoopState Nat) : Prop :=
  s.exit = false ∧ s.retry = 0
    ∧ ((s.status = NDLC_IDLE ∧ s.phy = 0) ∨ (s.status = NDLC_SENDCMD ∧ s.phy = 0)
      ∨ (s.status = NDLC_READACK ∧ s.phy = 1)
      ∨ (s.status = NDLC_READHEADER ∧ ∃ j, s.phy = 2 * j + 2)
      ∨ (s.status = NLDC_READDATA ∧ s.plen = 2 ∧ ∃ j, s.phy = 2 * j + 3))

end Ndlc

/-! # Console line buffer (cmd.c) -/

namespace Cmd

/-- Maximum size of a command line. -/
abbrev CMD_MAX_LINE_SIZE : Nat := 100

/-- A store into one of the two rows of `CMD_CommandLine`: the row, the index, the
value stored, and whether the store is the terminating 0 of a line. -/
structure LineWrite where
  line : Nat
  index : Nat
  value : Nat
  terminator : Bool
  deriving DecidableEq

/-- The static variables of cmd.c that the receive callback uses. The pointers
`CMD_current_cmd`, `CMD_current_rcv_line` and `CMD_completed_line` always point to the
start of a row of `CMD_CommandLine` and are represented by the number of that row.
`CMD_CurrentPos` is a `uint32_t`. The field `writes` records the stores made into
`CMD_CommandLine`, in order; the code never reads it. -/
structure CmdState where
  CMD_CommandLine : List (List Nat)
  CMD_current_cmd : Nat
  CMD_current_rcv_line : Nat
  CMD_completed_line : Nat
  CMD_CurrentPos : Nat
  writes : List LineWrite

/-- The assignment `line[index] = value` on a row of `CMD_CommandLine`, recorded in
`writes`. -/
def storeByte (st : CmdState) (line index value : Nat) (terminator : Bool) : CmdState :=
  { st with
    CMD_CommandLine :=
      st.CMD_CommandLine.set line ((st.CMD_CommandLine.getD line []).set index value)
    writes := st.writes ++ [⟨line, index, value, terminator⟩] }

/-- The function `CMD_RxCpltCallback`, for the received character `rec_char`
(`CMD_ReceivedChar`); 10 is the line feed, 13 the carriage return and 8 the backspace.
Rearming the receive interrupt and releasing the semaphore do not touch the variables
modelled here. -/
def CMD_RxCpltCallback (st : CmdState) (rec_char : Nat) : CmdState :=
  if rec_char ≠ 10 then
    if rec_char = 13 ∨ CMD_MAX_LINE_SIZE - 1 ≤ st.CMD_CurrentPos then
      let st1 := storeByte st st.CMD_current_rcv_line st.CMD_CurrentPos 0 true
      { st1 with
        CMD_completed_line := st.CMD_current_rcv_line
        CMD_current_cmd := st.CMD_current_rcv_line
        CMD_current_rcv_line := st.CMD_completed_line
        CMD_CurrentPos := 0 }
    else if rec_char = 8 then
      if 0 < st.CMD_CurrentPos then
        { st with CMD_CurrentPos := st.CMD_CurrentPos - 1 }
      else
        st
    else
      let st1 := storeByte st st.CMD_current_rcv_line st.CMD_CurrentPos rec_char false
      { st1 with CMD_CurrentPos := (st.CMD_CurrentPos + 1) % 2 ^ 32 }
  else
    st

/-- The part of the function `CMD_init` that sets the variables of the receive
callback, from the previous contents `lines` of `CMD_CommandLine`. -/
def CMD_init (lines : List (List Nat)) : CmdState :=
  let st1 := storeByte
    { CMD_CommandLine := lines, CMD_current_cmd := 0, CMD_current_rcv_line := 0,
      CMD_completed_line := 0, CMD_CurrentPos := 0, writes := [] } 0 0 0 true
  let st2 := storeByte st1 1 0 0 true
  { st2 with
    CMD_current_rcv_line := 0
    CMD_current_cmd := 1
    CMD_completed_line := 1
    CMD_CurrentPos := 0 }

/-- The state after the characters `cs` have been received, one call of
`CMD_RxCpltCallback` for each. -/
def CMD_receive (st : CmdState) (cs : List Nat) : CmdState :=
  cs.foldl CMD_RxCpltCallback st

/-- The invariant of the receive callback: the position is below the size of a line,
the two line pointers are rows of `CMD_CommandLine`, and every store was made in a row
at an index below the size of a line, below the last index for a character. -/
def LineInv (st : CmdState) : Prop :=
  st.CMD_CurrentPos ≤ CMD_MAX_LINE_SIZE - 1
    ∧ st.CMD_current_rcv_line < 2 ∧ st.CMD_completed_line < 2
    ∧ ∀ w ∈ st.writes, w.line < 2 ∧ w.index < CMD_MAX_LINE_SIZE
        ∧ (w.terminator = false → w.index ≤ CMD_MAX_LINE_SIZE - 2)
        ∧ (w.terminator = true → w.value = 0)

end Cmd

namespace Ndlc

open ndlc_status

/-! ## General facts about the loop -/

theorem ndlc_iter_zero {σ : Type} (phy : Phy σ) (len : Nat) (outdata : List Nat)
    (s : LoopState σ) : ndlc_iter phy len outdata 0 s = s := rfl

theorem ndlc_iter_done {σ : Type} (phy : Phy σ) (len : Nat) (outdata : List Nat)
    (n : Nat) (s : LoopState σ) (h : ndlc_guard s = false) :
    ndlc_iter phy len outdata n s = s := by
  cases n with
  | zero => rfl
  | succ n => simp [ndlc_iter, h]

theorem ndlc_iter_step {σ : Type} (phy : Phy σ) (len : Nat) (outdata : List Nat)
    (n : Nat) (s : LoopState σ) (h : ndlc_guard s = true) :
    ndlc_iter phy len outdata (n + 1) s
      = ndlc_iter phy len outdata n (ndlc_body phy len outdata s) := by
  simp [ndlc_iter, h]

theorem ndlc_iter_add {σ : Type} (phy : Phy σ) (len : Nat) (outdata : List Nat)
    (m n : Nat) (s : LoopState σ) :
    ndlc_iter phy len outdata (m + n) s
      = ndlc_iter phy len outdata n (ndlc_iter phy len outdata m s) := by
  induction m generalizing s with
  | zero => simp [ndlc_iter]
  | succ m ih =>
    by_cases h : ndlc_guard s = true
    · rw [Nat.add_right_comm, ndlc_iter_step _ _ _ _ _ h, ndlc_iter_step _ _ _ _ _ h, ih]
    · simp only [Bool.not_eq_true] at h
      rw [ndlc_iter_done _ _ _ _ _ h, ndlc_iter_done _ _ _ _ _ h, ndlc_iter_done _ _ _ _ _ h]

/-- What a returned result of `ndlc_send_receive` says about the final loop state. -/
theorem ndlc_send_receive_some {σ : Type} (phy : Phy σ) (fuel : Nat) (t : σ)
    (p_dev : ndlc_device_t) (len : Nat) (outdata indata : List Nat) (e : EngineResult σ)
    (h : ndlc_send_receive phy fuel t p_dev len outdata indata = some e) :
    ndlc_guard (ndlc_iter phy len outdata fuel (ndlc_entry p_dev indata t)) = false
      ∧ e.res = (if (ndlc_iter phy len outdata fuel (ndlc_entry p_dev indata t)).exit = true
          then 0 else -1)
      ∧ e.dev.status = (ndlc_iter phy len outdata fuel (ndlc_entry p_dev indata t)).status
      ∧ e.dev.dataLen = (ndlc_iter phy len outdata fuel (ndlc_entry p_dev indata t)).dataLen
      ∧ e.indata = (ndlc_iter phy len outdata fuel (ndlc_entry p_dev indata t)).indata
      ∧ e.retry = (ndlc_iter phy len outdata fuel (ndlc_entry p_dev indata t)).retry
      ∧ e.log = (ndlc_iter phy len outdata fuel (ndlc_entry p_dev indata t)).log := by
  unfold ndlc_send_receive at h
  by_cases hg : ndlc_guard (ndlc_iter phy len outdata fuel (ndlc_entry p_dev indata t)) = true
  · simp [hg] at h
  · simp only [hg, Bool.false_eq_true, if_false, Option.some.injEq] at h
    subst h
    simp only [Bool.not_eq_true] at hg
    exact ⟨hg, rfl, rfl, rfl, rfl, rfl, rfl⟩

theorem apdu_cmd_length (p : List Nat) (hp : p.length ≤ 253) :
    apdu_cmd p p.length = [0x80, 2 + p.length, 0xE0, 0x50] ++ p := by
  have h1 : p.length % 256 = p.length := Nat.mod_eq_of_lt (by omega)
  have h2 : (2 + p.length) % 256 = 2 + p.length := Nat.mod_eq_of_lt (by omega)
  simp [apdu_cmd, h1, h2]

/-! ## Reading and writing buffers -/

theorem rd_writeBuf_zero (buf : List Nat) (a : Nat) (rx : List Nat) :
    rd (writeBuf buf (a :: rx)) 0 = a := by
  simp [rd, writeBuf]

theorem rd_writeBuf_one (buf : List Nat) (a b : Nat) (rx : List Nat) :
    rd (writeBuf buf (a :: b :: rx)) 1 = b := by
  simp [rd, writeBuf]

theorem take_writeBuf_replicate (buf : List Nat) (n b : Nat) :
    (writeBuf buf (List.replicate n b)).take n = List.replicate n b := by
  simp [writeBuf]

/-! ## One iteration of the loop, branch by branch -/

section steps

variable {σ : Type} (phy : Phy σ) (len : Nat) (outdata : List Nat)

theorem iter_idle (n dl : Nat) (ind : List Nat) (retry plen : Nat) (t : σ)
    (log : List (PhyCall × PhyReply)) (hr : retry < 100) :
    ndlc_iter phy len outdata (n + 1) ⟨NDLC_IDLE, dl, ind, retry, false, plen, t, log⟩
      = ndlc_iter phy len outdata n ⟨NDLC_SENDCMD, dl, ind, 0, false, plen, t, log⟩ := by
  rw [ndlc_iter_step _ _ _ _ _ (by simp [ndlc_guard, hr])]
  rfl

theorem iter_sendcmd_ok (n dl : Nat) (ind : List Nat) (retry plen : Nat) (t : σ)
    (log : List (PhyCall × PhyReply)) (rx : List Nat) (hr : retry < 100) (hlen : 0 < len)
    (h : (phy t ⟨len, outdata.take len⟩).2 = ⟨(len : Int), DUMMY_BYTE :: rx⟩) :
    ndlc_iter phy len outdata (n + 1) ⟨NDLC_SENDCMD, dl, ind, retry, false, plen, t, log⟩
      = ndlc_iter phy len outdata n
          ⟨NDLC_READACK, dl, writeBuf ind (DUMMY_BYTE :: rx), 0, false, plen,
            (phy t ⟨len, outdata.take len⟩).1,
            log ++ [(⟨len, outdata.take len⟩, ⟨(len : Int), DUMMY_BYTE :: rx⟩)]⟩ := by
  rw [ndlc_iter_step _ _ _ _ _ (by simp [ndlc_guard, hr])]
  simp [ndlc_body, xfer, h, rd_writeBuf_zero, hlen]

theorem iter_readack_ack (n dl : Nat) (ind : List Nat) (retry plen : Nat) (t : σ)
    (log : List (PhyCall × PhyReply)) (rx : List Nat) (hr : retry < 100)
    (h : (phy t ⟨2, [DUMMY_BYTE, DUMMY_BYTE]⟩).2 = ⟨2, NDLC_PCB_SUPERVISOR_ACK :: rx⟩) :
    ndlc_iter phy len outdata (n + 1) ⟨NDLC_READACK, dl, ind, retry, false, plen, t, log⟩
      = ndlc_iter phy len outdata n
          ⟨NDLC_READHEADER, dl, writeBuf ind (NDLC_PCB_SUPERVISOR_ACK :: rx), 0, false, plen,
            (phy t ⟨2, [DUMMY_BYTE, DUMMY_BYTE]⟩).1,
            log ++ [(⟨2, [DUMMY_BYTE, DUMMY_BYTE]⟩, ⟨2, NDLC_PCB_SUPERVISOR_ACK :: rx⟩)]⟩ := by
  rw [ndlc_iter_step _ _ _ _ _ (by simp [ndlc_guard, hr])]
  simp [ndlc_body, xfer, h, rd_writeBuf_zero]

theorem iter_readack_nack (n dl : Nat) (ind : List Nat) (retry plen : Nat) (t : σ)
    (log : List (PhyCall × PhyReply)) (rx : List Nat) (hr : retry < 100)
    (h : (phy t ⟨2, [DUMMY_BYTE, DUMMY_BYTE]⟩).2 = ⟨2, NDLC_PCB_SUPERVISOR_NACK :: rx⟩) :
    ndlc_iter phy len outdata (n + 1) ⟨NDLC_READACK, dl, ind, retry, false, plen, t, log⟩
      = ndlc_iter phy len outdata n
          ⟨NDLC_SENDCMD, dl, writeBuf ind (NDLC_PCB_SUPERVISOR_NACK :: rx), 0, false, plen,
            (phy t ⟨2, [DUMMY_BYTE, DUMMY_BYTE]⟩).1,
            log ++ [(⟨2, [DUMMY_BYTE, DUMMY_BYTE]⟩, ⟨2, NDLC_PCB_SUPERVISOR_NACK :: rx⟩)]⟩ := by
  rw [ndlc_iter_step _ _ _ _ _ (by simp [ndlc_guard, hr])]
  simp [ndlc_body, xfer, h, rd_writeBuf_zero, NDLC_PCB_SUPERVISOR_NACK, NDLC_PCB_SUPERVISOR_ACK]

theorem iter_readheader_data (n dl : Nat) (ind : List Nat) (retry plen : Nat) (t : σ)
    (log : List (PhyCall × PhyReply)) (l : Nat) (rx : List Nat) (hr : retry < 100)
    (h : (phy t ⟨2, [DUMMY_BYTE, DUMMY_BYTE]⟩).2 = ⟨2, NDLC_PCB_DATA :: l :: rx⟩) :
    ndlc_iter phy len outdata (n + 1) ⟨NDLC_READHEADER, dl, ind, retry, false, plen, t, log⟩
      = ndlc_iter phy len outdata n
          ⟨NLDC_READDATA, dl, writeBuf ind (NDLC_PCB_DATA :: l :: rx), 0, false, l,
            (phy t ⟨2, [DUMMY_BYTE, DUMMY_BYTE]⟩).1,
            log ++ [(⟨2, [DUMMY_BYTE, DUMMY_BYTE]⟩, ⟨2, NDLC_PCB_DATA :: l :: rx⟩)]⟩ := by
  rw [ndlc_iter_step _ _ _ _ _ (by simp [ndlc_guard, hr])]
  simp [ndlc_body, xfer, h, rd_writeBuf_zero, rd_writeBuf_one]

theorem iter_readdata_apdu (n dl : Nat) (ind : List Nat) (retry plen : Nat) (t : σ)
    (log : List (PhyCall × PhyReply)) (rx : List Nat) (hr : retry < 100)
    (h : (phy t ⟨plen, List.replicate plen DUMMY_BYTE⟩).2
      = ⟨(plen : Int), NDLC_PCB_SUPERVISOR_ACK :: NDLC_MESSAGE_HEADER_EVT_R_APDU :: rx⟩) :
    ndlc_iter phy len outdata (n + 1) ⟨NLDC_READDATA, dl, ind, retry, false, plen, t, log⟩
      = ndlc_iter phy len outdata n
          ⟨NLDC_SENDACK, (plen + 2 ^ 32 - 2) % 2 ^ 32 % 2 ^ 16,
            writeBuf (writeBuf ind (List.replicate plen DUMMY_BYTE))
              (NDLC_PCB_SUPERVISOR_ACK :: NDLC_MESSAGE_HEADER_EVT_R_APDU :: rx),
            0, false, plen, (phy t ⟨plen, List.replicate plen DUMMY_BYTE⟩).1,
            log ++ [(⟨plen, List.replicate plen DUMMY_BYTE⟩,
              ⟨(plen : Int), NDLC_PCB_SUPERVISOR_ACK :: NDLC_MESSAGE_HEADER_EVT_R_APDU :: rx⟩)]⟩ := by
  rw [ndlc_iter_step _ _ _ _ _ (by simp [ndlc_guard, hr])]
  simp [ndlc_body, xfer, take_writeBuf_replicate, h, rd_writeBuf_zero, rd_writeBuf_one,
    NDLC_MESSAGE_HEADER_EVT_R_APDU, NDLC_MESSAGE_HEADER_EVT_C_APDU]

theorem iter_readdata_wtx (n dl : Nat) (ind : List Nat) (retry plen : Nat) (t : σ)
    (log : List (PhyCall × PhyReply)) (rx : List Nat) (hr : retry < 100)
    (h : (phy t ⟨plen, List.replicate plen DUMMY_BYTE⟩).2
      = ⟨(plen : Int), NDLC_PCB_SUPERVISOR_ACK :: NDLC_MESSAGE_HEADER_EVT_WTX :: rx⟩) :
    ndlc_iter phy len outdata (n + 1) ⟨NLDC_READDATA, dl, ind, retry, false, plen, t, log⟩
      = ndlc_iter phy len outdata n
          ⟨NDLC_READHEADER, dl,
            writeBuf (writeBuf ind (List.replicate plen DUMMY_BYTE))
              (NDLC_PCB_SUPERVISOR_ACK :: NDLC_MESSAGE_HEADER_EVT_WTX :: rx),
            0, false, plen, (phy t ⟨plen, List.replicate plen DUMMY_BYTE⟩).1,
            log ++ [(⟨plen, List.replicate plen DUMMY_BYTE⟩,
              ⟨(plen : Int), NDLC_PCB_SUPERVISOR_ACK :: NDLC_MESSAGE_HEADER_EVT_WTX :: rx⟩)]⟩ := by
  rw [ndlc_iter_step _ _ _ _ _ (by simp [ndlc_guard, hr])]
  simp [ndlc_body, xfer, take_writeBuf_replicate, h, rd_writeBuf_zero, rd_writeBuf_one,
    NDLC_MESSAGE_HEADER_EVT_WTX, NDLC_MESSAGE_HEADER_EVT_C_APDU, NDLC_MESSAGE_HEADER_EVT_ATR]

theorem iter_sendack_ok (n dl : Nat) (ind : List Nat) (retry plen : Nat) (t : σ)
    (log : List (PhyCall × PhyReply)) (rx : List Nat) (hr : retry < 100)
    (h : (phy t ⟨2, [NDLC_PCB_SUPERVISOR_ACK, 0x00]⟩).2 = ⟨2, DUMMY_BYTE :: rx⟩) :
    ndlc_iter phy len outdata (n + 1) ⟨NLDC_SENDACK, dl, ind, retry, false, plen, t, log⟩
      = ⟨NDLC_IDLE, dl, writeBuf ind (DUMMY_BYTE :: rx), retry, true, plen,
          (phy t ⟨2, [NDLC_PCB_SUPERVISOR_ACK, 0x00]⟩).1,
          log ++ [(⟨2, [NDLC_PCB_SUPERVISOR_ACK, 0x00]⟩, ⟨2, DUMMY_BYTE :: rx⟩)]⟩ := by
  rw [ndlc_iter_step _ _ _ _ _ (by simp [ndlc_guard, hr])]
  rw [ndlc_iter_done]
  · simp [ndlc_body, xfer, h, rd_writeBuf_zero]
  · simp [ndlc_body, xfer, h, rd_writeBuf_zero, ndlc_guard]

theorem iter_sendcmd_retry (n dl : Nat) (ind : List Nat) (retry plen : Nat) (t : σ)
    (log : List (PhyCall × PhyReply)) (res : Int) (rx : List Nat) (hr : retry < 100)
    (h : (phy t ⟨len, outdata.take len⟩).2 = ⟨res, rx⟩)
    (hbad : ¬ (0 < res ∧ res = (len : Int) ∧ rd (writeBuf ind rx) 0 = DUMMY_BYTE)) :
    ndlc_iter phy len outdata (n + 1) ⟨NDLC_SENDCMD, dl, ind, retry, false, plen, t, log⟩
      = ndlc_iter phy len outdata n
          ⟨NDLC_SENDCMD, dl, writeBuf ind rx, retry + 1, false, plen,
            (phy t ⟨len, outdata.take len⟩).1,
            log ++ [(⟨len, outdata.take len⟩, ⟨res, rx⟩)]⟩ := by
  rw [ndlc_iter_step _ _ _ _ _ (by simp [ndlc_guard, hr])]
  simp only [ndlc_body, xfer, h]
  by_cases h1 : 0 < res ∧ res = (len : Int)
  · have h2 : ¬ rd (writeBuf ind rx) 0 = DUMMY_BYTE := fun h3 => hbad ⟨h1.1, h1.2, h3⟩
    simp [h1, h2]
  · simp [h1]

end steps

/-! ## Exchanges that exhaust the retry counter in SendCmd -/

/-- When every reply to the command is a full-length transfer filled with a byte other
than `0xFE`, the loop stays in SendCmd until the counter reaches 100. -/
theorem sendcmd_exhaust {σ : Type} (phy : Phy σ) (len : Nat) (outdata : List Nat) (b : Nat)
    (hb : b ≠ DUMMY_BYTE)
    (hphy : ∀ t c, (phy t c).2 = ⟨(c.len : Int), List.replicate c.len b⟩)
    (k n dl : Nat) (ind : List Nat) (retry plen : Nat) (t : σ)
    (log : List (PhyCall × PhyReply)) (hk : retry + k = 100) :
    ∃ ind1 t1, ndlc_iter phy len outdata (k + n)
        ⟨NDLC_SENDCMD, dl, ind, retry, false, plen, t, log⟩
      = ⟨NDLC_SENDCMD, dl, ind1, 100, false, plen, t1,
          log ++ List.replicate k
            (⟨len, outdata.take len⟩, ⟨(len : Int), List.replicate len b⟩)⟩ := by
  induction k generalizing ind retry t log with
  | zero =>
    refine ⟨ind, t, ?_⟩
    have : retry = 100 := by omega
    subst this
    rw [ndlc_iter_done _ _ _ _ _ (by simp [ndlc_guard])]
    simp
  | succ k ih =>
    have hbad : ¬ (0 < (len : Int) ∧ (len : Int) = (len : Int)
        ∧ rd (writeBuf ind (List.replicate len b)) 0 = DUMMY_BYTE) := by
      rintro ⟨h0, -, h2⟩
      obtain ⟨m, rfl⟩ : ∃ m, len = m + 1 := ⟨len - 1, by omega⟩
      rw [List.replicate_succ, rd_writeBuf_zero] at h2
      exact hb h2
    rw [Nat.add_right_comm,
      iter_sendcmd_retry phy len outdata _ _ _ _ _ _ _ _ _ (by omega) (hphy t _) hbad]
    obtain ⟨ind1, t1, h1⟩ := ih (writeBuf ind (List.replicate len b)) (retry + 1)
      (phy t ⟨len, outdata.take len⟩).1
      (log ++ [(⟨len, outdata.take len⟩, ⟨(len : Int), List.replicate len b⟩)]) (by omega)
    refine ⟨ind1, t1, ?_⟩
    rw [h1, List.append_assoc, List.replicate_succ]
    rfl

/-- C3. Bounded retries: if the transport always reports the full requested length and
fills the receive buffer with a byte `b` that is valid in no state (already `b ≠ 0xFE`
is enough), then `ndlc_send_receive` started from Idle returns -1 after exactly 100
transport calls, each of them transmitting the full command, the retry counter having
been incremented 100 times; the device is left in SendCmd. -/
theorem bounded_retries {σ : Type} (phy : Phy σ) (b : Nat) (t : σ) (p_dev : ndlc_device_t)
    (len : Nat) (outdata indata : List Nat) (fuel : Nat)
    (hb : b ∉ [DUMMY_BYTE, NDLC_PCB_SUPERVISOR_ACK, NDLC_PCB_SUPERVISOR_NACK, NDLC_PCB_DATA])
    (hphy : ∀ t c, (phy t c).2 = ⟨(c.len : Int), List.replicate c.len b⟩)
    (hidle : p_dev.status = NDLC_IDLE) (hfuel : 101 ≤ fuel) :
    ∃ e, ndlc_send_receive phy fuel t p_dev len outdata indata = some e
      ∧ e.res = -1
      ∧ e.retry = 100
      ∧ e.log.length = 100
      ∧ e.log.map Prod.fst = List.replicate 100 ⟨len, outdata.take len⟩
      ∧ e.dev.status = NDLC_SENDCMD := by
  obtain ⟨k, rfl⟩ : ∃ k, fuel = 100 + k + 1 := ⟨fuel - 101, by omega⟩
  have hb1 : b ≠ DUMMY_BYTE := fun h => hb (by simp [h])
  obtain ⟨ind1, t1, h1⟩ := sendcmd_exhaust phy len outdata b hb1 hphy 100 k 0 indata 0 0 t []
    (by omega)
  simp only [ndlc_send_receive, ndlc_entry, hidle]
  rw [iter_idle _ _ _ _ _ _ _ _ _ _ (by omega), h1]
  simp [ndlc_guard]

/-- Witness for C3: the stateless transport filling the buffer with `0x11`, and the
Abort command. -/
theorem bounded_retries_witness :
    ∃ e, ndlc_send_receive (constPhy 0x11) 101 () ⟨0, NDLC_IDLE, 0, List.replicate 260 0⟩
        4 [0x80, 0x02, 0xE0, 0x51] (List.replicate 260 0) = some e
      ∧ e.res = -1
      ∧ e.retry = 100
      ∧ e.log.length = 100
      ∧ e.log.map Prod.fst = List.replicate 100 ⟨4, [0x80, 0x02, 0xE0, 0x51]⟩
      ∧ e.dev.status = NDLC_SENDCMD :=
  bounded_retries (constPhy 0x11) 0x11 () ⟨0, NDLC_IDLE, 0, List.replicate 260 0⟩
    4 [0x80, 0x02, 0xE0, 0x51] (List.replicate 260 0) 101 (by decide) (fun _ _ => rfl) rfl
    (by decide)

/-! ## The ReadAck branch does not count an unexpected first byte -/

/-- While the transport answers every transfer with the full length and `0xFE` bytes,
an exchange started in Idle, SendCmd or ReadAck with a zero counter stays in these
states with a zero counter. -/
theorem dummy_stall_body {σ : Type} (phy : Phy σ) (len : Nat) (outdata : List Nat)
    (hphy : ∀ t c, (phy t c).2 = ⟨(c.len : Int), List.replicate c.len DUMMY_BYTE⟩)
    (hlen : 0 < len) (s : LoopState σ)
    (h : s.exit = false ∧ s.retry = 0
      ∧ (s.status = NDLC_IDLE ∨ s.status = NDLC_SENDCMD ∨ s.status = NDLC_READACK)) :
    (ndlc_body phy len outdata s).exit = false ∧ (ndlc_body phy len outdata s).retry = 0
      ∧ ((ndlc_body phy len outdata s).status = NDLC_IDLE
        ∨ (ndlc_body phy len outdata s).status = NDLC_SENDCMD
        ∨ (ndlc_body phy len outdata s).status = NDLC_READACK) := by
  obtain ⟨he, hr, hs | hs | hs⟩ := h
  · simp [ndlc_body, hs, he]
  · obtain ⟨m, rfl⟩ : ∃ m, len = m + 1 := ⟨len - 1, by omega⟩
    have h0 : (0 : Int) < (m : Int) + 1 := by omega
    simp [ndlc_body, xfer, hs, he, hphy, List.replicate_succ, rd_writeBuf_zero, h0]
  · simp [ndlc_body, xfer, hs, he, hr, hphy, List.replicate_succ, rd_writeBuf_zero]

theorem dummy_stall_iter {σ : Type} (phy : Phy σ) (len : Nat) (outdata : List Nat)
    (hphy : ∀ t c, (phy t c).2 = ⟨(c.len : Int), List.replicate c.len DUMMY_BYTE⟩)
    (hlen : 0 < len) (n : Nat) (s : LoopState σ)
    (h : s.exit = false ∧ s.retry = 0
      ∧ (s.status = NDLC_IDLE ∨ s.status = NDLC_SENDCMD ∨ s.status = NDLC_READACK)) :
    ndlc_guard (ndlc_iter phy len outdata n s) = true := by
  induction n generalizing s with
  | zero => simp [ndlc_iter, ndlc_guard, h.1, h.2.1]
  | succ n ih =>
    rw [ndlc_iter_step _ _ _ _ _ (by simp [ndlc_guard, h.1, h.2.1])]
    exact ih _ (dummy_stall_body phy len outdata hphy hlen s h)

/-- C4, evaluation of the code: when the peer answers the sentinel `0xFE` to every
transfer, `ndlc_send_receive` started from Idle never returns, whatever the number of
loop iterations it is given, because ReadAck does not count a first byte that is
neither ACK nor NACK. -/
theorem dummy_forever_never_returns {σ : Type} (phy : Phy σ) (t : σ) (p_dev : ndlc_device_t)
    (len : Nat) (outdata indata : List Nat) (fuel : Nat)
    (hphy : ∀ t c, (phy t c).2 = ⟨(c.len : Int), List.replicate c.len DUMMY_BYTE⟩)
    (hlen : 0 < len) (hidle : p_dev.status = NDLC_IDLE) :
    ndlc_send_receive phy fuel t p_dev len outdata indata = none := by
  have h := dummy_stall_iter phy len outdata hphy hlen fuel (ndlc_entry p_dev indata t)
    ⟨rfl, rfl, Or.inl hidle⟩
  simp [ndlc_send_receive, h]

/-- Witness for C4: the Abort command against the transport that answers `0xFE`
forever is still running after 100000 loop iterations. -/
theorem dummy_forever_never_returns_witness :
    ndlc_send_receive (constPhy 0xFE) 100000 () ⟨0, NDLC_IDLE, 0, List.replicate 260 0⟩
      4 [0x80, 0x02, 0xE0, 0x51] (List.replicate 260 0) = none :=
  dummy_forever_never_returns (constPhy 0xFE) () ⟨0, NDLC_IDLE, 0, List.replicate 260 0⟩
    4 [0x80, 0x02, 0xE0, 0x51] (List.replicate 260 0) 100000 (fun _ _ => rfl) (by decide) rfl

/-- C7, evaluation of the code: in ReadAck a full-length reply whose first byte is
neither ACK (`0xE0`) nor NACK (`0xD0`) leaves the status in ReadAck and leaves the retry
counter as it was: the synchronisation error is not charged as a retry. -/
theorem readack_sync_error_not_counted {σ : Type} (phy : Phy σ) (len : Nat)
    (outdata : List Nat) (s : LoopState σ) (b : Nat) (rx : List Nat)
    (hs : s.status = NDLC_READACK)
    (h : (phy s.phy ⟨2, [DUMMY_BYTE, DUMMY_BYTE]⟩).2 = ⟨2, b :: rx⟩)
    (hack : b ≠ NDLC_PCB_SUPERVISOR_ACK) (hnack : b ≠ NDLC_PCB_SUPERVISOR_NACK) :
    (ndlc_body phy len outdata s).status = NDLC_READACK
      ∧ (ndlc_body phy len outdata s).retry = s.retry
      ∧ (ndlc_body phy len outdata s).log
          = s.log ++ [(⟨2, [DUMMY_BYTE, DUMMY_BYTE]⟩, ⟨2, b :: rx⟩)] := by
  simp [ndlc_body, xfer, hs, h, rd_writeBuf_zero, hack, hnack]

/-- Witness for C7: ReadAck with the counter at 5, answered by `[0xFE, 0xFE]`. -/
theorem readack_sync_error_not_counted_witness :
    (ndlc_body (constPhy 0xFE) 4 [0x80, 0x02, 0xE0, 0x51]
        ⟨NDLC_READACK, 0, [0xFE, 0xFE, 0xFE, 0xFE], 5, false, 0, (), []⟩).status = NDLC_READACK
      ∧ (ndlc_body (constPhy 0xFE) 4 [0x80, 0x02, 0xE0, 0x51]
        ⟨NDLC_READACK, 0, [0xFE, 0xFE, 0xFE, 0xFE], 5, false, 0, (), []⟩).retry = 5
      ∧ (ndlc_body (constPhy 0xFE) 4 [0x80, 0x02, 0xE0, 0x51]
        ⟨NDLC_READACK, 0, [0xFE, 0xFE, 0xFE, 0xFE], 5, false, 0, (), []⟩).log
          = [(⟨2, [0xFE, 0xFE]⟩, ⟨2, [0xFE, 0xFE]⟩)] :=
  readack_sync_error_not_counted (constPhy 0xFE) 4 [0x80, 0x02, 0xE0, 0x51]
    ⟨NDLC_READACK, 0, [0xFE, 0xFE, 0xFE, 0xFE], 5, false, 0, (), []⟩ 0xFE [0xFE] rfl rfl
    (by decide) (by decide)

/-! ## Transport errors -/

theorem body_retry_le {σ : Type} (phy : Phy σ) (len : Nat) (outdata : List Nat)
    (s : LoopState σ) : (ndlc_body phy len outdata s).retry ≤ s.retry + 1 := by
  rcases hs : s.status <;> simp only [ndlc_body, hs, xfer] <;> (try split_ifs) <;> simp

theorem iter_retry_le {σ : Type} (phy : Phy σ) (len : Nat) (outdata : List Nat)
    (n : Nat) (s : LoopState σ) (h : s.retry ≤ 100) :
    (ndlc_iter phy len outdata n s).retry ≤ 100 := by
  induction n generalizing s with
  | zero => exact h
  | succ n ih =>
    by_cases hg : ndlc_guard s = true
    · rw [ndlc_iter_step _ _ _ _ _ hg]
      have h1 : s.retry < 100 := by
        simp only [ndlc_guard, Bool.and_eq_true, decide_eq_true_eq] at hg
        exact hg.1
      exact ih _ (le_trans (body_retry_le phy len outdata s) (by omega))
    · rw [ndlc_iter_done _ _ _ _ _ (by simpa using hg)]
      exact h

/-- In SendCmd the loop body makes exactly one transport call: the full command. -/
theorem body_sendcmd_log {σ : Type} (phy : Phy σ) (len : Nat) (outdata : List Nat)
    (s : LoopState σ) (hs : s.status = NDLC_SENDCMD) :
    (ndlc_body phy len outdata s).log
      = s.log ++ [(⟨len, outdata.take len⟩, (phy s.phy ⟨len, outdata.take len⟩).2)] := by
  simp only [ndlc_body, hs, xfer]
  split_ifs <;> rfl

/-- C8. Transport errors are never fatal by themselves. In each of the five states
that call the transport the loop body makes exactly one call, of the length that state
requests (the command length in SendCmd, `plen` in ReadData, 2 elsewhere); when the
result of that call differs from the requested length (negative, short or otherwise),
the status and `dataLen` are unchanged and the retry counter is incremented by exactly
one. And `ndlc_send_receive` returns -1 only with the counter at 100. -/
theorem transport_error_is_retry {σ : Type} (phy : Phy σ) (len : Nat) (outdata : List Nat) :
    (∀ s : LoopState σ, s.status ≠ NDLC_IDLE →
      ∃ c, (ndlc_body phy len outdata s).log = s.log ++ [(c, (phy s.phy c).2)]
        ∧ c.len = (match s.status with
            | NDLC_SENDCMD => len
            | NLDC_READDATA => s.plen
            | _ => 2)
        ∧ ((phy s.phy c).2.res ≠ (c.len : Int) →
            (ndlc_body phy len outdata s).status = s.status
            ∧ (ndlc_body phy len outdata s).dataLen = s.dataLen
            ∧ (ndlc_body phy len outdata s).retry = s.retry + 1))
    ∧ (∀ (fuel : Nat) (t : σ) (p_dev : ndlc_device_t) (indata : List Nat)
        (e : EngineResult σ),
        ndlc_send_receive phy fuel t p_dev len outdata indata = some e →
        e.res = -1 → e.retry = 100) := by
  refine ⟨?_, ?_⟩
  · intro s hs
    rcases hst : s.status with _ | _ | _ | _ | _ | _
    · exact absurd hst hs
    · refine ⟨⟨len, outdata.take len⟩, by simp [ndlc_body, hst, xfer]; split_ifs <;> rfl,
        rfl, fun hne => ?_⟩
      have : ¬ (0 < (phy s.phy ⟨len, outdata.take len⟩).2.res
          ∧ (phy s.phy ⟨len, outdata.take len⟩).2.res = (len : Int)) := fun h => hne h.2
      simp [ndlc_body, hst, xfer, this]
    · refine ⟨⟨2, [DUMMY_BYTE, DUMMY_BYTE]⟩,
        by simp only [ndlc_body, hst, xfer]; split_ifs <;> rfl, rfl, fun hne => ?_⟩
      have : ¬ (phy s.phy ⟨2, [DUMMY_BYTE, DUMMY_BYTE]⟩).2.res = 2 := hne
      simp [ndlc_body, hst, xfer, this]
    · refine ⟨⟨2, [DUMMY_BYTE, DUMMY_BYTE]⟩,
        by simp only [ndlc_body, hst, xfer]; split_ifs <;> rfl, rfl, fun hne => ?_⟩
      have : ¬ (phy s.phy ⟨2, [DUMMY_BYTE, DUMMY_BYTE]⟩).2.res = 2 := hne
      simp [ndlc_body, hst, xfer, this]
    · refine ⟨⟨s.plen, List.replicate s.plen DUMMY_BYTE⟩,
        by simp only [ndlc_body, hst, xfer, take_writeBuf_replicate]; split_ifs <;> rfl, rfl,
        fun hne => ?_⟩
      have : ¬ (phy s.phy ⟨s.plen, List.replicate s.plen DUMMY_BYTE⟩).2.res = (s.plen : Int) :=
        hne
      simp [ndlc_body, hst, xfer, take_writeBuf_replicate, this]
    · refine ⟨⟨2, [NDLC_PCB_SUPERVISOR_ACK, 0]⟩,
        by simp only [ndlc_body, hst, xfer]; split_ifs <;> rfl, rfl, fun hne => ?_⟩
      have : ¬ (phy s.phy ⟨2, [NDLC_PCB_SUPERVISOR_ACK, 0]⟩).2.res = 2 := hne
      simp [ndlc_body, hst, xfer, this]
  · intro fuel t p_dev indata e he hres
    obtain ⟨hg, hr, -, -, -, hretry, -⟩ := ndlc_send_receive_some _ _ _ _ _ _ _ _ he
    have hle := iter_retry_le phy len outdata fuel (ndlc_entry p_dev indata t)
      (by simp [ndlc_entry])
    rw [hretry]
    rw [hr] at hres
    by_cases hex : (ndlc_iter phy len outdata fuel (ndlc_entry p_dev indata t)).exit = true
    · simp [hex] at hres
    · simp only [ndlc_guard, Bool.and_eq_false_iff, decide_eq_false_iff_not, beq_eq_false_iff_ne,
        ne_eq, Bool.not_eq_false] at hg
      rcases hg with hg | hg
      · omega
      · exact absurd hg hex

/-- Witness for C8: a failed transfer (-1) in ReadData with the counter at 7. -/
theorem transport_error_is_retry_witness :
    (ndlc_body scriptPhy 4 [0x80, 0x02, 0xE0, 0x51]
        ⟨NLDC_READDATA, 0, [0x80, 5], 7, false, 5, [⟨-1, []⟩], []⟩).status = NLDC_READDATA
      ∧ (ndlc_body scriptPhy 4 [0x80, 0x02, 0xE0, 0x51]
        ⟨NLDC_READDATA, 0, [0x80, 5], 7, false, 5, [⟨-1, []⟩], []⟩).dataLen = 0
      ∧ (ndlc_body scriptPhy 4 [0x80, 0x02, 0xE0, 0x51]
        ⟨NLDC_READDATA, 0, [0x80, 5], 7, false, 5, [⟨-1, []⟩], []⟩).retry = 8 := by
  obtain ⟨c, -, -, h⟩ := (transport_error_is_retry scriptPhy 4 [0x80, 0x02, 0xE0, 0x51]).1
    ⟨NLDC_READDATA, 0, [0x80, 5], 7, false, 5, [⟨-1, []⟩], []⟩ (by decide)
  exact h (by show (-1 : Int) ≠ (c.len : Int); omega)

/-! ## The first transport call of an exchange -/

theorem body_log_prefix {σ : Type} (phy : Phy σ) (len : Nat) (outdata : List Nat)
    (s : LoopState σ) : ∃ l, (ndlc_body phy len outdata s).log = s.log ++ l := by
  rcases hs : s.status <;> simp only [ndlc_body, hs, xfer] <;> (try split_ifs) <;>
    first
      | exact ⟨[_], rfl⟩
      | exact ⟨[], (List.append_nil _).symm⟩

theorem iter_log_prefix {σ : Type} (phy : Phy σ) (len : Nat) (outdata : List Nat)
    (n : Nat) (s : LoopState σ) : ∃ l, (ndlc_iter phy len outdata n s).log = s.log ++ l := by
  induction n generalizing s with
  | zero => exact ⟨[], by simp [ndlc_iter]⟩
  | succ n ih =>
    by_cases hg : ndlc_guard s = true
    · rw [ndlc_iter_step _ _ _ _ _ hg]
      obtain ⟨l1, h1⟩ := body_log_prefix phy len outdata s
      obtain ⟨l2, h2⟩ := ih (ndlc_body phy len outdata s)
      exact ⟨l1 ++ l2, by rw [h2, h1, List.append_assoc]⟩
    · rw [ndlc_iter_done _ _ _ _ _ (by simpa using hg)]
      exact ⟨[], by simp⟩

/-- From Idle, the second loop iteration transmits the command: after two or more
iterations the record of transport calls starts with it. -/
theorem first_call_from_idle {σ : Type} (phy : Phy σ) (len : Nat) (outdata : List Nat)
    (k : Nat) (ind : List Nat) (t : σ) :
    ∃ l, (ndlc_iter phy len outdata (k + 1 + 1) ⟨NDLC_IDLE, 0, ind, 0, false, 0, t, []⟩).log
      = (⟨len, outdata.take len⟩, (phy t ⟨len, outdata.take len⟩).2) :: l := by
  rw [iter_idle _ _ _ _ _ _ _ _ _ _ (by omega), ndlc_iter_step _ _ _ _ _ (by simp [ndlc_guard])]
  obtain ⟨l, hl⟩ := iter_log_prefix phy len outdata k
    (ndlc_body phy len outdata ⟨NDLC_SENDCMD, 0, ind, 0, false, 0, t, []⟩)
  rw [hl, body_sendcmd_log phy len outdata _ rfl]
  exact ⟨l, rfl⟩

/-- What a returned result of `NDLC_apdu` says about the exchange it ran. -/
theorem NDLC_apdu_some {σ : Type} (phy : Phy σ) (fuel : Nat) (t : σ) (p_dev : ndlc_device_t)
    (apdu : List Nat) (apdu_len : Nat) (outdata : List Nat) (e : CmdResult σ)
    (h : NDLC_apdu phy fuel t p_dev apdu apdu_len outdata = some e) :
    ∃ r, ndlc_send_receive phy fuel t { p_dev with status := NDLC_IDLE }
          ((4 + apdu_len) % 2 ^ 16) (apdu_cmd apdu apdu_len) p_dev.data = some r
      ∧ e.log = r.log ∧ e.phy = r.phy ∧ e.dev = { r.dev with data := r.indata }
      ∧ (r.res = 0 → e.result = (r.dev.dataLen : Int)
          ∧ e.outdata = copy_out outdata r.indata r.dev.dataLen)
      ∧ (r.res ≠ 0 → e.result = -1 ∧ e.outdata = outdata) := by
  unfold NDLC_apdu at h
  simp only at h
  split at h
  · exact absurd h (by simp)
  · rename_i r hr
    refine ⟨r, hr, ?_⟩
    by_cases h0 : r.res = 0
    · simp only [h0, if_true, Option.some.injEq] at h
      subst h
      simp [h0]
    · simp only [h0, if_false, Option.some.injEq] at h
      subst h
      simp [h0]

/-- The first transport call of `NDLC_apdu` carries the command buffer. -/
theorem apdu_first_call {σ : Type} (phy : Phy σ) (fuel : Nat) (t : σ) (p_dev : ndlc_device_t)
    (apdu : List Nat) (apdu_len : Nat) :
    (2 ≤ fuel → (NDLC_apdu_calls phy fuel t p_dev apdu apdu_len).head?
        = some ⟨(4 + apdu_len) % 2 ^ 16,
            (apdu_cmd apdu apdu_len).take ((4 + apdu_len) % 2 ^ 16)⟩)
    ∧ (∀ outdata e, NDLC_apdu phy fuel t p_dev apdu apdu_len outdata = some e →
        (e.log.map Prod.fst).head?
          = some ⟨(4 + apdu_len) % 2 ^ 16,
              (apdu_cmd apdu apdu_len).take ((4 + apdu_len) % 2 ^ 16)⟩) := by
  have key : 2 ≤ fuel → ((ndlc_iter phy ((4 + apdu_len) % 2 ^ 16) (apdu_cmd apdu apdu_len) fuel
      (ndlc_entry { p_dev with status := NDLC_IDLE } p_dev.data t)).log.map Prod.fst).head?
        = some ⟨(4 + apdu_len) % 2 ^ 16,
            (apdu_cmd apdu apdu_len).take ((4 + apdu_len) % 2 ^ 16)⟩ := by
    intro hf
    obtain ⟨k, rfl⟩ : ∃ k, fuel = k + 1 + 1 := ⟨fuel - 2, by omega⟩
    obtain ⟨l, hl⟩ := first_call_from_idle phy ((4 + apdu_len) % 2 ^ 16)
      (apdu_cmd apdu apdu_len) k p_dev.data t
    simp only [ndlc_entry]
    rw [hl]
    rfl
  refine ⟨key, ?_⟩
  intro outdata e he
  obtain ⟨r, hr, hlog, -⟩ := NDLC_apdu_some _ _ _ _ _ _ _ _ he
  obtain ⟨hg, -, -, -, -, -, hrl⟩ := ndlc_send_receive_some _ _ _ _ _ _ _ _ hr
  rw [hlog, hrl]
  apply key
  match fuel, hg with
  | 0, hg => simp [ndlc_iter, ndlc_entry, ndlc_guard] at hg
  | 1, hg => simp [ndlc_iter, ndlc_entry, ndlc_guard, ndlc_body] at hg
  | n + 2, _ => omega

/-- C10. APDU command frame: for a payload `p` of at most 253 bytes and whatever the
device held before, the first transport call of `NDLC_apdu` transmits exactly the
`4 + |p|` bytes `[0x80, 2 + |p|, 0xE0, 0x50] ++ p`; the length byte `2 + |p|` fits one
byte, so it is not wrapped. The call has been made once the loop has run twice, and
it is the first call of every exchange that returns. -/
theorem apdu_command_frame {σ : Type} (phy : Phy σ) (fuel : Nat) (t : σ)
    (p_dev : ndlc_device_t) (p : List Nat) (hp : p.length ≤ 253) :
    (2 ≤ fuel → (NDLC_apdu_calls phy fuel t p_dev p p.length).head?
        = some ⟨4 + p.length, [0x80, 2 + p.length, 0xE0, 0x50] ++ p⟩)
    ∧ (∀ outdata e, NDLC_apdu phy fuel t p_dev p p.length outdata = some e →
        (e.log.map Prod.fst).head?
          = some ⟨4 + p.length, [0x80, 2 + p.length, 0xE0, 0x50] ++ p⟩)
    ∧ ([0x80, 2 + p.length, 0xE0, 0x50] ++ p).length = 4 + p.length
    ∧ 2 + p.length < 256 := by
  have hlen : (4 + p.length) % 2 ^ 16 = 4 + p.length := Nat.mod_eq_of_lt (by omega)
  have htake : List.take (4 + p.length) ([0x80, 2 + p.length, 0xE0, 0x50] ++ p)
      = [0x80, 2 + p.length, 0xE0, 0x50] ++ p := List.take_of_length_le (by simp; omega)
  have h := apdu_first_call phy fuel t p_dev p p.length
  rw [hlen, apdu_cmd_length p hp, htake] at h
  exact ⟨h.1, h.2, by simp; omega, by omega⟩

/-- Witness for C10: the payload `[1, 2, 3]` on a device left in SendAck, against the
transport that answers `0x11` everywhere. -/
theorem apdu_command_frame_witness :
    (NDLC_apdu_calls (constPhy 0x11) 2 () ⟨0, NLDC_SENDACK, 9, List.replicate 260 0⟩
        [1, 2, 3] 3).head? = some ⟨7, [0x80, 5, 0xE0, 0x50, 1, 2, 3]⟩ :=
  (apdu_command_frame (constPhy 0x11) 2 () ⟨0, NLDC_SENDACK, 9, List.replicate 260 0⟩
    [1, 2, 3] (by decide)).1 (by decide)

set_option maxRecDepth 100000 in
/-- C9, counterexample: a payload of 256 bytes is not rejected. Against a transport
playing the happy path with the response `[0x90, 0x00]`, `NDLC_apdu` makes five
transport calls, the first of 260 bytes, and returns 2. -/
theorem apdu_256_not_rejected :
    ∃ e, NDLC_apdu scriptPhy 6
        [⟨260, [0xFE]⟩, ⟨2, [0xE0, 0]⟩, ⟨2, [0x80, 4]⟩, ⟨4, [0xE0, 0x50, 0x90, 0x00]⟩,
          ⟨2, [0xFE, 0]⟩]
        ⟨0, NDLC_IDLE, 0, List.replicate 260 0⟩ (List.replicate 256 7) 256 [0, 0] = some e
      ∧ e.result = 2
      ∧ e.outdata = [0x90, 0x00]
      ∧ e.log.length = 5
      ∧ (e.log.map Prod.fst).head?
          = some ⟨260, [0x80, 2, 0xE0, 0x50] ++ List.replicate 256 7⟩ := by
  refine ⟨_, rfl, ?_, ?_, ?_, ?_⟩ <;> decide

/-- C9, as amended. `NDLC_apdu` performs no validation of the payload size: for every
payload that its command buffer `cmd[4 + 256]` holds (so also for 254, 255 and 256
bytes) the exchange is started. The first transport call, of `4 + apdu_len` bytes,
has been made once the loop has run twice, and every call of `NDLC_apdu` that returns
has made it. -/
theorem apdu_no_size_check {σ : Type} (phy : Phy σ) (fuel : Nat) (t : σ)
    (p_dev : ndlc_device_t) (p : List Nat) (hp : p.length ≤ 256) :
    (2 ≤ fuel → ∃ c, (NDLC_apdu_calls phy fuel t p_dev p p.length).head? = some c
        ∧ c.len = 4 + p.length ∧ c.tx.length = 4 + p.length)
    ∧ (∀ outdata e, NDLC_apdu phy fuel t p_dev p p.length outdata = some e →
        ∃ c, (e.log.map Prod.fst).head? = some c
          ∧ c.len = 4 + p.length ∧ c.tx.length = 4 + p.length) := by
  have hlen : (4 + p.length) % 2 ^ 16 = 4 + p.length := Nat.mod_eq_of_lt (by omega)
  have hcl : ((apdu_cmd p p.length).take (4 + p.length)).length = 4 + p.length := by
    simp [apdu_cmd]
    omega
  have h := apdu_first_call phy fuel t p_dev p p.length
  rw [hlen] at h
  exact ⟨fun hf => ⟨_, h.1 hf, rfl, hcl⟩, fun outdata e he => ⟨_, h.2 outdata e he, rfl, hcl⟩⟩

/-- Witness for C9 as amended: a payload of 256 bytes against the transport that answers
`0x11` everywhere. -/
theorem apdu_no_size_check_witness :
    ∃ c, (NDLC_apdu_calls (constPhy 0x11) 2 () ⟨0, NDLC_IDLE, 0, List.replicate 260 0⟩
        (List.replicate 256 7) (List.replicate 256 7).length).head? = some c
      ∧ c.len = 4 + (List.replicate 256 7).length
      ∧ c.tx.length = 4 + (List.replicate 256 7).length :=
  (apdu_no_size_check (constPhy 0x11) 2 () ⟨0, NDLC_IDLE, 0, List.replicate 260 0⟩
    (List.replicate 256 7) (le_of_eq (List.length_replicate _ _))).1 (by decide)

/-! ## Wait-time extensions -/

theorem wtx_round_zip (ws : List (List Nat)) (ct : List PhyCall) (rt : List PhyReply) :
    (wtxRoundCalls ws ct).zip (wtxRoundReplies ws rt)
      = (wtxRoundCalls ws []).zip (wtxRoundReplies ws []) ++ ct.zip rt := by
  induction ws with
  | nil => simp [wtxRoundCalls, wtxRoundReplies]
  | cons w ws ih => simp [wtxRoundCalls, wtxRoundReplies, ih]

theorem wtx_round_length (ws : List (List Nat)) (ct : List PhyCall) :
    (wtxRoundCalls ws ct).length = 2 * ws.length + ct.length := by
  induction ws with
  | nil => simp [wtxRoundCalls]
  | cons w ws ih => simp [wtxRoundCalls, ih]; omega

theorem wtx_round_replies_length (ws : List (List Nat)) (rt : List PhyReply) :
    (wtxRoundReplies ws rt).length = 2 * ws.length + rt.length := by
  induction ws with
  | nil => simp [wtxRoundReplies]
  | cons w ws ih => simp [wtxRoundReplies, ih]; omega

/-- The loop goes through any number of wait-time extensions: each round takes two
iterations, from ReadHeader back to ReadHeader, and leaves the counter below 100. -/
theorem wtx_rounds {σ : Type} (phy : Phy σ) (len : Nat) (outdata : List Nat)
    (ws : List (List Nat)) (ct : List PhyCall) (rt : List PhyReply) (n dl : Nat)
    (ind : List Nat) (retry plen : Nat) (t : σ) (log : List (PhyCall × PhyReply))
    (hr : retry < 100)
    (h : phyReplies phy t (wtxRoundCalls ws ct) = wtxRoundReplies ws rt) :
    ∃ ind1 retry1 plen1 t1, retry1 < 100 ∧ phyReplies phy t1 ct = rt
      ∧ ndlc_iter phy len outdata (2 * ws.length + n)
          ⟨NDLC_READHEADER, dl, ind, retry, false, plen, t, log⟩
        = ndlc_iter phy len outdata n
          ⟨NDLC_READHEADER, dl, ind1, retry1, false, plen1, t1,
            log ++ (wtxRoundCalls ws []).zip (wtxRoundReplies ws [])⟩ := by
  induction ws generalizing ind retry plen t log with
  | nil =>
    refine ⟨ind, retry, plen, t, hr, h, ?_⟩
    simp [wtxRoundCalls, wtxRoundReplies]
  | cons w ws ih =>
    simp only [wtxRoundCalls, wtxRoundReplies, phyReplies, List.cons.injEq] at h
    obtain ⟨h1, h2, h3⟩ := h
    obtain ⟨ind1, retry1, plen1, t1, hr1, ht1, hrun⟩ := ih _ 0 (2 + w.length) _
      (log ++ [(⟨2, [0xFE, 0xFE]⟩, ⟨2, [0x80, 2 + w.length]⟩)]
        ++ [(⟨2 + w.length, List.replicate (2 + w.length) 0xFE⟩,
            ⟨(2 + w.length : Nat), [0xE0, 0x51] ++ w⟩)])
      (by omega) h3
    refine ⟨ind1, retry1, plen1, t1, hr1, ht1, ?_⟩
    have e : 2 * (w :: ws).length + n = 2 * ws.length + n + 1 + 1 := by
      simp only [List.length_cons]; omega
    rw [e, iter_readheader_data phy _ _ _ _ _ _ _ _ _ (2 + w.length) [] hr h1,
      iter_readdata_wtx phy _ _ _ _ _ _ _ _ _ w (by omega) h2]
    refine hrun.trans ?_
    simp [wtxRoundCalls, wtxRoundReplies]

/-- C5. Wait-time extensions do not consume the retry budget: whatever the number
`ws.length` of rounds in which the transport answers a header `[0x80, Lw]` and a body
`[0xE0, 0x51] ++ w` (with `Lw = 2 + |w|`), if it then answers a header and the body
`[0xE0, 0x50] ++ r`, all other transfers being on the happy path, `NDLC_apdu` returns
`|r|` after exactly `2 * ws.length + 5` transport calls and the output buffer receives
`r`: the length is that of the last header only. -/
theorem apdu_wtx {σ : Type} (phy : Phy σ) (t : σ) (p_dev : ndlc_device_t)
    (p r t1 : List Nat) (b2 b5 : Nat) (ws : List (List Nat)) (outdata : List Nat)
    (fuel : Nat) (hp : p.length ≤ 253) (hr : r.length ≤ 253)
    (hfuel : 2 * ws.length + 6 ≤ fuel)
    (h : phyReplies phy t (wtxCalls p ws r.length) = wtxReplies p r t1 b2 b5 ws) :
    ∃ e, NDLC_apdu phy fuel t p_dev p p.length outdata = some e
      ∧ e.result = (r.length : Int)
      ∧ e.outdata = writeBuf outdata r
      ∧ e.outdata.take r.length = r
      ∧ e.log = (wtxCalls p ws r.length).zip (wtxReplies p r t1 b2 b5 ws)
      ∧ e.log.length = 2 * ws.length + 5
      ∧ e.dev.dataLen = r.length
      ∧ e.dev.status = NDLC_IDLE := by
  obtain ⟨k, rfl⟩ : ∃ k, fuel = 2 * ws.length + (k + 1 + 1 + 1) + 1 + 1 + 1 :=
    ⟨fuel - (2 * ws.length + 6), by omega⟩
  simp only [phyReplies, wtxCalls, wtxReplies, List.cons.injEq] at h
  obtain ⟨h1, h2, h3⟩ := h
  have hlen : (4 + p.length) % 2 ^ 16 = 4 + p.length := Nat.mod_eq_of_lt (by omega)
  have hdl : (2 + r.length + 2 ^ 32 - 2) % 2 ^ 32 % 2 ^ 16 = r.length := by omega
  have htake : List.take (4 + p.length) ([0x80, 2 + p.length, 0xE0, 0x50] ++ p)
      = [0x80, 2 + p.length, 0xE0, 0x50] ++ p := List.take_of_length_le (by simp; omega)
  obtain ⟨ind1, retry1, plen1, t2, hr1, ht2, hrun⟩ :=
    wtx_rounds phy (4 + p.length) ([0x80, 2 + p.length, 0xE0, 0x50] ++ p) ws _ _
      (k + 1 + 1 + 1) 0 (writeBuf (writeBuf p_dev.data (0xFE :: t1)) [0xE0, b2]) 0 0 _
      ([] ++ [(⟨4 + p.length, [0x80, 2 + p.length, 0xE0, 0x50] ++ p⟩,
          ⟨(4 + p.length : Nat), 0xFE :: t1⟩)]
        ++ [(⟨2, [0xFE, 0xFE]⟩, ⟨2, [0xE0, b2]⟩)]) (by omega) h3
  simp only [phyReplies, List.cons.injEq, and_true] at ht2
  obtain ⟨h4, h5, h6⟩ := ht2
  have hfin : ndlc_iter phy (4 + p.length) ([0x80, 2 + p.length, 0xE0, 0x50] ++ p)
      (2 * ws.length + (k + 1 + 1 + 1) + 1 + 1 + 1) ⟨NDLC_IDLE, 0, p_dev.data, 0, false, 0, t, []⟩
      = ⟨NDLC_IDLE, r.length,
          writeBuf (writeBuf (writeBuf (writeBuf ind1 [0x80, 2 + r.length])
            (List.replicate (2 + r.length) 0xFE)) ([0xE0, 0x50] ++ r)) [0xFE, b5],
          0, true, 2 + r.length,
          (phy (phy (phy t2 ⟨2, [0xFE, 0xFE]⟩).1
            ⟨2 + r.length, List.replicate (2 + r.length) 0xFE⟩).1 ⟨2, [0xE0, 0x00]⟩).1,
          (wtxCalls p ws r.length).zip (wtxReplies p r t1 b2 b5 ws)⟩ := by
    rw [iter_idle _ _ _ _ _ _ _ _ _ _ (by omega)]
    rw [iter_sendcmd_ok phy _ _ _ _ _ _ _ _ _ t1 (by omega) (by omega) (by rw [htake]; exact h1)]
    rw [htake]
    rw [iter_readack_ack phy _ _ _ _ _ _ _ _ _ [b2] (by omega) h2]
    refine hrun.trans ?_
    rw [iter_readheader_data phy _ _ _ _ _ _ _ _ _ (2 + r.length) [] hr1 h4]
    rw [iter_readdata_apdu phy _ _ _ _ _ _ _ _ _ r (by omega) h5]
    rw [iter_sendack_ok phy _ _ _ _ _ _ _ _ _ [b5] (by omega) h6, hdl]
    simp [wtxCalls, wtxReplies, wtx_round_zip ws [_, _, _]]
  simp only [NDLC_apdu, ndlc_send_receive, apdu_cmd_length p hp, hlen, ndlc_entry, hfin]
  simp [ndlc_guard, copy_out, writeBuf, wtxCalls, wtxReplies, wtx_round_length,
    wtx_round_replies_length, List.length_zip]

/-- The scripted transport answers any sequence of calls with its script. -/
theorem phyReplies_scriptPhy (script : List PhyReply) (calls : List PhyCall)
    (h : calls.length = script.length) : phyReplies scriptPhy script calls = script := by
  induction script generalizing calls with
  | nil =>
    cases calls with
    | nil => rfl
    | cons c cs => simp at h
  | cons r rs ih =>
    cases calls with
    | nil => simp at h
    | cons c cs =>
      simp only [phyReplies, scriptPhy, List.cons.injEq, true_and]
      exact ih cs (by simpa using h)

/-- Witness for C5: 150 wait-time extensions, more than the retry limit of 100, before
the response `[9, 8, 7, 6]` to the payload `[1, 2, 3]`; 305 transport calls are made. -/
theorem apdu_wtx_witness :
    ∃ e, NDLC_apdu scriptPhy 306
        (wtxReplies [1, 2, 3] [9, 8, 7, 6] [0, 0, 0, 0, 0, 0] 0 0 (List.replicate 150 [1]))
        ⟨0, NDLC_IDLE, 0, List.replicate 260 0⟩ [1, 2, 3] 3 [5, 5, 5, 5, 5, 5] = some e
      ∧ e.result = 4
      ∧ e.outdata = [9, 8, 7, 6, 5, 5]
      ∧ e.log.length = 305 := by
  obtain ⟨e, he, hres, hout, -, -, hlen, -, -⟩ :=
    apdu_wtx scriptPhy
      (wtxReplies [1, 2, 3] [9, 8, 7, 6] [0, 0, 0, 0, 0, 0] 0 0 (List.replicate 150 [1]))
      ⟨0, NDLC_IDLE, 0, List.replicate 260 0⟩ [1, 2, 3] [9, 8, 7, 6] [0, 0, 0, 0, 0, 0] 0 0
      (List.replicate 150 [1]) [5, 5, 5, 5, 5, 5] 306 (by decide) (by decide)
      (by simp)
      (phyReplies_scriptPhy _ _
        (by simp [wtxCalls, wtxReplies, wtx_round_length, wtx_round_replies_length]))
  exact ⟨e, he, hres, hout, by simpa using hlen⟩

/-- C6. A NACK causes a resend, not a failure: if the transport answers the first
acknowledgement poll with first byte `0xD0` and every other transfer follows the happy
path, `ndlc_send_receive` started from Idle returns 0 after seven transport calls, and
its third call (the second SendCmd transfer) has the same length and the same bytes as
its first. More generally, whatever the state of the loop, a SendCmd transfer
transmits the first `len` bytes of the command buffer, which the engine never writes. -/
theorem nack_resend {σ : Type} (phy : Phy σ) (t : σ) (p_dev : ndlc_device_t) (len : Nat)
    (outdata indata t1 t2 t3 t4 : List Nat) (l : Nat) (body t7 : List Nat) (fuel : Nat)
    (hlen : 0 < len) (hidle : p_dev.status = NDLC_IDLE) (hfuel : 8 ≤ fuel)
    (h : phyReplies phy t (nackCalls len outdata l) = nackReplies len t1 t2 t3 t4 l body t7) :
    (∃ e, ndlc_send_receive phy fuel t p_dev len outdata indata = some e
      ∧ e.res = 0
      ∧ e.dev.status = NDLC_IDLE
      ∧ e.log = (nackCalls len outdata l).zip (nackReplies len t1 t2 t3 t4 l body t7)
      ∧ e.log.map Prod.fst = nackCalls len outdata l
      ∧ (e.log.map Prod.fst)[0]? = some ⟨len, outdata.take len⟩
      ∧ (e.log.map Prod.fst)[2]? = some ⟨len, outdata.take len⟩)
    ∧ (∀ s : LoopState σ, s.status = NDLC_SENDCMD →
        (ndlc_body phy len outdata s).log
          = s.log ++ [(⟨len, outdata.take len⟩, (phy s.phy ⟨len, outdata.take len⟩).2)]) := by
  refine ⟨?_, fun s hs => body_sendcmd_log phy len outdata s hs⟩
  obtain ⟨k, rfl⟩ : ∃ k, fuel = k + 1 + 1 + 1 + 1 + 1 + 1 + 1 + 1 := ⟨fuel - 8, by omega⟩
  simp only [phyReplies, nackCalls, nackReplies, List.cons.injEq, and_true] at h
  obtain ⟨h1, h2, h3, h4, h5, h6, h7⟩ := h
  have hrun : ndlc_iter phy len outdata (k + 1 + 1 + 1 + 1 + 1 + 1 + 1 + 1)
      ⟨NDLC_IDLE, 0, indata, 0, false, 0, t, []⟩
      = ⟨NDLC_IDLE, (l + 2 ^ 32 - 2) % 2 ^ 32 % 2 ^ 16,
          writeBuf (writeBuf (writeBuf (writeBuf (writeBuf (writeBuf (writeBuf (writeBuf indata
            (0xFE :: t1)) (0xD0 :: t2)) (0xFE :: t3)) (0xE0 :: t4)) [0x80, l])
            (List.replicate l 0xFE)) (0xE0 :: 0x50 :: body)) (0xFE :: t7),
          0, true, l, phyAfter phy t (nackCalls len outdata l),
          (nackCalls len outdata l).zip (nackReplies len t1 t2 t3 t4 l body t7)⟩ := by
    rw [iter_idle _ _ _ _ _ _ _ _ _ _ (by omega)]
    rw [iter_sendcmd_ok phy _ _ _ _ _ _ _ _ _ t1 (by omega) hlen h1]
    rw [iter_readack_nack phy _ _ _ _ _ _ _ _ _ t2 (by omega) h2]
    rw [iter_sendcmd_ok phy _ _ _ _ _ _ _ _ _ t3 (by omega) hlen h3]
    rw [iter_readack_ack phy _ _ _ _ _ _ _ _ _ t4 (by omega) h4]
    rw [iter_readheader_data phy _ _ _ _ _ _ _ _ _ l [] (by omega) h5]
    rw [iter_readdata_apdu phy _ _ _ _ _ _ _ _ _ body (by omega) h6]
    rw [iter_sendack_ok phy _ _ _ _ _ _ _ _ _ t7 (by omega) h7]
    rfl
  simp only [ndlc_send_receive, ndlc_entry, hidle, hrun]
  simp [ndlc_guard, nackCalls, nackReplies]

/-- Witness for C6: the Abort command, refused once and then answered with the
two-byte payload `[0x3B, 0x00]`. -/
theorem nack_resend_witness :
    ∃ e, ndlc_send_receive scriptPhy 8
        (nackReplies 4 [0, 0, 0] [0] [0, 0, 0] [0] 4 [0x3B, 0x00] [0])
        ⟨0, NDLC_IDLE, 0, List.replicate 260 0⟩ 4 [0x80, 0x02, 0xE0, 0x51]
        (List.replicate 260 0) = some e
      ∧ e.res = 0
      ∧ e.log.map Prod.fst
          = [⟨4, [0x80, 0x02, 0xE0, 0x51]⟩, ⟨2, [0xFE, 0xFE]⟩, ⟨4, [0x80, 0x02, 0xE0, 0x51]⟩,
             ⟨2, [0xFE, 0xFE]⟩, ⟨2, [0xFE, 0xFE]⟩, ⟨4, [0xFE, 0xFE, 0xFE, 0xFE]⟩,
             ⟨2, [0xE0, 0x00]⟩] := by
  obtain ⟨e, he, hres, -, -, hlog, -, -⟩ :=
    (nack_resend scriptPhy (nackReplies 4 [0, 0, 0] [0] [0, 0, 0] [0] 4 [0x3B, 0x00] [0])
      ⟨0, NDLC_IDLE, 0, List.replicate 260 0⟩ 4 [0x80, 0x02, 0xE0, 0x51]
      (List.replicate 260 0) [0, 0, 0] [0] [0, 0, 0] [0] 4 [0x3B, 0x00] [0] 8
      (by decide) rfl (by decide) (by decide)).1
  exact ⟨e, he, hres, hlog⟩

/-! ## The payload handed to the caller -/

theorem exactScriptPhy_exact : ExactPhy exactScriptPhy := by
  intro t c
  cases t with
  | nil =>
    refine ⟨rfl, ?_, by simp [exactScriptPhy]⟩
    show (-1 : Int) ≤ (c.len : Int)
    omega
  | cons r rs =>
    refine ⟨?_, ?_, ?_⟩
    · show _ = Int.toNat ((((r.take c.len).map (· % 256)).length : Nat) : Int)
      rw [Int.toNat_ofNat]
      rfl
    · show ((((r.take c.len).map (· % 256)).length : Nat) : Int) ≤ (c.len : Int)
      rw [List.length_map, List.length_take]
      omega
    · intro b hb
      simp only [exactScriptPhy, List.mem_map] at hb
      obtain ⟨a, -, rfl⟩ := hb
      exact Nat.mod_lt _ (by decide)

theorem writeBuf_le_two (a b : Nat) (tl rx : List Nat) (h : rx.length ≤ 2) :
    ∃ a1 b1, writeBuf (a :: b :: tl) rx = a1 :: b1 :: tl := by
  match rx, h with
  | [], _ => exact ⟨a, b, rfl⟩
  | [x], _ => exact ⟨x, b, rfl⟩
  | [x, y], _ => exact ⟨x, y, rfl⟩
  | _ :: _ :: _ :: _, h => simp at h

theorem writeBuf_two_le (a b : Nat) (tl rx : List Nat) :
    ∃ a1 b1 tl1, writeBuf (a :: b :: tl) rx = a1 :: b1 :: tl1 := by
  match rx with
  | [] => exact ⟨a, b, tl, rfl⟩
  | [x] => exact ⟨x, b, tl, rfl⟩
  | x :: y :: r => exact ⟨x, y, _, rfl⟩

theorem exchangeInv_idle_like {σ : Type} (s : LoopState σ)
    (h1 : s.status ≠ NLDC_READDATA) (h2 : s.status ≠ NLDC_SENDACK) (h3 : s.exit = false) :
    ExchangeInv s :=
  ⟨fun h => absurd h h1, fun h => h.elim (fun h => absurd h h2) (fun h => by simp [h3] at h)⟩

theorem exchangeInv_body_early {σ : Type} (phy : Phy σ) (len : Nat) (outdata : List Nat)
    (s : LoopState σ) (hex : s.exit = false)
    (hs : s.status = NDLC_IDLE ∨ s.status = NDLC_SENDCMD ∨ s.status = NDLC_READACK) :
    ExchangeInv (ndlc_body phy len outdata s) := by
  rcases hs with hs | hs | hs <;> simp only [ndlc_body, hs, xfer] <;> (try split_ifs) <;>
    exact exchangeInv_idle_like _ (by simp [hs]) (by simp [hs]) (by simpa using hex)

theorem exchangeInv_body_readheader {σ : Type} (phy : Phy σ) (hphy : ExactPhy phy)
    (len : Nat) (outdata : List Nat) (s : LoopState σ) (hex : s.exit = false)
    (hs : s.status = NDLC_READHEADER) :
    ExchangeInv (ndlc_body phy len outdata s) := by
  obtain ⟨hl, -, hb⟩ := hphy s.phy ⟨2, [DUMMY_BYTE, DUMMY_BYTE]⟩
  rcases hr : (phy s.phy ⟨2, [DUMMY_BYTE, DUMMY_BYTE]⟩).2 with ⟨res, rx⟩
  rw [hr] at hl hb
  simp only at hl hb
  simp only [ndlc_body, hs, xfer, hr]
  split_ifs with h1 h2
  · subst h1
    obtain ⟨x0, x1, rfl⟩ := List.length_eq_two.mp (show rx.length = 2 from hl)
    rw [rd_writeBuf_zero] at h2
    subst h2
    refine ⟨fun _ => ?_, fun h => ?_⟩
    · simp only [rd_writeBuf_one]
      exact ⟨hb x1 (by simp), s.log, [], NDLC_PCB_DATA, x1, s.indata.drop 2, by simp,
        by simp, rfl, fun _ => rfl, fun _ => rfl⟩
    · simp [hex] at h
  · exact exchangeInv_idle_like _ (by simp [hs]) (by simp [hs]) (by simpa using hex)
  · exact exchangeInv_idle_like _ (by simp [hs]) (by simp [hs]) (by simpa using hex)

theorem exchangeInv_body_sendack {σ : Type} (phy : Phy σ) (hphy : ExactPhy phy)
    (len : Nat) (outdata : List Nat) (s : LoopState σ)
    (hs : s.status = NLDC_SENDACK) (hinv : ExchangeInv s) :
    ExchangeInv (ndlc_body phy len outdata s) := by
  obtain ⟨hl, hle, -⟩ := hphy s.phy ⟨2, [NDLC_PCB_SUPERVISOR_ACK, 0]⟩
  obtain ⟨payload, pre, mid, post, ev, a, b, rest, hlog, hmid, hpost, hev, hlt, hdl, hind⟩ :=
    hinv.2 (Or.inl hs)
  have hrx : (phy s.phy ⟨2, [NDLC_PCB_SUPERVISOR_ACK, 0]⟩).2.rx.length ≤ 2 := by
    simp only at hle
    omega
  obtain ⟨a1, b1, hw⟩ := writeBuf_le_two a b (payload ++ rest) _ hrx
  have key : ∃ payload, Delivered
      (s.log ++ [(⟨2, [NDLC_PCB_SUPERVISOR_ACK, 0]⟩,
        (phy s.phy ⟨2, [NDLC_PCB_SUPERVISOR_ACK, 0]⟩).2)]) s.dataLen
      (writeBuf s.indata (phy s.phy ⟨2, [NDLC_PCB_SUPERVISOR_ACK, 0]⟩).2.rx) payload := by
    refine ⟨payload, pre, mid, post ++ [(⟨2, [NDLC_PCB_SUPERVISOR_ACK, 0]⟩,
      (phy s.phy ⟨2, [NDLC_PCB_SUPERVISOR_ACK, 0]⟩).2)], ev, a1, b1, rest, ?_, hmid, ?_, hev,
      hlt, hdl, ?_⟩
    · rw [hlog]
      simp
    · intro x hx
      rcases List.mem_append.mp hx with hx | hx
      · exact hpost x hx
      · simp only [List.mem_singleton] at hx
        subst hx
        rfl
    · rw [hind, hw]
  simp only [ndlc_body, hs, xfer]
  split_ifs <;> exact ⟨fun h => by simp [hs] at h, fun _ => key⟩

theorem headerSeen_after_transfer (plen : Nat) (ind : List Nat)
    (log : List (PhyCall × PhyReply)) (res : Int) (rx : List Nat)
    (h : HeaderSeen plen ind log) (hrx : rx.length ≤ plen) :
    HeaderSeen plen (writeBuf (writeBuf ind (List.replicate plen 0xFE)) rx)
      (log ++ [(⟨plen, List.replicate plen 0xFE⟩, ⟨res, rx⟩)]) := by
  obtain ⟨hlt, pre, mid, b0, b1, rest, hlog, hmid, hind, h0, h1⟩ := h
  have hmid1 : ∀ x ∈ mid ++ [((⟨plen, List.replicate plen 0xFE⟩ : PhyCall),
      (⟨res, rx⟩ : PhyReply))], x.1 = ⟨plen, List.replicate plen 0xFE⟩ := by
    intro x hx
    rcases List.mem_append.mp hx with hx | hx
    · exact hmid x hx
    · simp only [List.mem_singleton] at hx
      subst hx
      rfl
  have hlog1 : log ++ [((⟨plen, List.replicate plen 0xFE⟩ : PhyCall), (⟨res, rx⟩ : PhyReply))]
      = pre ++ [(⟨2, [0xFE, 0xFE]⟩, ⟨2, [0x80, plen]⟩)]
        ++ (mid ++ [(⟨plen, List.replicate plen 0xFE⟩, ⟨res, rx⟩)]) := by
    rw [hlog]
    simp
  subst hind
  match plen, rx, hrx with
  | 0, [], _ =>
    exact ⟨hlt, pre, _, b0, b1, rest, hlog1, hmid1, rfl, h0, h1⟩
  | 1, [], _ =>
    exact ⟨hlt, pre, _, 0xFE, b1, rest, hlog1, hmid1, rfl, fun h => absurd h (by decide), h1⟩
  | 1, [x], _ =>
    exact ⟨hlt, pre, _, x, b1, rest, hlog1, hmid1, rfl, fun h => absurd h (by decide), h1⟩
  | n + 2, rx, _ =>
    obtain ⟨a1, b1, tl1, hw1⟩ := writeBuf_two_le b0 b1 rest (List.replicate (n + 2) 0xFE)
    obtain ⟨a2, b2, tl2, hw2⟩ := writeBuf_two_le a1 b1 tl1 rx
    rw [hw1, hw2]
    exact ⟨hlt, pre, _, a2, b2, tl2, hlog1, hmid1, rfl, fun h => by omega, fun h => by omega⟩
  | 0, _ :: _, h => simp at h
  | 1, _ :: _ :: _, h => simp at h

theorem delivered_of_accept (plen : Nat) (ind : List Nat)
    (log : List (PhyCall × PhyReply)) (rx : List Nat)
    (h : HeaderSeen plen ind log) (hrx : rx.length = plen)
    (h0 : rd (writeBuf (writeBuf ind (List.replicate plen 0xFE)) rx) 0 = 0xE0)
    (h1 : rd (writeBuf (writeBuf ind (List.replicate plen 0xFE)) rx) 1 = 0x50
      ∨ rd (writeBuf (writeBuf ind (List.replicate plen 0xFE)) rx) 1 = 0x52) :
    ∃ payload, Delivered (log ++ [(⟨plen, List.replicate plen 0xFE⟩, ⟨(plen : Int), rx⟩)])
      ((plen + 2 ^ 32 - 2) % 2 ^ 32 % 2 ^ 16)
      (writeBuf (writeBuf ind (List.replicate plen 0xFE)) rx) payload := by
  obtain ⟨hlt, pre, mid, b0, b1, rest, hlog, hmid, hind, hb0, hb1⟩ := h
  subst hind
  match plen, rx, hrx with
  | 0, [], _ =>
    have : b0 = 0x80 := hb0 rfl
    subst this
    simp [rd, writeBuf] at h0
  | 1, [x], _ =>
    have : b1 = 1 := hb1 (le_refl 1)
    subst this
    simp [rd, writeBuf] at h1
  | n + 2, x0 :: x1 :: payload, hlen =>
    have hn : n = payload.length := by simpa using hlen.symm
    subst hn
    rw [rd_writeBuf_zero] at h0
    rw [rd_writeBuf_one] at h1
    subst h0
    have e : payload.length + 2 = 2 + payload.length := Nat.add_comm _ _
    rw [e] at hlog hmid hlt ⊢
    refine ⟨payload, pre, mid, [], x1, 0xE0, x1, _, ?_, hmid, by simp, h1, hlt, by omega, rfl⟩
    rw [hlog]
    simp

theorem exchangeInv_body_readdata {σ : Type} (phy : Phy σ) (hphy : ExactPhy phy)
    (len : Nat) (outdata : List Nat) (s : LoopState σ) (hex : s.exit = false)
    (hs : s.status = NLDC_READDATA) (hinv : ExchangeInv s) :
    ExchangeInv (ndlc_body phy len outdata s) := by
  have hseen := hinv.1 hs
  obtain ⟨hl, hle, -⟩ := hphy s.phy ⟨s.plen, List.replicate s.plen DUMMY_BYTE⟩
  rcases hr : (phy s.phy ⟨s.plen, List.replicate s.plen DUMMY_BYTE⟩).2 with ⟨res, rx⟩
  rw [hr] at hl hle
  simp only at hl hle
  have hretry := headerSeen_after_transfer s.plen s.indata s.log res rx hseen (by omega)
  simp only [ndlc_body, hs, xfer, take_writeBuf_replicate, hr]
  split_ifs with h1 h2 h3
  · subst h1
    refine ⟨fun h => by simp at h, fun _ => ?_⟩
    exact delivered_of_accept s.plen s.indata s.log rx hseen (by omega) h2.1 h2.2
  · exact exchangeInv_idle_like _ (by simp) (by simp) (by simpa using hex)
  · exact ⟨fun _ => hretry, fun h => by simp [hex] at h⟩
  · exact ⟨fun _ => hretry, fun h => by simp [hex] at h⟩

/-- An exchange by a transport that writes exactly the bytes it reports keeps the
invariant at every iteration of the loop. -/
theorem exchangeInv_body {σ : Type} (phy : Phy σ) (hphy : ExactPhy phy)
    (len : Nat) (outdata : List Nat) (s : LoopState σ) (hex : s.exit = false)
    (hinv : ExchangeInv s) : ExchangeInv (ndlc_body phy len outdata s) := by
  rcases hs : s.status with _ | _ | _ | _ | _ | _
  · exact exchangeInv_body_early phy len outdata s hex (Or.inl hs)
  · exact exchangeInv_body_early phy len outdata s hex (Or.inr (Or.inl hs))
  · exact exchangeInv_body_early phy len outdata s hex (Or.inr (Or.inr hs))
  · exact exchangeInv_body_readheader phy hphy len outdata s hex hs
  · exact exchangeInv_body_readdata phy hphy len outdata s hex hs hinv
  · exact exchangeInv_body_sendack phy hphy len outdata s hs hinv

theorem exchangeInv_iter {σ : Type} (phy : Phy σ) (hphy : ExactPhy phy)
    (len : Nat) (outdata : List Nat) (n : Nat) (s : LoopState σ)
    (hinv : ExchangeInv s) : ExchangeInv (ndlc_iter phy len outdata n s) := by
  induction n generalizing s with
  | zero => exact hinv
  | succ n ih =>
    by_cases hg : ndlc_guard s = true
    · rw [ndlc_iter_step _ _ _ _ _ hg]
      have hex : s.exit = false := by
        simp only [ndlc_guard, Bool.and_eq_true, beq_iff_eq] at hg
        exact hg.2
      exact ih _ (exchangeInv_body phy hphy len outdata s hex hinv)
    · rw [ndlc_iter_done _ _ _ _ _ (by simpa using hg)]
      exact hinv

/-- A successful exchange started in Idle by a transport that writes exactly the bytes
it reports has delivered a payload. -/
theorem delivered_of_success {σ : Type} (phy : Phy σ) (hphy : ExactPhy phy) (fuel : Nat)
    (t : σ) (p_dev : ndlc_device_t) (len : Nat) (outdata indata : List Nat)
    (e : EngineResult σ) (hidle : p_dev.status = NDLC_IDLE)
    (h : ndlc_send_receive phy fuel t p_dev len outdata indata = some e) (hres : e.res = 0) :
    ∃ payload, Delivered e.log e.dev.dataLen e.indata payload := by
  obtain ⟨-, hr, -, hdl, hind, -, hlog⟩ := ndlc_send_receive_some _ _ _ _ _ _ _ _ h
  have hinv := exchangeInv_iter phy hphy len outdata fuel (ndlc_entry p_dev indata t)
    (exchangeInv_idle_like _ (by simp [ndlc_entry, hidle]) (by simp [ndlc_entry, hidle]) rfl)
  rw [hr] at hres
  have hex : (ndlc_iter phy len outdata fuel (ndlc_entry p_dev indata t)).exit = true := by
    by_contra hne
    simp [hne] at hres
  rw [hdl, hind, hlog]
  exact hinv.2 (Or.inr hex)

/-- What a returned result of `NDLC_abort` says about the exchange it ran. -/
theorem NDLC_abort_some {σ : Type} (phy : Phy σ) (fuel : Nat) (t : σ) (p_dev : ndlc_device_t)
    (outdata : List Nat) (e : CmdResult σ)
    (h : NDLC_abort phy fuel t p_dev outdata = some e) :
    ∃ r, ndlc_send_receive phy fuel t { p_dev with status := NDLC_IDLE }
          4 [0x80, 0x02, 0xE0, 0x51] p_dev.data = some r
      ∧ e.log = r.log ∧ e.phy = r.phy ∧ e.dev = { r.dev with data := r.indata }
      ∧ (r.res = 0 → e.result = 0
          ∧ e.outdata = copy_out outdata r.indata r.dev.dataLen)
      ∧ (r.res ≠ 0 → e.result = -1 ∧ e.outdata = outdata) := by
  unfold NDLC_abort at h
  simp only at h
  split at h
  · exact absurd h (by simp)
  · rename_i r hr
    refine ⟨r, hr, ?_⟩
    by_cases h0 : r.res = 0
    · simp only [h0, if_true, Option.some.injEq] at h
      subst h
      simp [h0]
    · simp only [h0, if_false, Option.some.injEq] at h
      subst h
      simp [h0]

theorem copy_out_delivered (outdata : List Nat) (log : List (PhyCall × PhyReply))
    (dataLen : Nat) (data payload : List Nat) (h : Delivered log dataLen data payload) :
    copy_out outdata data dataLen = writeBuf outdata payload
      ∧ (data.drop 2).take payload.length = payload := by
  obtain ⟨pre, mid, post, ev, a, b, rest, -, -, -, -, -, hdl, hdata⟩ := h
  subst hdl hdata
  simp [copy_out]

/-- C2. For every transport that writes exactly the bytes it reports, and an output
buffer distinct from the response buffer: whenever `NDLC_apdu` or `NDLC_abort` succeeds,
there is a payload such that the last ReadData transfer of the exchange, of the length
`L = 2 + |payload|` announced by the header before it, was answered by
`[0xE0, event] ++ payload`; the response buffer still holds the payload from offset 2
(the SendAck replies reach only bytes 0 and 1), the output buffer receives exactly the
payload, `dataLen = L - 2`, and `NDLC_apdu` returns that length. -/
theorem output_is_payload {σ : Type} (phy : Phy σ) (fuel : Nat) (t : σ)
    (p_dev : ndlc_device_t) (apdu : List Nat) (apdu_len : Nat) (outdata : List Nat)
    (hphy : ExactPhy phy) :
    (∀ e, NDLC_apdu phy fuel t p_dev apdu apdu_len outdata = some e → 0 ≤ e.result →
      ∃ payload, Delivered e.log e.dev.dataLen e.dev.data payload
        ∧ (e.dev.data.drop 2).take payload.length = payload
        ∧ e.outdata = writeBuf outdata payload
        ∧ e.outdata.take payload.length = payload
        ∧ e.result = (payload.length : Int)
        ∧ e.result = (e.dev.dataLen : Int))
    ∧ (∀ e, NDLC_abort phy fuel t p_dev outdata = some e → 0 ≤ e.result →
      ∃ payload, Delivered e.log e.dev.dataLen e.dev.data payload
        ∧ (e.dev.data.drop 2).take payload.length = payload
        ∧ e.outdata = writeBuf outdata payload
        ∧ e.outdata.take payload.length = payload) := by
  constructor
  · intro e he hres
    obtain ⟨r, hr, hlog, -, hdev, hok, hko⟩ := NDLC_apdu_some _ _ _ _ _ _ _ _ he
    have h0 : r.res = 0 := by
      by_contra hne
      rw [(hko hne).1] at hres
      omega
    obtain ⟨payload, hd⟩ := delivered_of_success phy hphy fuel t _ _ _ _ r rfl hr h0
    obtain ⟨hc, hdrop⟩ := copy_out_delivered outdata _ _ _ _ hd
    have hdl : r.dev.dataLen = payload.length := by
      obtain ⟨_, _, _, _, _, _, _, -, -, -, -, -, hdl, -⟩ := hd
      exact hdl
    refine ⟨payload, ?_, ?_, ?_, ?_, ?_, ?_⟩
    · rw [hlog, hdev]; exact hd
    · rw [hdev]; exact hdrop
    · rw [(hok h0).2, hc]
    · rw [(hok h0).2, hc]; simp [writeBuf]
    · rw [(hok h0).1, hdl]
    · rw [(hok h0).1, hdev]
  · intro e he hres
    obtain ⟨r, hr, hlog, -, hdev, hok, hko⟩ := NDLC_abort_some _ _ _ _ _ _ he
    have h0 : r.res = 0 := by
      by_contra hne
      rw [(hko hne).1] at hres
      omega
    obtain ⟨payload, hd⟩ := delivered_of_success phy hphy fuel t _ _ _ _ r rfl hr h0
    obtain ⟨hc, hdrop⟩ := copy_out_delivered outdata _ _ _ _ hd
    refine ⟨payload, ?_, ?_, ?_, ?_⟩
    · rw [hlog, hdev]; exact hd
    · rw [hdev]; exact hdrop
    · rw [(hok h0).2, hc]
    · rw [(hok h0).2, hc]; simp [writeBuf]

/-- Witness for C2: the exact scripted transport playing the happy path with the
response `[9, 8, 7, 6]`; the exchange succeeds and the output buffer receives it. -/
theorem output_is_payload_witness :
    ∃ e, NDLC_apdu exactScriptPhy 6
        [[0xFE, 0, 0, 0, 0, 0, 0], [0xE0, 0], [0x80, 6], [0xE0, 0x50, 9, 8, 7, 6], [0xFE, 0]]
        ⟨0, NDLC_IDLE, 0, List.replicate 260 0⟩ [1, 2, 3] 3 [5, 5, 5, 5, 5, 5] = some e
      ∧ e.result = 4
      ∧ ∃ payload, Delivered e.log e.dev.dataLen e.dev.data payload
        ∧ e.outdata = writeBuf [5, 5, 5, 5, 5, 5] payload
        ∧ e.result = (payload.length : Int) := by
  refine ⟨_, rfl, by decide, ?_⟩
  obtain ⟨payload, hd, -, hout, -, hres, -⟩ :=
    (output_is_payload exactScriptPhy 6
      [[0xFE, 0, 0, 0, 0, 0, 0], [0xE0, 0], [0x80, 6], [0xE0, 0x50, 9, 8, 7, 6], [0xFE, 0]]
      ⟨0, NDLC_IDLE, 0, List.replicate 260 0⟩ [1, 2, 3] 3 [5, 5, 5, 5, 5, 5]
      exactScriptPhy_exact).1 _ rfl (by decide)
  exact ⟨payload, hd, hout, hres⟩

/-- C1. Happy-path round trip: when the transport answers the five transfers of the
happy path in order, `NDLC_apdu` returns after exactly these five transport calls,
its value is the length of the response payload `r`, the output buffer receives
exactly `r`, and the device is left with `dataLen = |r|` and `status = Idle`,
whatever the status of the device was before. -/
theorem apdu_happy_path {σ : Type} (phy : Phy σ) (t : σ) (p_dev : ndlc_device_t)
    (p r t1 : List Nat) (b2 b5 : Nat) (outdata : List Nat) (fuel : Nat)
    (hp : p.length ≤ 253) (hr : r.length ≤ 253) (hfuel : 6 ≤ fuel)
    (h : phyReplies phy t (happyCalls p r.length) = happyReplies p r t1 b2 b5) :
    ∃ e, NDLC_apdu phy fuel t p_dev p p.length outdata = some e
      ∧ e.log = (happyCalls p r.length).zip (happyReplies p r t1 b2 b5)
      ∧ e.log.map Prod.fst = happyCalls p r.length
      ∧ e.result = (r.length : Int)
      ∧ e.outdata = writeBuf outdata r
      ∧ e.outdata.take r.length = r
      ∧ e.dev.dataLen = r.length
      ∧ e.dev.status = NDLC_IDLE := by
  obtain ⟨k, rfl⟩ : ∃ k, fuel = k + 1 + 1 + 1 + 1 + 1 + 1 := ⟨fuel - 6, by omega⟩
  simp only [phyReplies, happyCalls, happyReplies, List.cons.injEq, and_true] at h
  obtain ⟨h1, h2, h3, h4, h5⟩ := h
  have hlen : (4 + p.length) % 2 ^ 16 = 4 + p.length := Nat.mod_eq_of_lt (by omega)
  have hdl : (2 + r.length + 2 ^ 32 - 2) % 2 ^ 32 % 2 ^ 16 = r.length := by omega
  have htake : List.take (4 + p.length) ([0x80, 2 + p.length, 0xE0, 0x50] ++ p)
      = [0x80, 2 + p.length, 0xE0, 0x50] ++ p := List.take_of_length_le (by simp; omega)
  have hrun : ndlc_iter phy (4 + p.length) ([0x80, 2 + p.length, 0xE0, 0x50] ++ p)
      (k + 1 + 1 + 1 + 1 + 1 + 1) ⟨NDLC_IDLE, 0, p_dev.data, 0, false, 0, t, []⟩
      = ⟨NDLC_IDLE, r.length,
          writeBuf (writeBuf (writeBuf (writeBuf (writeBuf (writeBuf p_dev.data (0xFE :: t1))
            [0xE0, b2]) [0x80, 2 + r.length]) (List.replicate (2 + r.length) 0xFE))
            ([0xE0, 0x50] ++ r)) [0xFE, b5],
          0, true, 2 + r.length, phyAfter phy t (happyCalls p r.length),
          (happyCalls p r.length).zip (happyReplies p r t1 b2 b5)⟩ := by
    rw [iter_idle _ _ _ _ _ _ _ _ _ _ (by omega)]
    rw [iter_sendcmd_ok phy _ _ _ _ _ _ _ _ _ t1 (by omega) (by omega) (by rw [htake]; exact h1)]
    rw [htake]
    rw [iter_readack_ack phy _ _ _ _ _ _ _ _ _ [b2] (by omega) h2]
    rw [iter_readheader_data phy _ _ _ _ _ _ _ _ _ (2 + r.length) [] (by omega) h3]
    rw [iter_readdata_apdu phy _ _ _ _ _ _ _ _ _ r (by omega) h4]
    rw [iter_sendack_ok phy _ _ _ _ _ _ _ _ _ [b5] (by omega) h5, hdl]
    rfl
  simp only [NDLC_apdu, ndlc_send_receive, apdu_cmd_length p hp, hlen, ndlc_entry, hrun]
  simp [ndlc_guard, copy_out, writeBuf, happyCalls, happyReplies]

/-- Witness for C1: a scripted transport playing the happy path for the payload
`[1, 2, 3]` and the response `[9, 8, 7, 6]`, on a device left in `ReadData`. -/
theorem apdu_happy_path_witness :
    ∃ e, NDLC_apdu scriptPhy 6 (happyReplies [1, 2, 3] [9, 8, 7, 6] [0, 0, 0, 0, 0, 0] 0 0)
        ⟨0, NLDC_READDATA, 7, List.replicate 260 0⟩ [1, 2, 3] 3 [5, 5, 5, 5, 5, 5] = some e
      ∧ e.log.map Prod.fst = happyCalls [1, 2, 3] 4
      ∧ e.result = 4
      ∧ e.outdata = [9, 8, 7, 6, 5, 5]
      ∧ e.dev.dataLen = 4
      ∧ e.dev.status = NDLC_IDLE := by
  obtain ⟨e, he, _, hlog, hres, hout, _, hdl, hst⟩ :=
    apdu_happy_path scriptPhy (happyReplies [1, 2, 3] [9, 8, 7, 6] [0, 0, 0, 0, 0, 0] 0 0)
      ⟨0, NLDC_READDATA, 7, List.replicate 260 0⟩ [1, 2, 3] [9, 8, 7, 6] [0, 0, 0, 0, 0, 0] 0 0
      [5, 5, 5, 5, 5, 5] 6 (by decide) (by decide) (by decide) (by decide)
  exact ⟨e, he, hlog, hres, hout, hdl, hst⟩

/-! ## Initialisation -/

/-- C20. `NDLC_Initialization` and `NDLC_DeInitialization` each set the status to Idle,
whatever it was, and leave `handlePtr`, `dataLen` and `data` unchanged. -/
theorem init_deinit_frame (p_dev : ndlc_device_t) :
    (NDLC_Initialization p_dev).status = NDLC_IDLE
      ∧ (NDLC_Initialization p_dev).handlePtr = p_dev.handlePtr
      ∧ (NDLC_Initialization p_dev).dataLen = p_dev.dataLen
      ∧ (NDLC_Initialization p_dev).data = p_dev.data
      ∧ (NDLC_DeInitialization p_dev).status = NDLC_IDLE
      ∧ (NDLC_DeInitialization p_dev).handlePtr = p_dev.handlePtr
      ∧ (NDLC_DeInitialization p_dev).dataLen = p_dev.dataLen
      ∧ (NDLC_DeInitialization p_dev).data = p_dev.data :=
  ⟨rfl, rfl, rfl, rfl, rfl, rfl, rfl, rfl⟩

/-! ## The state machine -/

/-- C17. Every iteration of the loop of `ndlc_send_receive` either leaves the status
unchanged or moves it along one of the eight edges of the state machine, whatever the
transport does. -/
theorem status_edges {σ : Type} (phy : Phy σ) (len : Nat) (outdata : List Nat)
    (s : LoopState σ) :
    (ndlc_body phy len outdata s).status = s.status
      ∨ (s.status, (ndlc_body phy len outdata s).status) ∈ ndlc_edges := by
  rcases hs : s.status <;> simp only [ndlc_body, hs, xfer] <;> (try split_ifs) <;>
    simp [ndlc_edges, hs]

/-! ## The last iteration of the loop -/

theorem ndlc_iter_succ_right {σ : Type} (phy : Phy σ) (len : Nat) (outdata : List Nat)
    (n : Nat) (s : LoopState σ) :
    ndlc_iter phy len outdata (n + 1) s
      = if ndlc_guard (ndlc_iter phy len outdata n s) = true
        then ndlc_body phy len outdata (ndlc_iter phy len outdata n s)
        else ndlc_iter phy len outdata n s := by
  rw [ndlc_iter_add]
  by_cases hg : ndlc_guard (ndlc_iter phy len outdata n s) = true
  · rw [ndlc_iter_step _ _ _ _ _ hg, ndlc_iter_zero, if_pos hg]
  · rw [ndlc_iter_done _ _ _ _ _ (by simpa using hg), if_neg hg]

/-- Once the guard fails the state no longer changes. -/
theorem ndlc_iter_frozen {σ : Type} (phy : Phy σ) (len : Nat) (outdata : List Nat)
    (m n : Nat) (s : LoopState σ) (hmn : m ≤ n)
    (h : ndlc_guard (ndlc_iter phy len outdata m s) = false) :
    ndlc_iter phy len outdata n s = ndlc_iter phy len outdata m s := by
  obtain ⟨k, rfl⟩ : ∃ k, n = m + k := ⟨n - m, by omega⟩
  rw [ndlc_iter_add, ndlc_iter_done _ _ _ _ _ h]

/-- A loop that has ended after `n` iterations, having started with its guard true,
ended by one last iteration of the body. -/
theorem ndlc_iter_last {σ : Type} (phy : Phy σ) (len : Nat) (outdata : List Nat)
    (n : Nat) (s : LoopState σ) (h0 : ndlc_guard s = true)
    (h : ndlc_guard (ndlc_iter phy len outdata n s) = false) :
    ∃ m, m < n ∧ ndlc_guard (ndlc_iter phy len outdata m s) = true
      ∧ ndlc_iter phy len outdata n s
          = ndlc_body phy len outdata (ndlc_iter phy len outdata m s)
      ∧ ndlc_iter phy len outdata n s = ndlc_iter phy len outdata (m + 1) s := by
  induction n with
  | zero => rw [ndlc_iter_zero, h0] at h; exact absurd h (by simp)
  | succ n ih =>
    by_cases hg : ndlc_guard (ndlc_iter phy len outdata n s) = true
    · refine ⟨n, by omega, hg, ?_, rfl⟩
      rw [ndlc_iter_succ_right, if_pos hg]
    · have hg1 : ndlc_guard (ndlc_iter phy len outdata n s) = false := by simpa using hg
      obtain ⟨m, hm, h1, h2, h3⟩ := ih hg1
      have e : ndlc_iter phy len outdata (n + 1) s = ndlc_iter phy len outdata n s :=
        ndlc_iter_frozen phy len outdata n (n + 1) s (by omega) hg1
      exact ⟨m, by omega, h1, by rw [e, h2], by rw [e, h3]⟩

/-- An iteration sets `exit` exactly when it is a SendAck transfer of 2 bytes whose
first received byte is `0xFE`; after an iteration the status is Idle exactly when
`exit` is set. -/
theorem body_exit {σ : Type} (phy : Phy σ) (len : Nat) (outdata : List Nat)
    (s : LoopState σ) (hex : s.exit = false) :
    ((ndlc_body phy len outdata s).exit = true
        ↔ (s.status = NLDC_SENDACK
          ∧ (phy s.phy ⟨2, [NDLC_PCB_SUPERVISOR_ACK, 0x00]⟩).2.res = 2
          ∧ rd (writeBuf s.indata (phy s.phy ⟨2, [NDLC_PCB_SUPERVISOR_ACK, 0x00]⟩).2.rx) 0
              = DUMMY_BYTE))
      ∧ ((ndlc_body phy len outdata s).status = NDLC_IDLE
        ↔ (ndlc_body phy len outdata s).exit = true) := by
  rcases hs : s.status <;> simp only [ndlc_body, hs, xfer] <;> (try split_ifs) <;>
    simp_all

/-- An iteration that increments the retry counter made one transport call and left the
status, which is not Idle, `dataLen` and `exit` as they were. -/
theorem body_retry_succ {σ : Type} (phy : Phy σ) (len : Nat) (outdata : List Nat)
    (s : LoopState σ) (h : (ndlc_body phy len outdata s).retry = s.retry + 1) :
    (ndlc_body phy len outdata s).status = s.status
      ∧ s.status ≠ NDLC_IDLE
      ∧ (ndlc_body phy len outdata s).dataLen = s.dataLen
      ∧ (ndlc_body phy len outdata s).exit = s.exit
      ∧ ∃ c r, (ndlc_body phy len outdata s).log = s.log ++ [(c, r)] := by
  rcases hs : s.status <;> simp only [ndlc_body, hs, xfer] at h ⊢ <;>
    (try split_ifs at h ⊢) <;> simp_all

/-- C16. Final status: when `ndlc_send_receive` returns 0 the status is Idle; when it
returns -1 the status is one of SendCmd, ReadAck, ReadHeader, ReadData, SendAck, namely
the status in which the last iteration ran: that iteration made a transport call, took
the counter from 99 to 100 and left the status as it was. So the value returned is 0 if
and only if the final status is Idle. -/
theorem final_status {σ : Type} (phy : Phy σ) (fuel : Nat) (t : σ)
    (p_dev : ndlc_device_t) (len : Nat) (outdata indata : List Nat) (e : EngineResult σ)
    (h : ndlc_send_receive phy fuel t p_dev len outdata indata = some e) :
    (e.res = 0 → e.dev.status = NDLC_IDLE)
      ∧ (e.res = -1 →
          e.dev.status ∈ [NDLC_SENDCMD, NDLC_READACK, NDLC_READHEADER, NLDC_READDATA,
            NLDC_SENDACK]
          ∧ ∃ n, n < fuel
            ∧ ndlc_guard (ndlc_state phy t p_dev len outdata indata n) = true
            ∧ (ndlc_state phy t p_dev len outdata indata n).status = e.dev.status
            ∧ (ndlc_state phy t p_dev len outdata indata n).retry = 99
            ∧ e.retry = 100
            ∧ ∃ c r, e.log = (ndlc_state phy t p_dev len outdata indata n).log ++ [(c, r)])
      ∧ (e.res = 0 ↔ e.dev.status = NDLC_IDLE) := by
  obtain ⟨hg, hr, hst, -, -, hretry, hlog⟩ := ndlc_send_receive_some _ _ _ _ _ _ _ _ h
  have hentry : ndlc_guard (ndlc_entry p_dev indata t) = true := rfl
  obtain ⟨m, hm, hgm, hbody, -⟩ := ndlc_iter_last phy len outdata fuel _ hentry hg
  have hgm1 := hgm
  simp only [ndlc_guard, Bool.and_eq_true, beq_iff_eq, decide_eq_true_eq] at hgm1
  obtain ⟨hlt, hexm⟩ := hgm1
  have hidle := (body_exit phy len outdata _ hexm).2
  rw [← hbody] at hidle
  have hres0 : e.res = 0
      ↔ (ndlc_iter phy len outdata fuel (ndlc_entry p_dev indata t)).exit = true := by
    rw [hr]
    by_cases hex : (ndlc_iter phy len outdata fuel (ndlc_entry p_dev indata t)).exit = true
    · simp [hex]
    · simp [hex]
  have hiff : e.res = 0 ↔ e.dev.status = NDLC_IDLE := by rw [hres0, hst, hidle]
  refine ⟨hiff.mp, fun hneg => ?_, hiff⟩
  have hne : e.dev.status ≠ NDLC_IDLE := fun h1 => by
    rw [hiff.mpr h1] at hneg
    exact absurd hneg (by decide)
  have hex : (ndlc_iter phy len outdata fuel (ndlc_entry p_dev indata t)).exit = false := by
    rw [← Bool.not_eq_true, ← hres0, hneg]
    decide
  have hge : 100 ≤ (ndlc_iter phy len outdata fuel (ndlc_entry p_dev indata t)).retry := by
    simp only [ndlc_guard, Bool.and_eq_false_iff, decide_eq_false_iff_not, beq_eq_false_iff_ne,
      ne_eq, Bool.not_eq_false] at hg
    rcases hg with hg | hg
    · omega
    · rw [hg] at hex
      exact absurd hex (by decide)
  have hle := body_retry_le phy len outdata
    (ndlc_iter phy len outdata m (ndlc_entry p_dev indata t))
  rw [← hbody] at hle
  have hsucc : (ndlc_body phy len outdata
      (ndlc_iter phy len outdata m (ndlc_entry p_dev indata t))).retry
      = (ndlc_iter phy len outdata m (ndlc_entry p_dev indata t)).retry + 1 := by
    rw [← hbody]
    omega
  obtain ⟨hs1, -, -, -, c, r, hl⟩ := body_retry_succ phy len outdata _ hsucc
  rw [← hbody] at hs1 hl
  refine ⟨?_, m, hm, hgm, by rw [hst]; exact hs1.symm, by simp only [ndlc_state]; omega,
    by rw [hretry]; omega, c, r, by rw [hlog]; exact hl⟩
  revert hne
  cases e.dev.status <;> simp

/-- Witness for C16: the transport that answers `0x11` everywhere leaves the device in
SendCmd with -1, and the happy path leaves it in Idle with 0. -/
theorem final_status_witness :
    (∃ e, ndlc_send_receive (constPhy 0x11) 101 ()
        ⟨0, NDLC_IDLE, 0, List.replicate 260 0⟩ 4 [0x80, 0x02, 0xE0, 0x51]
        (List.replicate 260 0) = some e ∧ e.res = -1 ∧ e.dev.status = NDLC_SENDCMD
        ∧ (e.res = 0 ↔ e.dev.status = NDLC_IDLE))
      ∧ (∃ e, ndlc_send_receive scriptPhy 6
        [⟨4, [0xFE, 0, 0, 0]⟩, ⟨2, [0xE0, 0]⟩, ⟨2, [0x80, 4]⟩, ⟨4, [0xE0, 0x52, 0x3B, 0]⟩,
          ⟨2, [0xFE, 0]⟩]
        ⟨0, NDLC_IDLE, 0, List.replicate 260 0⟩ 4 [0x80, 0x02, 0xE0, 0x51]
        (List.replicate 260 0) = some e ∧ e.res = 0 ∧ e.dev.status = NDLC_IDLE
        ∧ (e.res = 0 ↔ e.dev.status = NDLC_IDLE)) :=
  ⟨⟨_, rfl, rfl, rfl, (final_status (constPhy 0x11) 101 ()
      ⟨0, NDLC_IDLE, 0, List.replicate 260 0⟩ 4 [0x80, 0x02, 0xE0, 0x51]
      (List.replicate 260 0) _ rfl).2.2⟩,
   ⟨_, rfl, rfl, rfl, (final_status scriptPhy 6
      [⟨4, [0xFE, 0, 0, 0]⟩, ⟨2, [0xE0, 0]⟩, ⟨2, [0x80, 4]⟩, ⟨4, [0xE0, 0x52, 0x3B, 0]⟩,
        ⟨2, [0xFE, 0]⟩]
      ⟨0, NDLC_IDLE, 0, List.replicate 260 0⟩ 4 [0x80, 0x02, 0xE0, 0x51]
      (List.replicate 260 0) _ rfl).2.2⟩⟩

/-! ## The command builders and the outcome of the engine -/

/-- C11. Abort frame: whatever the status and `dataLen` of the device before the call,
the exchange of `NDLC_abort` enters the engine with status Idle (and `dataLen` zeroed),
its first iteration moves to SendCmd without a transport call, and its first transport
call, made by the second iteration, transmits exactly the 4 bytes
`[0x80, 0x02, 0xE0, 0x51]`; it is the first call of every `NDLC_abort` that returns.
The outcome of `NDLC_abort` does not depend on the prior status and `dataLen`. -/
theorem abort_frame {σ : Type} (phy : Phy σ) (fuel : Nat) (t : σ) (p_dev : ndlc_device_t)
    (outdata : List Nat) :
    (NDLC_abort_state phy t p_dev 0).status = NDLC_IDLE
      ∧ (NDLC_abort_state phy t p_dev 0).log = []
      ∧ (NDLC_abort_state phy t p_dev 1).status = NDLC_SENDCMD
      ∧ (NDLC_abort_state phy t p_dev 1).log = []
      ∧ (2 ≤ fuel → ((NDLC_abort_state phy t p_dev fuel).log.map Prod.fst).head?
          = some ⟨4, [0x80, 0x02, 0xE0, 0x51]⟩)
      ∧ (∀ e, NDLC_abort phy fuel t p_dev outdata = some e →
          (e.log.map Prod.fst).head? = some ⟨4, [0x80, 0x02, 0xE0, 0x51]⟩)
      ∧ (∀ st dl, NDLC_abort phy fuel t { p_dev with status := st, dataLen := dl } outdata
          = NDLC_abort phy fuel t p_dev outdata) := by
  have key : 2 ≤ fuel → ((NDLC_abort_state phy t p_dev fuel).log.map Prod.fst).head?
      = some ⟨4, [0x80, 0x02, 0xE0, 0x51]⟩ := by
    intro hf
    obtain ⟨k, rfl⟩ : ∃ k, fuel = k + 1 + 1 := ⟨fuel - 2, by omega⟩
    obtain ⟨l, hl⟩ := first_call_from_idle phy 4 [0x80, 0x02, 0xE0, 0x51] k p_dev.data t
    simp only [NDLC_abort_state, ndlc_state, ndlc_entry]
    rw [hl]
    rfl
  refine ⟨rfl, rfl, rfl, rfl, key, fun e he => ?_, fun st dl => rfl⟩
  obtain ⟨r, hr, hlog, -⟩ := NDLC_abort_some _ _ _ _ _ _ he
  obtain ⟨hg, -, -, -, -, -, hrl⟩ := ndlc_send_receive_some _ _ _ _ _ _ _ _ hr
  rw [hlog, hrl]
  apply key
  match fuel, hg with
  | 0, hg => simp [ndlc_iter, ndlc_entry, ndlc_guard] at hg
  | 1, hg => simp [ndlc_iter, ndlc_entry, ndlc_guard, ndlc_body] at hg
  | n + 2, _ => omega

/-- C12, evaluation of the code: whenever its exchange succeeds, `NDLC_abort` returns
0, whatever the length `dataLen` of the response copied to the output buffer. -/
theorem abort_returns_zero {σ : Type} (phy : Phy σ) (fuel : Nat) (t : σ)
    (p_dev : ndlc_device_t) (outdata : List Nat) (e : CmdResult σ)
    (h : NDLC_abort phy fuel t p_dev outdata = some e) (hok : 0 ≤ e.result) :
    e.result = 0 := by
  obtain ⟨r, -, -, -, -, h1, h2⟩ := NDLC_abort_some _ _ _ _ _ _ h
  by_cases h0 : r.res = 0
  · exact (h1 h0).1
  · rw [(h2 h0).1] at hok
    omega

/-- Witness for C12: on the happy path with the two-byte response `[0x3B, 0x00]`,
`NDLC_abort` copies two bytes, leaves `dataLen = 2` and returns 0. -/
theorem abort_returns_zero_witness :
    ∃ e, NDLC_abort scriptPhy 6
        [⟨4, [0xFE, 0, 0, 0]⟩, ⟨2, [0xE0, 0]⟩, ⟨2, [0x80, 4]⟩, ⟨4, [0xE0, 0x52, 0x3B, 0]⟩,
          ⟨2, [0xFE, 0]⟩]
        ⟨0, NDLC_IDLE, 0, List.replicate 260 0⟩ [5, 5, 5] = some e
      ∧ e.dev.dataLen = 2 ∧ e.outdata = [0x3B, 0, 5] ∧ e.result = 0 :=
  ⟨_, rfl, rfl, rfl, abort_returns_zero scriptPhy 6
    [⟨4, [0xFE, 0, 0, 0]⟩, ⟨2, [0xE0, 0]⟩, ⟨2, [0x80, 4]⟩, ⟨4, [0xE0, 0x52, 0x3B, 0]⟩,
      ⟨2, [0xFE, 0]⟩]
    ⟨0, NDLC_IDLE, 0, List.replicate 260 0⟩ [5, 5, 5] _ rfl (by decide)⟩

/-- C14, counterexample: on the happy path of the Abort command with the two-byte
response `[0x3B, 0x00]`, `ndlc_send_receive` returns 0 while the length of the
response, stored in `dataLen`, is 2. -/
theorem send_receive_not_length :
    ∃ e, ndlc_send_receive scriptPhy 6
        [⟨4, [0xFE, 0, 0, 0]⟩, ⟨2, [0xE0, 0]⟩, ⟨2, [0x80, 4]⟩, ⟨4, [0xE0, 0x52, 0x3B, 0]⟩,
          ⟨2, [0xFE, 0]⟩]
        ⟨0, NDLC_IDLE, 0, List.replicate 260 0⟩ 4 [0x80, 0x02, 0xE0, 0x51]
        (List.replicate 260 0) = some e
      ∧ e.res = 0 ∧ e.dev.dataLen = 2 ∧ e.res ≠ (e.dev.dataLen : Int) :=
  ⟨_, rfl, rfl, rfl, by decide⟩

/-! ## Capacity of the response buffer -/

theorem rd_writeBuf_of_le (buf bytes : List Nat) (i : Nat) (h : bytes.length ≤ i) :
    rd (writeBuf buf bytes) i = rd buf i := by
  simp only [rd, writeBuf, List.getD_eq_getElem?_getD]
  rw [List.getElem?_append_right h, List.getElem?_drop]
  congr 2
  omega

theorem rd_lt (buf : List Nat) (i : Nat) (h : ∀ b ∈ buf, b < 256) : rd buf i < 256 := by
  simp only [rd, List.getD_eq_getElem?_getD]
  cases hg : buf[i]? with
  | none => simp
  | some x => simp; exact h x (List.getElem?_mem hg)

theorem writeBuf_bytes (buf bytes : List Nat) (h1 : ∀ b ∈ buf, b < 256)
    (h2 : ∀ b ∈ bytes, b < 256) : ∀ b ∈ writeBuf buf bytes, b < 256 := by
  intro b hb
  simp only [writeBuf, List.mem_append] at hb
  rcases hb with hb | hb
  · exact h2 b hb
  · exact h1 b (List.mem_of_mem_drop hb)

/-- Storing `bytes` from index 0 keeps the length of a buffer exactly when no index
at or past its end is written. -/
theorem writeBuf_length (buf bytes : List Nat) :
    (writeBuf buf bytes).length = max buf.length bytes.length := by
  simp only [writeBuf, List.length_append, List.length_drop]
  omega

/-- The receive buffer after an iteration is the buffer before it with the writes of
that iteration applied in order. -/
theorem body_indata_writes {σ : Type} (phy : Phy σ) (len : Nat) (outdata : List Nat)
    (s : LoopState σ) :
    (ndlc_body phy len outdata s).indata
      = (ndlc_writes phy len outdata s).foldl writeBuf s.indata := by
  rcases hs : s.status <;>
    simp only [ndlc_body, ndlc_writes, hs, xfer, take_writeBuf_replicate] <;>
    (try split_ifs) <;> rfl

/-- Under the invariant every write of an iteration is of at most 258 bytes. -/
theorem capInv_writes {σ : Type} (phy : Phy σ) (hphy : BoundedPhy phy) (len : Nat)
    (outdata : List Nat) (hlen : len ≤ 258) (s : LoopState σ) (hinv : CapInv s) :
    ∀ w ∈ ndlc_writes phy len outdata s, w.length ≤ 258 := by
  obtain ⟨-, hpl, -, -⟩ := hinv
  intro w hw
  rcases hs : s.status <;> simp only [ndlc_writes, hs, List.mem_cons, List.mem_singleton,
    List.not_mem_nil, or_false] at hw
  · subst hw
    have := (hphy s.phy ⟨len, outdata.take len⟩).1
    simp only at this
    omega
  · subst hw
    have := (hphy s.phy ⟨2, [DUMMY_BYTE, DUMMY_BYTE]⟩).1
    simp only at this
    omega
  · subst hw
    have := (hphy s.phy ⟨2, [DUMMY_BYTE, DUMMY_BYTE]⟩).1
    simp only at this
    omega
  · rcases hw with hw | hw
    · subst hw
      rw [List.length_replicate]
      omega
    · subst hw
      have := (hphy s.phy ⟨s.plen, List.replicate s.plen DUMMY_BYTE⟩).1
      simp only at this
      omega
  · subst hw
    have := (hphy s.phy ⟨2, [NDLC_PCB_SUPERVISOR_ACK, 0x00]⟩).1
    simp only at this
    omega

theorem capInv_body_readdata {σ : Type} (phy : Phy σ) (hphy : BoundedPhy phy) (len : Nat)
    (outdata : List Nat) (s : LoopState σ) (hex : s.exit = false)
    (hs : s.status = NLDC_READDATA) (hinv : CapInv s) :
    CapInv (ndlc_body phy len outdata s) := by
  obtain ⟨hb, hpl, hrd, -⟩ := hinv
  obtain ⟨h0, h1⟩ := hrd hs
  obtain ⟨hl, hrb⟩ := hphy s.phy ⟨s.plen, List.replicate s.plen DUMMY_BYTE⟩
  simp only at hl
  have hfill : ∀ b ∈ List.replicate s.plen DUMMY_BYTE, b < 256 := by
    intro b hb1
    rw [List.eq_of_mem_replicate hb1]
    decide
  have hb1 := writeBuf_bytes _ _ (writeBuf_bytes _ _ hb hfill) hrb
  have hr0 : s.plen = 0 → rd (writeBuf (writeBuf s.indata (List.replicate s.plen DUMMY_BYTE))
      (phy s.phy ⟨s.plen, List.replicate s.plen DUMMY_BYTE⟩).2.rx) 0 = 0x80 := by
    intro hp
    rw [rd_writeBuf_of_le _ _ _ (by omega),
      rd_writeBuf_of_le _ _ _ (by rw [List.length_replicate]; omega)]
    exact h0 hp
  have hr1 : s.plen ≤ 1 → rd (writeBuf (writeBuf s.indata (List.replicate s.plen DUMMY_BYTE))
      (phy s.phy ⟨s.plen, List.replicate s.plen DUMMY_BYTE⟩).2.rx) 1 = s.plen := by
    intro hp
    rw [rd_writeBuf_of_le _ _ _ (by omega),
      rd_writeBuf_of_le _ _ _ (by rw [List.length_replicate]; omega)]
    exact h1 hp
  simp only [ndlc_body, hs, xfer, take_writeBuf_replicate]
  split_ifs with h2 h3 h4
  · refine ⟨hb1, hpl, fun h => by simp at h, fun _ => ?_⟩
    have h2le : 2 ≤ s.plen := by
      by_contra hlt
      have hp1 : s.plen ≤ 1 := by omega
      rcases Nat.eq_zero_or_pos s.plen with hp0 | hp0
      · have := hr0 hp0
        rw [h3.1] at this
        exact absurd this (by decide)
      · have hp : s.plen = 1 := by omega
        have := hr1 hp1
        rcases h3.2 with h5 | h5 <;> rw [h5, hp] at this <;> exact absurd this (by decide)
    show 2 + (s.plen + 2 ^ 32 - 2) % 2 ^ 32 % 2 ^ 16 ≤ 258
    omega
  · exact ⟨hb1, hpl, fun h => by simp at h, fun h => by simp [hex] at h⟩
  · exact ⟨hb1, hpl, fun _ => ⟨hr0, hr1⟩, fun h => by simp [hs, hex] at h⟩
  · exact ⟨hb1, hpl, fun _ => ⟨hr0, hr1⟩, fun h => by simp [hs, hex] at h⟩

theorem capInv_body {σ : Type} (phy : Phy σ) (hphy : BoundedPhy phy) (len : Nat)
    (outdata : List Nat) (s : LoopState σ) (hex : s.exit = false) (hinv : CapInv s) :
    CapInv (ndlc_body phy len outdata s) := by
  have hinv0 := hinv
  obtain ⟨hb, hpl, hrd, hsa⟩ := hinv
  rcases hs : s.status with _ | _ | _ | _ | _ | _
  · simp only [ndlc_body, hs]
    exact ⟨hb, hpl, fun h => by simp at h, fun h => by simp [hex] at h⟩
  · have hb1 := writeBuf_bytes _ _ hb (hphy s.phy ⟨len, outdata.take len⟩).2
    simp only [ndlc_body, hs, xfer]
    split_ifs <;>
      exact ⟨hb1, hpl, fun h => by simp [hs] at h, fun h => by simp [hs, hex] at h⟩
  · have hb1 := writeBuf_bytes _ _ hb (hphy s.phy ⟨2, [DUMMY_BYTE, DUMMY_BYTE]⟩).2
    simp only [ndlc_body, hs, xfer]
    split_ifs <;>
      exact ⟨hb1, hpl, fun h => by simp [hs] at h, fun h => by simp [hs, hex] at h⟩
  · have hb1 := writeBuf_bytes _ _ hb (hphy s.phy ⟨2, [DUMMY_BYTE, DUMMY_BYTE]⟩).2
    simp only [ndlc_body, hs, xfer]
    split_ifs with h1 h2
    · exact ⟨hb1, rd_lt _ _ hb1, fun _ => ⟨fun _ => h2, fun _ => rfl⟩,
        fun h => by simp [hex] at h⟩
    · exact ⟨hb1, hpl, fun h => by simp [hs] at h, fun h => by simp [hs, hex] at h⟩
    · exact ⟨hb1, hpl, fun h => by simp [hs] at h, fun h => by simp [hs, hex] at h⟩
  · exact capInv_body_readdata phy hphy len outdata s hex hs hinv0
  · have hb1 := writeBuf_bytes _ _ hb (hphy s.phy ⟨2, [NDLC_PCB_SUPERVISOR_ACK, 0x00]⟩).2
    have hdl := hsa (Or.inl hs)
    simp only [ndlc_body, hs, xfer]
    split_ifs <;> exact ⟨hb1, hpl, fun h => by simp [hs] at h, fun _ => hdl⟩

theorem foldl_writeBuf_length (ws : List (List Nat)) (buf : List Nat) (n : Nat)
    (hw : ∀ w ∈ ws, w.length ≤ n) (hcap : buf.length = n) :
    (ws.foldl writeBuf buf).length = n := by
  induction ws generalizing buf with
  | nil => exact hcap
  | cons w ws ih =>
    rw [List.foldl_cons]
    refine ih _ (fun x hx => hw x (List.mem_cons_of_mem _ hx)) ?_
    rw [writeBuf_length, hcap]
    have := hw w (List.mem_cons_self _ _)
    omega

theorem capInv_iter {σ : Type} (phy : Phy σ) (hphy : BoundedPhy phy) (len : Nat)
    (outdata : List Nat) (hlen : len ≤ 258) (n : Nat) (s : LoopState σ)
    (hinv : CapInv s) (hcap : s.indata.length = 258) :
    CapInv (ndlc_iter phy len outdata n s)
      ∧ (ndlc_iter phy len outdata n s).indata.length = 258 := by
  induction n generalizing s with
  | zero => exact ⟨hinv, hcap⟩
  | succ n ih =>
    by_cases hg : ndlc_guard s = true
    · rw [ndlc_iter_step _ _ _ _ _ hg]
      have hex : s.exit = false := by
        simp only [ndlc_guard, Bool.and_eq_true, beq_iff_eq] at hg
        exact hg.2
      refine ih _ (capInv_body phy hphy len outdata s hex hinv) ?_
      rw [body_indata_writes]
      exact foldl_writeBuf_length _ _ _ (capInv_writes phy hphy len outdata hlen s hinv) hcap
    · rw [ndlc_iter_done _ _ _ _ _ (by simpa using hg)]
      exact ⟨hinv, hcap⟩

/-- The capacity invariant at every iteration of an exchange started in Idle. -/
theorem capInv_state {σ : Type} (phy : Phy σ) (hphy : BoundedPhy phy) (t : σ)
    (p_dev : ndlc_device_t) (len : Nat) (outdata : List Nat) (hlen : len ≤ 258) (n : Nat)
    (hdata : p_dev.data.length = 258) (hbytes : ∀ b ∈ p_dev.data, b < 256) :
    CapInv (ndlc_state phy t { p_dev with status := NDLC_IDLE } len outdata p_dev.data n)
      ∧ (ndlc_state phy t { p_dev with status := NDLC_IDLE } len outdata p_dev.data n).indata.length
          = 258 :=
  capInv_iter phy hphy len outdata hlen n _
    ⟨hbytes, by simp [ndlc_entry], fun h => by simp [ndlc_entry] at h,
      fun h => by simp [ndlc_entry] at h⟩ hdata

/-- A successful exchange started in Idle ends with `2 + dataLen` within 258. -/
theorem capInv_success {σ : Type} (phy : Phy σ) (hphy : BoundedPhy phy) (fuel : Nat) (t : σ)
    (p_dev : ndlc_device_t) (len : Nat) (outdata : List Nat) (hlen : len ≤ 258)
    (hdata : p_dev.data.length = 258) (hbytes : ∀ b ∈ p_dev.data, b < 256)
    (r : EngineResult σ)
    (h : ndlc_send_receive phy fuel t { p_dev with status := NDLC_IDLE } len outdata
      p_dev.data = some r) :
    r.indata.length = 258 ∧ (r.res = 0 → 2 + r.dev.dataLen ≤ 258) := by
  obtain ⟨-, hr, -, hdl, hind, -, -⟩ := ndlc_send_receive_some _ _ _ _ _ _ _ _ h
  obtain ⟨hinv, hcap⟩ := capInv_state phy hphy t p_dev len outdata hlen fuel hdata hbytes
  simp only [ndlc_state] at hinv hcap
  refine ⟨by rw [hind]; exact hcap, fun h0 => ?_⟩
  rw [hr] at h0
  have hex : (ndlc_iter phy len outdata fuel
      (ndlc_entry { p_dev with status := NDLC_IDLE } p_dev.data t)).exit = true := by
    by_contra hne
    rw [if_neg hne] at h0
    exact absurd h0 (by decide)
  rw [hdl]
  exact hinv.2.2.2 (Or.inr hex)

/-- C19. Response-buffer capacity: with a response buffer of 258 bytes, an APDU payload
of at most 253 bytes and a transport that writes at most the requested number of
bytes, every write that an iteration of the exchange of `NDLC_apdu` or of `NDLC_abort`
makes into the response buffer (received bytes and `0xFE` fill, each stored from index
0) is of at most 258 bytes, so the buffer keeps its length of 258; and when the
builder succeeds, the copy to the output buffer reads the indices from 2 to
`2 + dataLen - 1`, which are below 258. -/
theorem response_buffer_capacity {σ : Type} (phy : Phy σ) (t : σ) (p_dev : ndlc_device_t)
    (apdu : List Nat) (apdu_len : Nat) (outdata : List Nat) (fuel n : Nat)
    (hphy : BoundedPhy phy) (hdata : p_dev.data.length = 258)
    (hbytes : ∀ b ∈ p_dev.data, b < 256) (hlen : apdu_len ≤ 253) :
    (∀ w ∈ ndlc_writes phy ((4 + apdu_len) % 2 ^ 16) (apdu_cmd apdu apdu_len)
        (NDLC_apdu_state phy t p_dev apdu apdu_len n), w.length ≤ 258)
      ∧ (NDLC_apdu_state phy t p_dev apdu apdu_len n).indata.length = 258
      ∧ (∀ w ∈ ndlc_writes phy 4 [0x80, 0x02, 0xE0, 0x51] (NDLC_abort_state phy t p_dev n),
          w.length ≤ 258)
      ∧ (NDLC_abort_state phy t p_dev n).indata.length = 258
      ∧ (∀ e, NDLC_apdu phy fuel t p_dev apdu apdu_len outdata = some e →
          e.dev.data.length = 258 ∧ (0 ≤ e.result → 2 + e.dev.dataLen ≤ 258))
      ∧ (∀ e, NDLC_abort phy fuel t p_dev outdata = some e →
          e.dev.data.length = 258 ∧ (0 ≤ e.result → 2 + e.dev.dataLen ≤ 258)) := by
  have hl1 : (4 + apdu_len) % 2 ^ 16 ≤ 258 := by omega
  have hl2 : 4 ≤ 258 := by omega
  obtain ⟨hi1, hc1⟩ := capInv_state phy hphy t p_dev _ (apdu_cmd apdu apdu_len) hl1 n hdata
    hbytes
  obtain ⟨hi2, hc2⟩ := capInv_state phy hphy t p_dev 4 [0x80, 0x02, 0xE0, 0x51] hl2 n hdata
    hbytes
  refine ⟨capInv_writes phy hphy _ _ hl1 _ hi1, hc1, capInv_writes phy hphy _ _ hl2 _ hi2, hc2,
    fun e he => ?_, fun e he => ?_⟩
  · obtain ⟨r, hr, -, -, hdev, hok, hko⟩ := NDLC_apdu_some _ _ _ _ _ _ _ _ he
    obtain ⟨h1, h2⟩ := capInv_success phy hphy fuel t p_dev _ _ hl1 hdata hbytes r hr
    refine ⟨by rw [hdev]; exact h1, fun hres => ?_⟩
    have h0 : r.res = 0 := by
      by_contra hne
      rw [(hko hne).1] at hres
      omega
    rw [hdev]
    exact h2 h0
  · obtain ⟨r, hr, -, -, hdev, hok, hko⟩ := NDLC_abort_some _ _ _ _ _ _ he
    obtain ⟨h1, h2⟩ := capInv_success phy hphy fuel t p_dev _ _ hl2 hdata hbytes r hr
    refine ⟨by rw [hdev]; exact h1, fun hres => ?_⟩
    have h0 : r.res = 0 := by
      by_contra hne
      rw [(hko hne).1] at hres
      omega
    rw [hdev]
    exact h2 h0

set_option maxRecDepth 100000 in
/-- Witness for C19: a 253-byte payload on the happy path with a 253-byte response:
the command transfer stores 257 bytes, the body transfer 255, and the copy reads the
indices 2 to 254. -/
theorem response_buffer_capacity_witness :
    ∃ e, NDLC_apdu exactScriptPhy 6
        [List.replicate 257 0xFE, [0xE0, 0], [0x80, 255],
          0xE0 :: 0x50 :: List.replicate 253 7, [0xFE, 0]]
        ⟨0, NDLC_IDLE, 0, List.replicate 258 0⟩ (List.replicate 253 1) 253 [] = some e
      ∧ e.result = 253
      ∧ e.dev.data.length = 258
      ∧ 2 + e.dev.dataLen ≤ 258
      ∧ (NDLC_apdu_state exactScriptPhy
          [List.replicate 257 0xFE, [0xE0, 0], [0x80, 255],
            0xE0 :: 0x50 :: List.replicate 253 7, [0xFE, 0]]
          ⟨0, NDLC_IDLE, 0, List.replicate 258 0⟩ (List.replicate 253 1) 253 6).indata.length
          = 258 := by
  have h := response_buffer_capacity exactScriptPhy
    [List.replicate 257 0xFE, [0xE0, 0], [0x80, 255],
      0xE0 :: 0x50 :: List.replicate 253 7, [0xFE, 0]]
    ⟨0, NDLC_IDLE, 0, List.replicate 258 0⟩ (List.replicate 253 1) 253 [] 6 6
    (fun t c => ⟨by have := (exactScriptPhy_exact t c); omega, (exactScriptPhy_exact t c).2.2⟩)
    (List.length_replicate _ _)
    (fun b hb => by rw [List.eq_of_mem_replicate hb]; decide) (by decide)
  exact ⟨_, rfl, by decide, (h.2.2.2.2.1 _ rfl).1, (h.2.2.2.2.1 _ rfl).2 (by decide), h.2.1⟩

/-! ## Independence of what the device held before the call -/

theorem rd_writeBuf_lt (buf bytes : List Nat) (i : Nat) (h : i < bytes.length) :
    rd (writeBuf buf bytes) i = rd bytes i := by
  simp only [rd, writeBuf, List.getD_eq_getElem?_getD]
  rw [List.getElem?_append_left h]

theorem drop_two_writeBuf (buf rx : List Nat) (h : rx.length ≤ 2) :
    (writeBuf buf rx).drop 2 = buf.drop 2 := by
  match rx, h with
  | [], _ => rfl
  | [x], _ => simp [writeBuf]
  | [x, y], _ => simp [writeBuf]
  | _ :: _ :: _ :: _, h => simp at h

theorem take_drop_writeBuf (buf rx : List Nat) (n : Nat) (h : 2 + n ≤ rx.length) :
    ((writeBuf buf rx).drop 2).take n = (rx.drop 2).take n := by
  simp only [writeBuf]
  rw [List.drop_append_of_le_length (by omega),
    List.take_append_of_le_length (by rw [List.length_drop]; omega)]

section sim

variable {σ : Type} (phy : Phy σ) (hphy : ExactPhy phy) (len : Nat) (outdata : List Nat)
  (dl retry plen : Nat) (t : σ) (log : List (PhyCall × PhyReply)) (ind1 ind2 : List Nat)

include hphy

theorem sim_sendcmd :
    Sim (ndlc_body phy len outdata ⟨NDLC_SENDCMD, dl, ind1, retry, false, plen, t, log⟩)
      (ndlc_body phy len outdata ⟨NDLC_SENDCMD, dl, ind2, retry, false, plen, t, log⟩) := by
  obtain ⟨hl, -, -⟩ := hphy t ⟨len, outdata.take len⟩
  rcases hr : (phy t ⟨len, outdata.take len⟩).2 with ⟨res, rx⟩
  rw [hr] at hl
  simp only at hl
  simp only [ndlc_body, xfer, hr]
  by_cases hc : 0 < res ∧ res = (len : Int)
  · have hpos : 0 < rx.length := by omega
    rw [if_pos hc, if_pos hc, rd_writeBuf_lt ind1 rx 0 hpos, rd_writeBuf_lt ind2 rx 0 hpos]
    split_ifs <;> simp [Sim, BufRel]
  · rw [if_neg hc, if_neg hc]
    simp [Sim, BufRel]

theorem sim_readack :
    Sim (ndlc_body phy len outdata ⟨NDLC_READACK, dl, ind1, retry, false, plen, t, log⟩)
      (ndlc_body phy len outdata ⟨NDLC_READACK, dl, ind2, retry, false, plen, t, log⟩) := by
  obtain ⟨hl, -, -⟩ := hphy t ⟨2, [DUMMY_BYTE, DUMMY_BYTE]⟩
  rcases hr : (phy t ⟨2, [DUMMY_BYTE, DUMMY_BYTE]⟩).2 with ⟨res, rx⟩
  rw [hr] at hl
  simp only at hl
  simp only [ndlc_body, xfer, hr]
  by_cases hc : res = 2
  · have hpos : 0 < rx.length := by omega
    rw [if_pos hc, if_pos hc, rd_writeBuf_lt ind1 rx 0 hpos, rd_writeBuf_lt ind2 rx 0 hpos]
    split_ifs <;> simp [Sim, BufRel]
  · rw [if_neg hc, if_neg hc]
    simp [Sim, BufRel]

theorem sim_readheader :
    Sim (ndlc_body phy len outdata ⟨NDLC_READHEADER, dl, ind1, retry, false, plen, t, log⟩)
      (ndlc_body phy len outdata ⟨NDLC_READHEADER, dl, ind2, retry, false, plen, t, log⟩) := by
  obtain ⟨hl, -, -⟩ := hphy t ⟨2, [DUMMY_BYTE, DUMMY_BYTE]⟩
  rcases hr : (phy t ⟨2, [DUMMY_BYTE, DUMMY_BYTE]⟩).2 with ⟨res, rx⟩
  rw [hr] at hl
  simp only at hl
  simp only [ndlc_body, xfer, hr]
  by_cases hc : res = 2
  · have h0 : 0 < rx.length := by omega
    have h1 : 1 < rx.length := by omega
    rw [if_pos hc, if_pos hc, rd_writeBuf_lt ind1 rx 0 h0, rd_writeBuf_lt ind2 rx 0 h0,
      rd_writeBuf_lt ind1 rx 1 h1, rd_writeBuf_lt ind2 rx 1 h1]
    split_ifs with h2
    · simp [Sim, BufRel, rd_writeBuf_lt _ rx 0 h0, rd_writeBuf_lt _ rx 1 h1, h2]
    · simp [Sim, BufRel]
  · rw [if_neg hc, if_neg hc]
    simp [Sim, BufRel]

theorem sim_sendack
    (h : (ind1.drop 2).take dl = (ind2.drop 2).take dl) :
    Sim (ndlc_body phy len outdata ⟨NLDC_SENDACK, dl, ind1, retry, false, plen, t, log⟩)
      (ndlc_body phy len outdata ⟨NLDC_SENDACK, dl, ind2, retry, false, plen, t, log⟩) := by
  obtain ⟨hl, hle, -⟩ := hphy t ⟨2, [NDLC_PCB_SUPERVISOR_ACK, 0x00]⟩
  rcases hr : (phy t ⟨2, [NDLC_PCB_SUPERVISOR_ACK, 0x00]⟩).2 with ⟨res, rx⟩
  rw [hr] at hl hle
  simp only at hl hle
  have hrx : rx.length ≤ 2 := by omega
  simp only [ndlc_body, xfer, hr]
  by_cases hc : res = 2
  · have hpos : 0 < rx.length := by omega
    rw [if_pos hc, if_pos hc, rd_writeBuf_lt ind1 rx 0 hpos, rd_writeBuf_lt ind2 rx 0 hpos]
    split_ifs <;> simp [Sim, BufRel, drop_two_writeBuf _ rx hrx, h]
  · rw [if_neg hc, if_neg hc]
    simp [Sim, BufRel, drop_two_writeBuf _ rx hrx, h]

theorem sim_readdata
    (h0 : plen = 0 → rd ind1 0 = 0x80 ∧ rd ind2 0 = 0x80)
    (h1 : plen ≤ 1 → rd ind1 1 = plen ∧ rd ind2 1 = plen) :
    Sim (ndlc_body phy len outdata ⟨NLDC_READDATA, dl, ind1, retry, false, plen, t, log⟩)
      (ndlc_body phy len outdata ⟨NLDC_READDATA, dl, ind2, retry, false, plen, t, log⟩) := by
  obtain ⟨hl, hle, -⟩ := hphy t ⟨plen, List.replicate plen DUMMY_BYTE⟩
  rcases hr : (phy t ⟨plen, List.replicate plen DUMMY_BYTE⟩).2 with ⟨res, rx⟩
  rw [hr] at hl hle
  simp only at hl hle
  have hrx : rx.length ≤ plen := by omega
  have hfl : (List.replicate plen DUMMY_BYTE).length = plen := List.length_replicate _ _
  -- the header bytes that a short transfer cannot reach
  have keep0 : ∀ ind : List Nat, plen = 0 →
      rd (writeBuf (writeBuf ind (List.replicate plen DUMMY_BYTE)) rx) 0 = rd ind 0 :=
    fun ind hp => by
      rw [rd_writeBuf_of_le _ _ _ (by omega), rd_writeBuf_of_le _ _ _ (by omega)]
  have keep1 : ∀ ind : List Nat, plen ≤ 1 →
      rd (writeBuf (writeBuf ind (List.replicate plen DUMMY_BYTE)) rx) 1 = rd ind 1 :=
    fun ind hp => by
      rw [rd_writeBuf_of_le _ _ _ (by omega), rd_writeBuf_of_le _ _ _ (by omega)]
  have f0 : plen = 0 →
      rd (writeBuf (writeBuf ind1 (List.replicate plen DUMMY_BYTE)) rx) 0 = 0x80
      ∧ rd (writeBuf (writeBuf ind2 (List.replicate plen DUMMY_BYTE)) rx) 0 = 0x80 :=
    fun hp => ⟨by rw [keep0 ind1 hp]; exact (h0 hp).1, by rw [keep0 ind2 hp]; exact (h0 hp).2⟩
  have f1 : plen ≤ 1 →
      rd (writeBuf (writeBuf ind1 (List.replicate plen DUMMY_BYTE)) rx) 1 = plen
      ∧ rd (writeBuf (writeBuf ind2 (List.replicate plen DUMMY_BYTE)) rx) 1 = plen :=
    fun hp => ⟨by rw [keep1 ind1 hp]; exact (h1 hp).1, by rw [keep1 ind2 hp]; exact (h1 hp).2⟩
  simp only [ndlc_body, xfer, take_writeBuf_replicate, hr]
  by_cases hc : res = (plen : Int)
  · have hlen : rx.length = plen := by omega
    have e0 : rd (writeBuf (writeBuf ind2 (List.replicate plen DUMMY_BYTE)) rx) 0
        = rd (writeBuf (writeBuf ind1 (List.replicate plen DUMMY_BYTE)) rx) 0 := by
      rcases Nat.eq_zero_or_pos plen with hp | hp
      · rw [(f0 hp).1, (f0 hp).2]
      · rw [rd_writeBuf_lt _ rx 0 (by omega), rd_writeBuf_lt _ rx 0 (by omega)]
    have e1 : rd (writeBuf (writeBuf ind2 (List.replicate plen DUMMY_BYTE)) rx) 1
        = rd (writeBuf (writeBuf ind1 (List.replicate plen DUMMY_BYTE)) rx) 1 := by
      by_cases hp : plen ≤ 1
      · rw [(f1 hp).1, (f1 hp).2]
      · rw [rd_writeBuf_lt _ rx 1 (by omega), rd_writeBuf_lt _ rx 1 (by omega)]
    rw [if_pos hc, if_pos hc, e0, e1]
    split_ifs with h3 h4
    · have h2le : 2 ≤ plen := by
        by_contra hlt
        rcases Nat.eq_zero_or_pos plen with hp | hp
        · have := (f0 hp).1
          rw [h3.1] at this
          exact absurd this (by decide)
        · have hp1 : plen = 1 := by omega
          have := (f1 (by omega)).1
          rcases h3.2 with h5 | h5 <;> rw [h5, hp1] at this <;> exact absurd this (by decide)
      have hdl : 2 + (plen + 2 ^ 32 - 2) % 2 ^ 32 % 2 ^ 16 ≤ rx.length := by omega
      simp only [Sim, BufRel, true_and, reduceCtorEq, false_implies, or_false, and_true,
        true_or, forall_const]
      rw [take_drop_writeBuf _ rx _ hdl, take_drop_writeBuf _ rx _ hdl]
    · simp [Sim, BufRel]
    · simp only [Sim, BufRel, true_and, reduceCtorEq, false_implies, or_false, and_true,
        forall_const, Bool.false_eq_true, false_or]
      exact ⟨f0, f1⟩
  · rw [if_neg hc, if_neg hc]
    simp only [Sim, BufRel, true_and, reduceCtorEq, false_implies, or_false, and_true,
      forall_const, Bool.false_eq_true, false_or]
    exact ⟨f0, f1⟩

end sim

/-- With a transport that writes exactly the bytes it reports, one iteration of the loop
takes related states to related states. -/
theorem sim_body {σ : Type} (phy : Phy σ) (hphy : ExactPhy phy) (len : Nat)
    (outdata : List Nat) (s1 s2 : LoopState σ) (hex : s1.exit = false) (h : Sim s1 s2) :
    Sim (ndlc_body phy len outdata s1) (ndlc_body phy len outdata s2) := by
  obtain ⟨st1, dl1, ind1, re1, ex1, pl1, ph1, lg1⟩ := s1
  obtain ⟨st2, dl2, ind2, re2, ex2, pl2, ph2, lg2⟩ := s2
  simp only [Sim] at h
  obtain ⟨rfl, rfl, rfl, rfl, rfl, rfl, rfl, hb⟩ := h
  simp only at hex
  subst hex
  cases st1 with
  | NDLC_IDLE => simp [ndlc_body, Sim, BufRel]
  | NDLC_SENDCMD => exact sim_sendcmd phy hphy len outdata _ _ _ _ _ _ _
  | NDLC_READACK => exact sim_readack phy hphy len outdata _ _ _ _ _ _ _
  | NDLC_READHEADER => exact sim_readheader phy hphy len outdata _ _ _ _ _ _ _
  | NLDC_READDATA =>
    exact sim_readdata phy hphy len outdata _ _ _ _ _ _ _ (hb.1 rfl).1 (hb.1 rfl).2
  | NLDC_SENDACK =>
    exact sim_sendack phy hphy len outdata _ _ _ _ _ _ _ (hb.2 (Or.inl rfl))

theorem sim_iter {σ : Type} (phy : Phy σ) (hphy : ExactPhy phy) (len : Nat)
    (outdata : List Nat) (n : Nat) (s1 s2 : LoopState σ) (h : Sim s1 s2) :
    Sim (ndlc_iter phy len outdata n s1) (ndlc_iter phy len outdata n s2) := by
  induction n generalizing s1 s2 with
  | zero => exact h
  | succ n ih =>
    have hg : ndlc_guard s1 = ndlc_guard s2 := by
      simp only [ndlc_guard, h.2.2.1, h.2.2.2.1]
    by_cases hg1 : ndlc_guard s1 = true
    · rw [ndlc_iter_step _ _ _ _ _ hg1, ndlc_iter_step _ _ _ _ _ (hg ▸ hg1)]
      have hex : s1.exit = false := by
        simp only [ndlc_guard, Bool.and_eq_true, beq_iff_eq] at hg1
        exact hg1.2
      exact ih _ _ (sim_body phy hphy len outdata s1 s2 hex h)
    · have hg2 : ndlc_guard s1 = false := by simpa using hg1
      rw [ndlc_iter_done _ _ _ _ _ hg2, ndlc_iter_done _ _ _ _ _ (hg ▸ hg2)]
      exact h

/-- Two exchanges of the same command, started in Idle on response buffers of any
contents, go through related states. -/
theorem sim_state {σ : Type} (phy : Phy σ) (hphy : ExactPhy phy) (t : σ)
    (d1 d2 : ndlc_device_t) (len : Nat) (outdata : List Nat) (n : Nat) :
    Sim (ndlc_state phy t { d1 with status := NDLC_IDLE } len outdata d1.data n)
      (ndlc_state phy t { d2 with status := NDLC_IDLE } len outdata d2.data n) :=
  sim_iter phy hphy len outdata n _ _ (by simp [Sim, BufRel, ndlc_entry])

/-- What the builders hand back from the final loop state is the same for related
states. -/
theorem sim_outcome {σ : Type} (s1 s2 : LoopState σ) (outdata : List Nat)
    (h : Sim s1 s2) :
    ndlc_guard s1 = ndlc_guard s2 ∧ s1.exit = s2.exit ∧ s1.dataLen = s2.dataLen
      ∧ s1.log = s2.log
      ∧ (s1.exit = true →
          copy_out outdata s1.indata s1.dataLen = copy_out outdata s2.indata s2.dataLen) := by
  obtain ⟨-, hdl, hre, hex, -, -, hlog, hb⟩ := h
  refine ⟨by simp only [ndlc_guard, hre, hex], hex, hdl, hlog, fun he => ?_⟩
  simp only [copy_out]
  rw [← hdl, hb.2 (Or.inr he)]

theorem apdu_outcome {σ : Type} (phy : Phy σ) (fuel : Nat) (t : σ) (d : ndlc_device_t)
    (apdu : List Nat) (apdu_len : Nat) (outdata : List Nat) :
    cmd_outcome (NDLC_apdu phy fuel t d apdu apdu_len outdata)
      = if ndlc_guard (NDLC_apdu_state phy t d apdu apdu_len fuel) = true then none
        else some (if (NDLC_apdu_state phy t d apdu apdu_len fuel).exit = true
          then (((NDLC_apdu_state phy t d apdu apdu_len fuel).dataLen : Int),
            copy_out outdata (NDLC_apdu_state phy t d apdu apdu_len fuel).indata
              (NDLC_apdu_state phy t d apdu apdu_len fuel).dataLen,
            (NDLC_apdu_state phy t d apdu apdu_len fuel).log)
          else (-1, outdata, (NDLC_apdu_state phy t d apdu apdu_len fuel).log)) := by
  simp only [NDLC_apdu, ndlc_send_receive, NDLC_apdu_state, ndlc_state, cmd_outcome]
  split_ifs <;> simp_all

theorem abort_outcome {σ : Type} (phy : Phy σ) (fuel : Nat) (t : σ) (d : ndlc_device_t)
    (outdata : List Nat) :
    cmd_outcome (NDLC_abort phy fuel t d outdata)
      = if ndlc_guard (NDLC_abort_state phy t d fuel) = true then none
        else some (if (NDLC_abort_state phy t d fuel).exit = true
          then (0, copy_out outdata (NDLC_abort_state phy t d fuel).indata
              (NDLC_abort_state phy t d fuel).dataLen,
            (NDLC_abort_state phy t d fuel).log)
          else (-1, outdata, (NDLC_abort_state phy t d fuel).log)) := by
  simp only [NDLC_abort, ndlc_send_receive, NDLC_abort_state, ndlc_state, cmd_outcome]
  split_ifs <;> simp_all

/-- C18. Each builder call is a fresh, independent exchange: with a transport that
writes exactly the bytes it reports, what `NDLC_apdu` (resp. `NDLC_abort`) returns, what
it writes to the output buffer and the transport calls it makes are the same whatever the
status, `dataLen` and response-buffer contents of the device were before the call; this
holds also for the transport calls of an exchange that has not returned yet. -/
theorem fresh_exchange {σ : Type} (phy : Phy σ) (fuel n : Nat) (t : σ)
    (p_dev : ndlc_device_t) (st : ndlc_status) (dl : Nat) (data1 : List Nat)
    (apdu : List Nat) (apdu_len : Nat) (outdata : List Nat) (hphy : ExactPhy phy) :
    cmd_outcome (NDLC_apdu phy fuel t { p_dev with status := st, dataLen := dl, data := data1 }
        apdu apdu_len outdata)
        = cmd_outcome (NDLC_apdu phy fuel t p_dev apdu apdu_len outdata)
      ∧ cmd_outcome (NDLC_abort phy fuel t
          { p_dev with status := st, dataLen := dl, data := data1 } outdata)
        = cmd_outcome (NDLC_abort phy fuel t p_dev outdata)
      ∧ (NDLC_apdu_state phy t { p_dev with status := st, dataLen := dl, data := data1 }
          apdu apdu_len n).log = (NDLC_apdu_state phy t p_dev apdu apdu_len n).log
      ∧ (NDLC_abort_state phy t { p_dev with status := st, dataLen := dl, data := data1 } n).log
          = (NDLC_abort_state phy t p_dev n).log := by
  have sim1 : ∀ m, Sim
      (NDLC_apdu_state phy t { p_dev with status := st, dataLen := dl, data := data1 }
        apdu apdu_len m) (NDLC_apdu_state phy t p_dev apdu apdu_len m) := fun m =>
    sim_state phy hphy t { p_dev with status := st, dataLen := dl, data := data1 } p_dev
      _ _ m
  have sim2 : ∀ m, Sim
      (NDLC_abort_state phy t { p_dev with status := st, dataLen := dl, data := data1 } m)
      (NDLC_abort_state phy t p_dev m) := fun m =>
    sim_state phy hphy t { p_dev with status := st, dataLen := dl, data := data1 } p_dev
      _ _ m
  refine ⟨?_, ?_, (sim1 n).2.2.2.2.2.2.1, (sim2 n).2.2.2.2.2.2.1⟩
  · obtain ⟨hg, hex, hdl, hlog, hcopy⟩ := sim_outcome _ _ outdata (sim1 fuel)
    rw [apdu_outcome, apdu_outcome]
    generalize NDLC_apdu_state phy t { p_dev with status := st, dataLen := dl, data := data1 }
      apdu apdu_len fuel = s1 at hg hex hdl hlog hcopy ⊢
    generalize NDLC_apdu_state phy t p_dev apdu apdu_len fuel = s2 at hg hex hdl hlog hcopy ⊢
    rw [hg, hex, hlog]
    by_cases he : s2.exit = true
    · have hc := hcopy (hex.trans he)
      rw [hdl] at hc
      simp only [if_pos he, hdl, hc]
    · simp only [if_neg he]
  · obtain ⟨hg, hex, hdl, hlog, hcopy⟩ := sim_outcome _ _ outdata (sim2 fuel)
    rw [abort_outcome, abort_outcome]
    generalize NDLC_abort_state phy t { p_dev with status := st, dataLen := dl, data := data1 }
      fuel = s1 at hg hex hdl hlog hcopy ⊢
    generalize NDLC_abort_state phy t p_dev fuel = s2 at hg hex hdl hlog hcopy ⊢
    rw [hg, hex, hlog]
    by_cases he : s2.exit = true
    · have hc := hcopy (hex.trans he)
      rw [hdl] at hc
      simp only [if_pos he, hdl, hc]
    · simp only [if_neg he]

/-- Witness for C18: the happy path played for a device left in ReadData with a stale
`dataLen` and a response buffer full of `0xE0`, and for a clean device in Idle: the
same value 4, the same output and the same five transport calls. -/
theorem fresh_exchange_witness :
    cmd_outcome (NDLC_apdu exactScriptPhy 6
        [[0xFE, 0, 0, 0, 0, 0, 0], [0xE0, 0], [0x80, 6], [0xE0, 0x50, 9, 8, 7, 6], [0xFE, 0]]
        ⟨0, NLDC_READDATA, 77, List.replicate 260 0xE0⟩ [1, 2, 3] 3 [5, 5, 5, 5, 5, 5])
      = cmd_outcome (NDLC_apdu exactScriptPhy 6
        [[0xFE, 0, 0, 0, 0, 0, 0], [0xE0, 0], [0x80, 6], [0xE0, 0x50, 9, 8, 7, 6], [0xFE, 0]]
        ⟨0, NDLC_IDLE, 0, List.replicate 260 0⟩ [1, 2, 3] 3 [5, 5, 5, 5, 5, 5])
      ∧ (cmd_outcome (NDLC_apdu exactScriptPhy 6
        [[0xFE, 0, 0, 0, 0, 0, 0], [0xE0, 0], [0x80, 6], [0xE0, 0x50, 9, 8, 7, 6], [0xFE, 0]]
        ⟨0, NDLC_IDLE, 0, List.replicate 260 0⟩ [1, 2, 3] 3 [5, 5, 5, 5, 5, 5])).map
          (fun o => (o.1, o.2.1, o.2.2.length)) = some (4, [9, 8, 7, 6, 5, 5], 5) :=
  ⟨(fresh_exchange exactScriptPhy 6 0
      [[0xFE, 0, 0, 0, 0, 0, 0], [0xE0, 0], [0x80, 6], [0xE0, 0x50, 9, 8, 7, 6], [0xFE, 0]]
      ⟨0, NDLC_IDLE, 0, List.replicate 260 0⟩ NLDC_READDATA 77 (List.replicate 260 0xE0)
      [1, 2, 3] 3 [5, 5, 5, 5, 5, 5] exactScriptPhy_exact).1, rfl⟩

/-! ## The decisions of ReadData, SendAck and the polling states -/

/-- C21. ReadData decision: after a ReadData transfer that exchanged exactly `plen`
bytes, with bytes 0 and 1 of the receive buffer read after the transfer: if byte 0 is
`0xE0` and byte 1 is `0x50` or `0x52`, the iteration sets `dataLen = plen - 2` (computed
on 32 bits and stored on 16, which is `plen - 2` for `plen ≥ 2`), moves to SendAck
and resets the counter; else if byte 0 is `0xE0` and byte 1 is `0x51`, it moves to
ReadHeader and resets the counter; otherwise it stays in ReadData and increments the
counter by one. -/
theorem readdata_decision {σ : Type} (phy : Phy σ) (len : Nat) (outdata : List Nat)
    (s : LoopState σ) (rx : List Nat) (hs : s.status = NLDC_READDATA)
    (h : (phy s.phy ⟨s.plen, List.replicate s.plen 0xFE⟩).2 = ⟨(s.plen : Int), rx⟩) :
    (ndlc_body phy len outdata s).indata
        = writeBuf (writeBuf s.indata (List.replicate s.plen 0xFE)) rx
      ∧ (rd (ndlc_body phy len outdata s).indata 0 = 0xE0
          ∧ (rd (ndlc_body phy len outdata s).indata 1 = 0x50
            ∨ rd (ndlc_body phy len outdata s).indata 1 = 0x52) →
          (ndlc_body phy len outdata s).status = NLDC_SENDACK
          ∧ (ndlc_body phy len outdata s).dataLen = (s.plen + 2 ^ 32 - 2) % 2 ^ 32 % 2 ^ 16
          ∧ (2 ≤ s.plen → s.plen < 256 → (ndlc_body phy len outdata s).dataLen = s.plen - 2)
          ∧ (ndlc_body phy len outdata s).retry = 0)
      ∧ (rd (ndlc_body phy len outdata s).indata 0 = 0xE0
          ∧ rd (ndlc_body phy len outdata s).indata 1 = 0x51 →
          (ndlc_body phy len outdata s).status = NDLC_READHEADER
          ∧ (ndlc_body phy len outdata s).dataLen = s.dataLen
          ∧ (ndlc_body phy len outdata s).retry = 0)
      ∧ (¬ (rd (ndlc_body phy len outdata s).indata 0 = 0xE0
            ∧ (rd (ndlc_body phy len outdata s).indata 1 = 0x50
              ∨ rd (ndlc_body phy len outdata s).indata 1 = 0x52
              ∨ rd (ndlc_body phy len outdata s).indata 1 = 0x51)) →
          (ndlc_body phy len outdata s).status = NLDC_READDATA
          ∧ (ndlc_body phy len outdata s).dataLen = s.dataLen
          ∧ (ndlc_body phy len outdata s).retry = s.retry + 1) := by
  have hind : (ndlc_body phy len outdata s).indata
      = writeBuf (writeBuf s.indata (List.replicate s.plen 0xFE)) rx := by
    rw [body_indata_writes]
    simp only [ndlc_writes, hs, h, List.foldl_cons, List.foldl_nil]
  rw [hind]
  refine ⟨rfl, ?_, ?_, ?_⟩
  · intro hc
    have hc1 : rd (writeBuf (writeBuf s.indata (List.replicate s.plen DUMMY_BYTE)) rx) 0
        = NDLC_PCB_SUPERVISOR_ACK
        ∧ (rd (writeBuf (writeBuf s.indata (List.replicate s.plen DUMMY_BYTE)) rx) 1
            = NDLC_MESSAGE_HEADER_EVT_C_APDU
          ∨ rd (writeBuf (writeBuf s.indata (List.replicate s.plen DUMMY_BYTE)) rx) 1
            = NDLC_MESSAGE_HEADER_EVT_ATR) := hc
    simp only [ndlc_body, hs, xfer, take_writeBuf_replicate, h, if_true, if_pos hc1, true_and,
      and_true]
    intro h2 h3
    omega
  · intro hc
    have hc0 : ¬ (rd (writeBuf (writeBuf s.indata (List.replicate s.plen DUMMY_BYTE)) rx) 0
        = NDLC_PCB_SUPERVISOR_ACK
        ∧ (rd (writeBuf (writeBuf s.indata (List.replicate s.plen DUMMY_BYTE)) rx) 1
            = NDLC_MESSAGE_HEADER_EVT_C_APDU
          ∨ rd (writeBuf (writeBuf s.indata (List.replicate s.plen DUMMY_BYTE)) rx) 1
            = NDLC_MESSAGE_HEADER_EVT_ATR)) := by
      rintro ⟨-, h1 | h1⟩ <;> rw [hc.2] at h1 <;> exact absurd h1 (by decide)
    have hc1 : rd (writeBuf (writeBuf s.indata (List.replicate s.plen DUMMY_BYTE)) rx) 0
        = NDLC_PCB_SUPERVISOR_ACK
        ∧ rd (writeBuf (writeBuf s.indata (List.replicate s.plen DUMMY_BYTE)) rx) 1
            = NDLC_MESSAGE_HEADER_EVT_WTX := hc
    simp only [ndlc_body, hs, xfer, take_writeBuf_replicate, h, if_true, if_neg hc0,
      if_pos hc1, and_self]
  · intro hc
    have hc0 : ¬ (rd (writeBuf (writeBuf s.indata (List.replicate s.plen DUMMY_BYTE)) rx) 0
        = NDLC_PCB_SUPERVISOR_ACK
        ∧ (rd (writeBuf (writeBuf s.indata (List.replicate s.plen DUMMY_BYTE)) rx) 1
            = NDLC_MESSAGE_HEADER_EVT_C_APDU
          ∨ rd (writeBuf (writeBuf s.indata (List.replicate s.plen DUMMY_BYTE)) rx) 1
            = NDLC_MESSAGE_HEADER_EVT_ATR)) :=
      fun ⟨h0, h1⟩ => hc ⟨h0, h1.elim Or.inl (fun h2 => Or.inr (Or.inl h2))⟩
    have hc1 : ¬ (rd (writeBuf (writeBuf s.indata (List.replicate s.plen DUMMY_BYTE)) rx) 0
        = NDLC_PCB_SUPERVISOR_ACK
        ∧ rd (writeBuf (writeBuf s.indata (List.replicate s.plen DUMMY_BYTE)) rx) 1
            = NDLC_MESSAGE_HEADER_EVT_WTX) :=
      fun ⟨h0, h1⟩ => hc ⟨h0, Or.inr (Or.inr h1)⟩
    simp only [ndlc_body, hs, xfer, take_writeBuf_replicate, h, if_true, if_neg hc0,
      if_neg hc1, and_self]

/-- Witness for C21: a header announced 6 bytes and the body `[0xE0, 0x50, 9, 8, 7, 6]`
is received in full: SendAck, `dataLen = 4`, counter reset from 7 to 0. -/
theorem readdata_decision_witness :
    (ndlc_body scriptPhy 4 [0x80, 0x02, 0xE0, 0x51]
        ⟨NLDC_READDATA, 0, [0x80, 6, 0, 0, 0, 0, 0, 0], 7, false, 6,
          [⟨6, [0xE0, 0x50, 9, 8, 7, 6]⟩], []⟩).status = NLDC_SENDACK
      ∧ (ndlc_body scriptPhy 4 [0x80, 0x02, 0xE0, 0x51]
        ⟨NLDC_READDATA, 0, [0x80, 6, 0, 0, 0, 0, 0, 0], 7, false, 6,
          [⟨6, [0xE0, 0x50, 9, 8, 7, 6]⟩], []⟩).dataLen = 4
      ∧ (ndlc_body scriptPhy 4 [0x80, 0x02, 0xE0, 0x51]
        ⟨NLDC_READDATA, 0, [0x80, 6, 0, 0, 0, 0, 0, 0], 7, false, 6,
          [⟨6, [0xE0, 0x50, 9, 8, 7, 6]⟩], []⟩).retry = 0 := by
  have h := (readdata_decision scriptPhy 4 [0x80, 0x02, 0xE0, 0x51]
    ⟨NLDC_READDATA, 0, [0x80, 6, 0, 0, 0, 0, 0, 0], 7, false, 6,
      [⟨6, [0xE0, 0x50, 9, 8, 7, 6]⟩], []⟩ [0xE0, 0x50, 9, 8, 7, 6] rfl rfl).2.1
    (by decide)
  exact ⟨h.1, h.2.2.1 (by decide) (by decide), h.2.2.2⟩

/-- C22. SendAck: every SendAck iteration transmits exactly the two bytes
`[0xE0, 0x00]`; it completes the exchange (status Idle, `exit` set, so that the loop
ends and 0 is returned) if and only if the transfer exchanges 2 bytes and the first
byte of the receive buffer is then `0xFE`; otherwise the status stays SendAck and the
counter is incremented by one. -/
theorem sendack_step {σ : Type} (phy : Phy σ) (len : Nat) (outdata : List Nat) :
    (∀ s : LoopState σ, s.status = NLDC_SENDACK → s.exit = false →
      (ndlc_body phy len outdata s).log
          = s.log ++ [(⟨2, [0xE0, 0x00]⟩, (phy s.phy ⟨2, [0xE0, 0x00]⟩).2)]
        ∧ (((ndlc_body phy len outdata s).status = NDLC_IDLE
              ∧ (ndlc_body phy len outdata s).exit = true)
            ↔ ((phy s.phy ⟨2, [0xE0, 0x00]⟩).2.res = 2
              ∧ rd (writeBuf s.indata (phy s.phy ⟨2, [0xE0, 0x00]⟩).2.rx) 0 = 0xFE))
        ∧ (¬ ((phy s.phy ⟨2, [0xE0, 0x00]⟩).2.res = 2
              ∧ rd (writeBuf s.indata (phy s.phy ⟨2, [0xE0, 0x00]⟩).2.rx) 0 = 0xFE) →
            (ndlc_body phy len outdata s).status = NLDC_SENDACK
            ∧ (ndlc_body phy len outdata s).exit = false
            ∧ (ndlc_body phy len outdata s).retry = s.retry + 1))
      ∧ (∀ (fuel n : Nat) (t : σ) (p_dev : ndlc_device_t) (indata : List Nat), n < fuel →
          ndlc_guard (ndlc_state phy t p_dev len outdata indata n) = true →
          (ndlc_state phy t p_dev len outdata indata n).status = NLDC_SENDACK →
          (phy (ndlc_state phy t p_dev len outdata indata n).phy ⟨2, [0xE0, 0x00]⟩).2.res = 2 →
          rd (writeBuf (ndlc_state phy t p_dev len outdata indata n).indata
            (phy (ndlc_state phy t p_dev len outdata indata n).phy ⟨2, [0xE0, 0x00]⟩).2.rx) 0
            = 0xFE →
          ∃ e, ndlc_send_receive phy fuel t p_dev len outdata indata = some e
            ∧ e.res = 0 ∧ e.dev.status = NDLC_IDLE) := by
  constructor
  · intro s hs hex
    obtain ⟨he, hi⟩ := body_exit phy len outdata s hex
    refine ⟨?_, ?_, ?_⟩
    · simp only [ndlc_body, hs, xfer]
      split_ifs <;> rfl
    · rw [hi, and_self, he]
      simp [hs]
    · intro hc
      simp only [ndlc_body, hs, xfer]
      by_cases h1 : (phy s.phy ⟨2, [NDLC_PCB_SUPERVISOR_ACK, 0x00]⟩).2.res = 2
      · have h2 : ¬ rd (writeBuf s.indata
            (phy s.phy ⟨2, [NDLC_PCB_SUPERVISOR_ACK, 0x00]⟩).2.rx) 0 = DUMMY_BYTE :=
          fun h2 => hc ⟨h1, h2⟩
        simp only [if_pos h1, if_neg h2, hex, and_self]
      · simp only [if_neg h1, hex, and_self]
  · intro fuel n t p_dev indata hn hg hst hres hrd
    simp only [ndlc_state] at hg hst hres hrd
    have hexn : (ndlc_iter phy len outdata n (ndlc_entry p_dev indata t)).exit = false := by
      simp only [ndlc_guard, Bool.and_eq_true, beq_iff_eq] at hg
      exact hg.2
    obtain ⟨he, hi⟩ := body_exit phy len outdata _ hexn
    have h1 : (ndlc_iter phy len outdata (n + 1) (ndlc_entry p_dev indata t)).exit = true := by
      rw [ndlc_iter_succ_right, if_pos hg]
      exact he.mpr ⟨hst, hres, hrd⟩
    have h1s : (ndlc_iter phy len outdata (n + 1) (ndlc_entry p_dev indata t)).status
        = NDLC_IDLE := by
      rw [ndlc_iter_succ_right, if_pos hg] at h1 ⊢
      exact hi.mpr h1
    have h2 : ndlc_guard (ndlc_iter phy len outdata (n + 1) (ndlc_entry p_dev indata t))
        = false := by
      simp [ndlc_guard, h1]
    have h3 := ndlc_iter_frozen phy len outdata (n + 1) fuel (ndlc_entry p_dev indata t)
      (by omega) h2
    simp only [ndlc_send_receive, h3, h2, h1, h1s]
    simp

/-- Witness for C22: SendAck with the counter at 3, answered by `[0xFE, 0]`. -/
theorem sendack_step_witness :
    (ndlc_body scriptPhy 4 [0x80, 0x02, 0xE0, 0x51]
        ⟨NLDC_SENDACK, 2, [0xE0, 0x50, 1, 2], 3, false, 4, [⟨2, [0xFE, 0]⟩], []⟩).log
        = [(⟨2, [0xE0, 0x00]⟩, ⟨2, [0xFE, 0]⟩)]
      ∧ (ndlc_body scriptPhy 4 [0x80, 0x02, 0xE0, 0x51]
        ⟨NLDC_SENDACK, 2, [0xE0, 0x50, 1, 2], 3, false, 4, [⟨2, [0xFE, 0]⟩], []⟩).status
        = NDLC_IDLE
      ∧ (ndlc_body scriptPhy 4 [0x80, 0x02, 0xE0, 0x51]
        ⟨NLDC_SENDACK, 2, [0xE0, 0x50, 1, 2], 3, false, 4, [⟨2, [0xFE, 0]⟩], []⟩).exit
        = true := by
  obtain ⟨h1, h2, -⟩ := (sendack_step scriptPhy 4 [0x80, 0x02, 0xE0, 0x51]).1
    ⟨NLDC_SENDACK, 2, [0xE0, 0x50, 1, 2], 3, false, 4, [⟨2, [0xFE, 0]⟩], []⟩ rfl rfl
  exact ⟨h1, (h2.mpr (by decide)).1, (h2.mpr (by decide)).2⟩

/-- C23. Polling reads transmit only filler: every ReadAck and ReadHeader iteration
transmits exactly `[0xFE, 0xFE]`, and every ReadData iteration transmits exactly `plen`
bytes all equal to `0xFE`, whatever the receive buffer holds (what a previous reply left
in it is overwritten by the filler before the transfer). The value `plen` changes only
when a header is accepted, and is then byte 1 of the receive buffer after the header
transfer. -/
theorem polling_filler {σ : Type} (phy : Phy σ) (len : Nat) (outdata : List Nat)
    (s : LoopState σ) :
    (s.status = NDLC_READACK ∨ s.status = NDLC_READHEADER →
        (ndlc_body phy len outdata s).log
          = s.log ++ [(⟨2, [0xFE, 0xFE]⟩, (phy s.phy ⟨2, [0xFE, 0xFE]⟩).2)])
      ∧ (s.status = NLDC_READDATA →
          (ndlc_body phy len outdata s).log
            = s.log ++ [(⟨s.plen, List.replicate s.plen 0xFE⟩,
                (phy s.phy ⟨s.plen, List.replicate s.plen 0xFE⟩).2)]
          ∧ ∀ ind : List Nat, (ndlc_body phy len outdata { s with indata := ind }).log
              = (ndlc_body phy len outdata s).log)
      ∧ ((ndlc_body phy len outdata s).plen = s.plen
          ∨ (s.status = NDLC_READHEADER
            ∧ (ndlc_body phy len outdata s).status = NLDC_READDATA
            ∧ (phy s.phy ⟨2, [0xFE, 0xFE]⟩).2.res = 2
            ∧ rd (ndlc_body phy len outdata s).indata 0 = 0x80
            ∧ (ndlc_body phy len outdata s).plen = rd (ndlc_body phy len outdata s).indata 1)) := by
  refine ⟨?_, ?_, ?_⟩
  · rintro (hs | hs) <;> simp only [ndlc_body, hs, xfer] <;> split_ifs <;> rfl
  · intro hs
    have key : ∀ ind : List Nat, (ndlc_body phy len outdata { s with indata := ind }).log
        = s.log ++ [(⟨s.plen, List.replicate s.plen 0xFE⟩,
            (phy s.phy ⟨s.plen, List.replicate s.plen 0xFE⟩).2)] := by
      intro ind
      simp only [ndlc_body, hs, xfer, take_writeBuf_replicate]
      split_ifs <;> rfl
    exact ⟨key s.indata, fun ind => by rw [key ind, ← key s.indata]⟩
  · rcases hs : s.status <;> simp only [ndlc_body, hs, xfer] <;> (try split_ifs) <;>
      simp_all

/-- C24. Resend-variant PCBs are not treated as their base values: a full-length reply
whose first byte is `0xE2` or `0xD2` in ReadAck, `0x84` in ReadHeader, or `0xE2` in
ReadData leaves the status as it was. More generally the status changes in ReadAck only
when byte 0 of the receive buffer is `0xE0` or `0xD0`, in ReadHeader only when it is
`0x80`, and in ReadData only when it is `0xE0`. -/
theorem resend_pcb_ignored {σ : Type} (phy : Phy σ) (len : Nat) (outdata : List Nat)
    (s : LoopState σ) :
    (∀ b rx, s.status = NDLC_READACK →
        (phy s.phy ⟨2, [0xFE, 0xFE]⟩).2 = ⟨2, b :: rx⟩ →
        b = NDLC_PCB_SUPERVISOR_ACK_RESEND ∨ b = NDLC_PCB_SUPERVISOR_NACK_RESEND →
        (ndlc_body phy len outdata s).status = NDLC_READACK)
      ∧ (∀ b rx, s.status = NDLC_READHEADER →
          (phy s.phy ⟨2, [0xFE, 0xFE]⟩).2 = ⟨2, b :: rx⟩ →
          b = NDLC_PCB_DATA_RESEND →
          (ndlc_body phy len outdata s).status = NDLC_READHEADER)
      ∧ (∀ b rx, s.status = NLDC_READDATA →
          (phy s.phy ⟨s.plen, List.replicate s.plen 0xFE⟩).2 = ⟨(s.plen : Int), b :: rx⟩ →
          b = NDLC_PCB_SUPERVISOR_ACK_RESEND →
          (ndlc_body phy len outdata s).status = NLDC_READDATA)
      ∧ ((ndlc_body phy len outdata s).status ≠ s.status →
          (s.status = NDLC_READACK →
            rd (ndlc_body phy len outdata s).indata 0 = NDLC_PCB_SUPERVISOR_ACK
            ∨ rd (ndlc_body phy len outdata s).indata 0 = NDLC_PCB_SUPERVISOR_NACK)
          ∧ (s.status = NDLC_READHEADER →
            rd (ndlc_body phy len outdata s).indata 0 = NDLC_PCB_DATA)
          ∧ (s.status = NLDC_READDATA →
            rd (ndlc_body phy len outdata s).indata 0 = NDLC_PCB_SUPERVISOR_ACK)) := by
  refine ⟨?_, ?_, ?_, ?_⟩
  · intro b rx hs h hb
    rcases hb with rfl | rfl <;> simp [ndlc_body, hs, xfer, h, rd_writeBuf_zero]
  · intro b rx hs h hb
    subst hb
    simp [ndlc_body, hs, xfer, h, rd_writeBuf_zero]
  · intro b rx hs h hb
    subst hb
    simp [ndlc_body, hs, xfer, take_writeBuf_replicate, h, rd_writeBuf_zero]
  · rcases hs : s.status <;> simp only [ndlc_body, hs, xfer] <;> (try split_ifs) <;>
      simp_all

/-- Witness for C24: ReadHeader answered by `[0x84, 5]` stays in ReadHeader. -/
theorem resend_pcb_ignored_witness :
    (ndlc_body scriptPhy 4 [0x80, 0x02, 0xE0, 0x51]
        ⟨NDLC_READHEADER, 0, [0xE0, 0, 0, 0], 0, false, 0, [⟨2, [0x84, 5]⟩], []⟩).status
      = NDLC_READHEADER :=
  (resend_pcb_ignored scriptPhy 4 [0x80, 0x02, 0xE0, 0x51]
    ⟨NDLC_READHEADER, 0, [0xE0, 0, 0, 0], 0, false, 0, [⟨2, [0x84, 5]⟩], []⟩).2.1
    0x84 [5] rfl rfl rfl

/-! ## Length truncation, the response length after a failure, resuming -/

/-- C27. `NDLC_apdu` performs no length validation and truncates the length field: for a
payload of 254, 255 or 256 bytes the first transport call still transmits the
`4 + apdu_len` bytes `[0x80, (2 + apdu_len) mod 256, 0xE0, 0x50] ++ payload`, whose
length byte is `apdu_len - 254`, that is 0, 1 or 2, and not the payload length plus 2.
The call has been made once the loop has run twice, and every call of `NDLC_apdu` that
returns has made it. -/
theorem apdu_length_byte_truncated {σ : Type} (phy : Phy σ) (fuel : Nat) (t : σ)
    (p_dev : ndlc_device_t) (p : List Nat) (h1 : 254 ≤ p.length) (h2 : p.length ≤ 256) :
    (2 ≤ fuel → (NDLC_apdu_calls phy fuel t p_dev p p.length).head?
        = some ⟨4 + p.length, [0x80, (2 + p.length) % 256, 0xE0, 0x50] ++ p⟩)
      ∧ (∀ outdata e, NDLC_apdu phy fuel t p_dev p p.length outdata = some e →
          (e.log.map Prod.fst).head?
            = some ⟨4 + p.length, [0x80, (2 + p.length) % 256, 0xE0, 0x50] ++ p⟩)
      ∧ (2 + p.length) % 256 = p.length - 254
      ∧ (2 + p.length) % 256 ≤ 2
      ∧ (2 + p.length) % 256 ≠ p.length + 2 := by
  have hlen : (4 + p.length) % 2 ^ 16 = 4 + p.length := Nat.mod_eq_of_lt (by omega)
  have hcmd : (apdu_cmd p p.length).take (4 + p.length)
      = [0x80, (2 + p.length) % 256, 0xE0, 0x50] ++ p := by
    have hb : (2 + p.length % 256) % 256 = (2 + p.length) % 256 := by omega
    simp only [apdu_cmd, List.take_length, hb]
    apply List.take_of_length_le
    simp
    omega
  have h := apdu_first_call phy fuel t p_dev p p.length
  rw [hlen, hcmd] at h
  exact ⟨h.1, h.2, by omega, by omega, by omega⟩

set_option maxRecDepth 100000 in
/-- Witness for C27: a payload of 255 bytes is sent with length byte 1. -/
theorem apdu_length_byte_truncated_witness :
    (NDLC_apdu_calls (constPhy 0x11) 2 () ⟨0, NDLC_IDLE, 0, List.replicate 260 0⟩
        (List.replicate 255 7) (List.replicate 255 7).length).head?
      = some ⟨4 + (List.replicate 255 7).length,
          [0x80, (2 + (List.replicate 255 7).length) % 256, 0xE0, 0x50]
            ++ List.replicate 255 7⟩
      ∧ (2 + (List.replicate 255 7).length) % 256 = 1 :=
  ⟨(apdu_length_byte_truncated (constPhy 0x11) 2 () ⟨0, NDLC_IDLE, 0, List.replicate 260 0⟩
    (List.replicate 255 7) (by simp) (by simp)).1 (by decide), by simp⟩

/-- One iteration keeps the fact that a non-zero `dataLen` goes with the status
SendAck, or with the end of the exchange. -/
theorem body_dataLen_sendack {σ : Type} (phy : Phy σ) (len : Nat) (outdata : List Nat)
    (s : LoopState σ) (hex : s.exit = false)
    (h : s.dataLen ≠ 0 → s.status = NLDC_SENDACK) :
    (ndlc_body phy len outdata s).dataLen ≠ 0 →
      (ndlc_body phy len outdata s).status = NLDC_SENDACK
        ∨ (ndlc_body phy len outdata s).exit = true := by
  rcases hs : s.status <;> simp only [ndlc_body, hs, xfer] <;> (try split_ifs) <;>
    simp_all

theorem iter_dataLen_sendack {σ : Type} (phy : Phy σ) (len : Nat) (outdata : List Nat)
    (n : Nat) (p_dev : ndlc_device_t) (indata : List Nat) (t : σ) :
    (ndlc_iter phy len outdata n (ndlc_entry p_dev indata t)).dataLen ≠ 0 →
      (ndlc_iter phy len outdata n (ndlc_entry p_dev indata t)).status = NLDC_SENDACK
        ∨ (ndlc_iter phy len outdata n (ndlc_entry p_dev indata t)).exit = true := by
  induction n with
  | zero => intro h; exact absurd rfl h
  | succ n ih =>
    rw [ndlc_iter_succ_right]
    by_cases hg : ndlc_guard (ndlc_iter phy len outdata n (ndlc_entry p_dev indata t)) = true
    · rw [if_pos hg]
      have hex : (ndlc_iter phy len outdata n (ndlc_entry p_dev indata t)).exit = false := by
        simp only [ndlc_guard, Bool.and_eq_true, beq_iff_eq] at hg
        exact hg.2
      apply body_dataLen_sendack _ _ _ _ hex
      intro h
      rcases ih h with h | h
      · exact h
      · rw [hex] at h
        exact absurd h (by simp)
    · rw [if_neg hg]
      exact ih

/-- C28. The response length after a failure: `ndlc_send_receive` sets `dataLen` to 0 on
entry, and an iteration changes it only on the transition from ReadData to SendAck.
Hence whenever the function returns -1 with a final status other than SendAck,
`dataLen` is 0, and a non-zero `dataLen` after a failed exchange means that the machine
stopped in SendAck. -/
theorem dataLen_after_failure {σ : Type} (phy : Phy σ) (len : Nat) (outdata : List Nat) :
    (∀ (p_dev : ndlc_device_t) (indata : List Nat) (t : σ),
        (ndlc_entry p_dev indata t).dataLen = 0)
      ∧ (∀ s : LoopState σ, (ndlc_body phy len outdata s).dataLen ≠ s.dataLen →
          s.status = NLDC_READDATA ∧ (ndlc_body phy len outdata s).status = NLDC_SENDACK)
      ∧ (∀ (fuel : Nat) (t : σ) (p_dev : ndlc_device_t) (indata : List Nat)
          (e : EngineResult σ),
          ndlc_send_receive phy fuel t p_dev len outdata indata = some e → e.res = -1 →
          (e.dev.status ≠ NLDC_SENDACK → e.dev.dataLen = 0)
            ∧ (e.dev.dataLen ≠ 0 → e.dev.status = NLDC_SENDACK)) := by
  refine ⟨fun _ _ _ => rfl, ?_, ?_⟩
  · intro s
    rcases hs : s.status <;> simp only [ndlc_body, hs, xfer] <;> (try split_ifs) <;>
      simp_all
  · intro fuel t p_dev indata e he hres
    obtain ⟨-, hr, hst, hdl, -, -, -⟩ := ndlc_send_receive_some _ _ _ _ _ _ _ _ he
    have hex : (ndlc_iter phy len outdata fuel (ndlc_entry p_dev indata t)).exit ≠ true := by
      intro hx
      rw [if_pos hx] at hr
      rw [hr] at hres
      exact absurd hres (by decide)
    have key : e.dev.dataLen ≠ 0 → e.dev.status = NLDC_SENDACK := by
      intro h
      rw [hdl] at h
      rw [hst]
      rcases iter_dataLen_sendack phy len outdata fuel p_dev indata t h with h | h
      · exact h
      · exact absurd h hex
    exact ⟨fun h => by_contra fun h0 => h (key h0), key⟩

/-- C29. `ndlc_send_receive` does not force the status to Idle but resumes from the status
of the handle: entered with status SendAck and a transport answering the first two-byte
transfer with a first byte `0xFE`, it returns 0 after a single transport call, which
transmits `[0xE0, 0x00]` (the command is never transmitted), and leaves `dataLen = 0`. -/
theorem resume_from_sendack {σ : Type} (phy : Phy σ) (fuel : Nat) (t : σ)
    (p_dev : ndlc_device_t) (len : Nat) (outdata indata rx : List Nat)
    (hs : p_dev.status = NLDC_SENDACK)
    (h : (phy t ⟨2, [0xE0, 0x00]⟩).2 = ⟨2, 0xFE :: rx⟩) (hf : 1 ≤ fuel) :
    (ndlc_entry p_dev indata t).status = p_dev.status
      ∧ ∃ e, ndlc_send_receive phy fuel t p_dev len outdata indata = some e
        ∧ e.res = 0
        ∧ e.log = [(⟨2, [0xE0, 0x00]⟩, ⟨2, 0xFE :: rx⟩)]
        ∧ e.dev.dataLen = 0
        ∧ e.dev.status = NDLC_IDLE := by
  refine ⟨rfl, ?_⟩
  obtain ⟨k, rfl⟩ : ∃ k, fuel = k + 1 := ⟨fuel - 1, by omega⟩
  have hrun := iter_sendack_ok phy len outdata k 0 indata 0 0 t [] rx (by decide) h
  have hentry : ndlc_entry p_dev indata t = ⟨NLDC_SENDACK, 0, indata, 0, false, 0, t, []⟩ := by
    simp [ndlc_entry, hs]
  simp only [ndlc_send_receive, hentry, hrun]
  simp [ndlc_guard]

/-- Witness for C29: a handle left in SendAck, a transport answering `[0xFE, 0]`. -/
theorem resume_from_sendack_witness :
    ∃ e, ndlc_send_receive scriptPhy 1 [⟨2, [0xFE, 0]⟩] ⟨0, NLDC_SENDACK, 7, [0, 0, 0, 0]⟩
        4 [0x80, 0x02, 0xE0, 0x51] [0, 0, 0, 0] = some e
      ∧ e.res = 0
      ∧ e.log = [(⟨2, [0xE0, 0x00]⟩, ⟨2, 0xFE :: [0]⟩)]
      ∧ e.dev.dataLen = 0
      ∧ e.dev.status = NDLC_IDLE :=
  (resume_from_sendack scriptPhy 1 [⟨2, [0xFE, 0]⟩] ⟨0, NLDC_SENDACK, 7, [0, 0, 0, 0]⟩
    4 [0x80, 0x02, 0xE0, 0x51] [0, 0, 0, 0] [0] rfl rfl (le_refl 1)).2

/-! ## No underflow of the response length -/

/-- In ReadData after a header announcing 0 or 1 bytes, the bytes 0/1 of the receive
buffer still hold the header, and the transfer is not accepted. -/
theorem readdata_short_header {σ : Type} (phy : Phy σ) (hphy : ExactPhy phy)
    (len : Nat) (outdata : List Nat) (s : LoopState σ) (hinv : ExchangeInv s)
    (hs : s.status = NLDC_READDATA) (hp : s.plen ≤ 1) :
    rd s.indata 1 = s.plen ∧ (s.plen = 0 → rd s.indata 0 = 0x80)
      ∧ (ndlc_body phy len outdata s).status ≠ NLDC_SENDACK
      ∧ (ndlc_body phy len outdata s).dataLen = s.dataLen := by
  have hseen := hinv.1 hs
  obtain ⟨hl, hle, -⟩ := hphy s.phy ⟨s.plen, List.replicate s.plen DUMMY_BYTE⟩
  rcases hr : (phy s.phy ⟨s.plen, List.replicate s.plen DUMMY_BYTE⟩).2 with ⟨res, rx⟩
  rw [hr] at hl hle
  simp only at hl hle
  have hretry := headerSeen_after_transfer s.plen s.indata s.log res rx hseen (by omega)
  obtain ⟨-, -, -, b0, b1, rest, -, -, hind, h0, h1⟩ := hseen
  obtain ⟨-, -, -, c0, c1, rest1, -, -, hind1, -, hc1⟩ := hretry
  have hb1 : rd s.indata 1 = s.plen := by
    rw [hind]
    exact h1 hp
  have hb0 : s.plen = 0 → rd s.indata 0 = 0x80 := by
    intro h
    rw [hind]
    exact h0 h
  have hno : ¬ (rd (writeBuf (writeBuf s.indata (List.replicate s.plen DUMMY_BYTE)) rx) 1
        = NDLC_MESSAGE_HEADER_EVT_C_APDU
      ∨ rd (writeBuf (writeBuf s.indata (List.replicate s.plen DUMMY_BYTE)) rx) 1
        = NDLC_MESSAGE_HEADER_EVT_ATR) := by
    rw [hind1]
    have : rd (c0 :: c1 :: rest1) 1 = s.plen := hc1 hp
    rw [this]
    intro h
    rcases h with h | h <;> rw [h] at hp <;> exact absurd hp (by decide)
  refine ⟨hb1, hb0, ?_, ?_⟩
  · simp only [ndlc_body, hs, xfer, take_writeBuf_replicate, hr]
    split_ifs with h2 h3 h4
    · exact absurd h3.2 hno
    · simp
    · simp [hs]
    · simp [hs]
  · simp only [ndlc_body, hs, xfer, take_writeBuf_replicate, hr]
    split_ifs with h2 h3 h4
    · exact absurd h3.2 hno
    · rfl
    · rfl
    · rfl

/-- C25. No length underflow. For every transport that writes exactly the bytes it
reports (never more than the requested length, so nothing for a transfer of length 0):
whenever `ndlc_send_receive` started from Idle returns 0, the length byte `L` of the last
accepted header, which is the length of the last ReadData transfers, satisfies
`2 ≤ L < 256`; `dataLen = L - 2` is therefore computed without wrap-around of the
unsigned subtraction and is at most 253. A header announcing 0 or 1 bytes never leads to
the acceptance of a body: in ReadData with such a `plen`, byte 1 of the receive buffer is
still `plen` (and byte 0 still `0x80` when `plen = 0`), so the iteration does not move to
SendAck and leaves `dataLen` as it was. -/
theorem no_length_underflow {σ : Type} (phy : Phy σ) (hphy : ExactPhy phy) (fuel : Nat)
    (t : σ) (p_dev : ndlc_device_t) (len : Nat) (outdata indata : List Nat)
    (hidle : p_dev.status = NDLC_IDLE) :
    (∀ e, ndlc_send_receive phy fuel t p_dev len outdata indata = some e → e.res = 0 →
      ∃ L pre mid post reply,
        e.log = pre ++ [(⟨2, [0xFE, 0xFE]⟩, ⟨2, [0x80, L]⟩)] ++ mid
            ++ [(⟨L, List.replicate L 0xFE⟩, ⟨(L : Int), reply⟩)] ++ post
        ∧ (∀ x ∈ mid, x.1 = ⟨L, List.replicate L 0xFE⟩)
        ∧ (∀ x ∈ post, x.1 = ⟨2, [0xE0, 0x00]⟩)
        ∧ 2 ≤ L ∧ L < 256
        ∧ e.dev.dataLen = L - 2
        ∧ (L + 2 ^ 32 - 2) % 2 ^ 32 % 2 ^ 16 = L - 2
        ∧ e.dev.dataLen ≤ 253)
      ∧ (∀ n, (ndlc_state phy t p_dev len outdata indata n).status = NLDC_READDATA →
          (ndlc_state phy t p_dev len outdata indata n).plen ≤ 1 →
          rd (ndlc_state phy t p_dev len outdata indata n).indata 1
              = (ndlc_state phy t p_dev len outdata indata n).plen
            ∧ ((ndlc_state phy t p_dev len outdata indata n).plen = 0 →
                rd (ndlc_state phy t p_dev len outdata indata n).indata 0 = 0x80)
            ∧ (ndlc_body phy len outdata
                (ndlc_state phy t p_dev len outdata indata n)).status ≠ NLDC_SENDACK
            ∧ (ndlc_body phy len outdata
                (ndlc_state phy t p_dev len outdata indata n)).dataLen
              = (ndlc_state phy t p_dev len outdata indata n).dataLen) := by
  constructor
  · intro e he hres
    obtain ⟨payload, pre, mid, post, ev, a, b, rest, hlog, hmid, hpost, -, hlt, hdl, -⟩ :=
      delivered_of_success phy hphy fuel t p_dev len outdata indata e hidle he hres
    refine ⟨2 + payload.length, pre, mid, post, 0xE0 :: ev :: payload, hlog, hmid, hpost,
      by omega, hlt, by omega, by omega, by omega⟩
  · intro n hs hp
    have hinv := exchangeInv_iter phy hphy len outdata n (ndlc_entry p_dev indata t)
      (exchangeInv_idle_like _ (by simp [ndlc_entry, hidle]) (by simp [ndlc_entry, hidle]) rfl)
    exact readdata_short_header phy hphy len outdata _ hinv hs hp

/-- Witness for C25: the exact scripted transport playing the happy path with a header
announcing 6 bytes; the exchange succeeds with `dataLen = 4`. -/
theorem no_length_underflow_witness :
    ∃ e, ndlc_send_receive exactScriptPhy 6
        [[0xFE, 0, 0, 0, 0, 0, 0], [0xE0, 0], [0x80, 6], [0xE0, 0x50, 9, 8, 7, 6], [0xFE, 0]]
        ⟨0, NDLC_IDLE, 0, List.replicate 260 0⟩ 7 [0x80, 5, 0xE0, 0x50, 1, 2, 3]
        (List.replicate 260 0) = some e
      ∧ e.res = 0
      ∧ ∃ L pre mid post reply,
        e.log = pre ++ [(⟨2, [0xFE, 0xFE]⟩, ⟨2, [0x80, L]⟩)] ++ mid
            ++ [(⟨L, List.replicate L 0xFE⟩, ⟨(L : Int), reply⟩)] ++ post
        ∧ (∀ x ∈ mid, x.1 = ⟨L, List.replicate L 0xFE⟩)
        ∧ (∀ x ∈ post, x.1 = ⟨2, [0xE0, 0x00]⟩)
        ∧ 2 ≤ L ∧ L < 256
        ∧ e.dev.dataLen = L - 2
        ∧ (L + 2 ^ 32 - 2) % 2 ^ 32 % 2 ^ 16 = L - 2
        ∧ e.dev.dataLen ≤ 253 := by
  refine ⟨_, rfl, by decide, ?_⟩
  exact (no_length_underflow exactScriptPhy exactScriptPhy_exact 6
    [[0xFE, 0, 0, 0, 0, 0, 0], [0xE0, 0], [0x80, 6], [0xE0, 0x50, 9, 8, 7, 6], [0xFE, 0]]
    ⟨0, NDLC_IDLE, 0, List.replicate 260 0⟩ 7 [0x80, 5, 0xE0, 0x50, 1, 2, 3]
    (List.replicate 260 0) rfl).1 _ rfl (by decide)

/-! ## The retry limit applies to each state -/

/-- An iteration whose transfer does not exchange the requested number of bytes keeps
the status and increments the counter. -/
theorem iter_fail {σ : Type} (phy : Phy σ) (len : Nat) (outdata : List Nat) (n dl : Nat)
    (ind : List Nat) (retry plen : Nat) (t : σ) (log : List (PhyCall × PhyReply))
    (st : ndlc_status) (c : PhyCall) (hc : ndlc_call len outdata plen st = some c)
    (hr : retry < 100) (hbad : (phy t c).2.res ≠ (c.len : Int)) :
    ∃ ind1, ndlc_iter phy len outdata (n + 1) ⟨st, dl, ind, retry, false, plen, t, log⟩
      = ndlc_iter phy len outdata n
          ⟨st, dl, ind1, retry + 1, false, plen, (phy t c).1, log ++ [(c, (phy t c).2)]⟩ := by
  rw [ndlc_iter_step _ _ _ _ _ (by simp [ndlc_guard, hr])]
  refine ⟨(ndlc_body phy len outdata ⟨st, dl, ind, retry, false, plen, t, log⟩).indata, ?_⟩
  congr 1
  cases st <;> simp only [ndlc_call, Option.some.injEq, reduceCtorEq] at hc <;> subst hc <;>
    simp only [Nat.cast_ofNat] at hbad <;>
    simp [ndlc_body, xfer, hbad, take_writeBuf_replicate]

/-- A run of failed transfers in one state: as long as the counter stays below 100 the
loop remains in that state, counting them. -/
theorem fail_run {σ : Type} (phy : Phy σ) (len : Nat) (outdata : List Nat)
    (st : ndlc_status) (c : PhyCall) (plen : Nat)
    (hc : ndlc_call len outdata plen st = some c)
    (f : List PhyReply) (ct : List PhyCall) (rt : List PhyReply) (n dl : Nat)
    (ind : List Nat) (retry : Nat) (t : σ) (log : List (PhyCall × PhyReply))
    (hr : retry + f.length < 100) (hf : ∀ x ∈ f, x.res ≠ (c.len : Int))
    (h : phyReplies phy t (List.replicate f.length c ++ ct) = f ++ rt) :
    ∃ ind1 t1, phyReplies phy t1 ct = rt
      ∧ ndlc_iter phy len outdata (f.length + n) ⟨st, dl, ind, retry, false, plen, t, log⟩
        = ndlc_iter phy len outdata n
            ⟨st, dl, ind1, retry + f.length, false, plen, t1,
              log ++ (List.replicate f.length c).zip f⟩ := by
  induction f generalizing ind retry t log with
  | nil =>
    refine ⟨ind, t, by simpa using h, ?_⟩
    simp
  | cons x f ih =>
    simp only [List.length_cons, List.replicate_succ, List.cons_append, phyReplies,
      List.cons.injEq] at h
    obtain ⟨h1, h2⟩ := h
    simp only [List.length_cons] at hr
    obtain ⟨ind0, hstep⟩ := iter_fail phy len outdata (f.length + n) dl ind retry plen t log
      st c hc (by omega) (by rw [h1]; exact hf x (List.mem_cons_self _ _))
    obtain ⟨ind1, t1, ht1, hrun⟩ := ih ind0 (retry + 1) (phy t c).1
      (log ++ [(c, (phy t c).2)]) (by omega)
      (fun y hy => hf y (List.mem_cons_of_mem _ hy)) h2
    refine ⟨ind1, t1, ht1, ?_⟩
    have e : (x :: f).length + n = f.length + n + 1 := by
      simp only [List.length_cons]; omega
    rw [e, hstep, hrun, h1]
    have e2 : retry + 1 + f.length = retry + (x :: f).length := by
      simp only [List.length_cons]; omega
    rw [e2]
    simp [List.replicate_succ]

/-- Counterexample to C26 as stated: a change of status that does not reset the counter.
The transport plays the happy path except that the first SendAck transfer is short.
After six iterations the status is SendAck with the counter at 1; the seventh iteration
moves to Idle and the counter is still 1. -/
theorem sendack_to_idle_keeps_retry :
    (ndlc_state scriptPhy
        [⟨4, [0xFE]⟩, ⟨2, [0xE0, 0]⟩, ⟨2, [0x80, 4]⟩, ⟨4, [0xE0, 0x50, 9, 8]⟩, ⟨1, [0]⟩,
          ⟨2, [0xFE, 0]⟩]
        ⟨0, NDLC_IDLE, 0, [0, 0, 0, 0]⟩ 4 [0x80, 0x02, 0xE0, 0x51] [0, 0, 0, 0] 6).status
        = NLDC_SENDACK
      ∧ (ndlc_state scriptPhy
        [⟨4, [0xFE]⟩, ⟨2, [0xE0, 0]⟩, ⟨2, [0x80, 4]⟩, ⟨4, [0xE0, 0x50, 9, 8]⟩, ⟨1, [0]⟩,
          ⟨2, [0xFE, 0]⟩]
        ⟨0, NDLC_IDLE, 0, [0, 0, 0, 0]⟩ 4 [0x80, 0x02, 0xE0, 0x51] [0, 0, 0, 0] 6).retry = 1
      ∧ (ndlc_state scriptPhy
        [⟨4, [0xFE]⟩, ⟨2, [0xE0, 0]⟩, ⟨2, [0x80, 4]⟩, ⟨4, [0xE0, 0x50, 9, 8]⟩, ⟨1, [0]⟩,
          ⟨2, [0xFE, 0]⟩]
        ⟨0, NDLC_IDLE, 0, [0, 0, 0, 0]⟩ 4 [0x80, 0x02, 0xE0, 0x51] [0, 0, 0, 0] 7).status
        = NDLC_IDLE
      ∧ (ndlc_state scriptPhy
        [⟨4, [0xFE]⟩, ⟨2, [0xE0, 0]⟩, ⟨2, [0x80, 4]⟩, ⟨4, [0xE0, 0x50, 9, 8]⟩, ⟨1, [0]⟩,
          ⟨2, [0xFE, 0]⟩]
        ⟨0, NDLC_IDLE, 0, [0, 0, 0, 0]⟩ 4 [0x80, 0x02, 0xE0, 0x51] [0, 0, 0, 0] 7).retry
        = 1 := by
  decide

/-- C26, as amended. The retry limit applies to each state visit and not to the exchange
as a whole. Every change of status resets the counter to 0, except the last one, from
SendAck to Idle, which leaves it as it is (the loop ends there). So when the transport
makes the transfers of SendCmd, ReadAck, ReadHeader, ReadData and SendAck fail (by not
exchanging the requested number of bytes) `|f1|`, .., `|f5|` times, each at most 99,
before it answers them on the happy path, `ndlc_send_receive` started in Idle returns 0
after `|f1| + .. + |f5| + 5` transport calls, of which `|f1| + .. + |f5|`, up to 495,
incremented the counter. -/
theorem retry_limit_per_state {σ : Type} (phy : Phy σ) (t : σ) (p_dev : ndlc_device_t)
    (len : Nat) (outdata indata : List Nat) (f1 f2 f3 f4 f5 : List PhyReply)
    (t1 t2 r t5 : List Nat) (fuel : Nat)
    (hidle : p_dev.status = NDLC_IDLE) (hlen : 0 < len) (hr : r.length ≤ 253)
    (h1 : f1.length ≤ 99) (h2 : f2.length ≤ 99) (h3 : f3.length ≤ 99)
    (h4 : f4.length ≤ 99) (h5 : f5.length ≤ 99)
    (hf1 : ∀ x ∈ f1, x.res ≠ (len : Int)) (hf2 : ∀ x ∈ f2, x.res ≠ 2)
    (hf3 : ∀ x ∈ f3, x.res ≠ 2) (hf4 : ∀ x ∈ f4, x.res ≠ ((2 + r.length : Nat) : Int))
    (hf5 : ∀ x ∈ f5, x.res ≠ 2)
    (hfuel : f1.length + f2.length + f3.length + f4.length + f5.length + 6 ≤ fuel)
    (h : phyReplies phy t (retryCalls len outdata (2 + r.length)
          f1.length f2.length f3.length f4.length f5.length)
        = retryReplies len f1 f2 f3 f4 f5 t1 t2 r t5) :
    (∀ s : LoopState σ, (ndlc_body phy len outdata s).status ≠ s.status →
        (ndlc_body phy len outdata s).retry = 0
          ∨ (s.status = NLDC_SENDACK ∧ (ndlc_body phy len outdata s).status = NDLC_IDLE
            ∧ (ndlc_body phy len outdata s).retry = s.retry))
      ∧ ∃ e, ndlc_send_receive phy fuel t p_dev len outdata indata = some e
        ∧ e.res = 0
        ∧ e.dev.status = NDLC_IDLE
        ∧ e.dev.dataLen = r.length
        ∧ e.retry = f5.length
        ∧ e.log.map Prod.fst = retryCalls len outdata (2 + r.length)
            f1.length f2.length f3.length f4.length f5.length
        ∧ e.log.map Prod.snd = retryReplies len f1 f2 f3 f4 f5 t1 t2 r t5
        ∧ e.log.length
            = f1.length + f2.length + f3.length + f4.length + f5.length + 5 := by
  constructor
  · intro s
    rcases hs : s.status <;> simp only [ndlc_body, hs, xfer] <;> (try split_ifs) <;>
      simp_all
  obtain ⟨k, rfl⟩ : ∃ k, fuel = f1.length + (f2.length + (f3.length + (f4.length
      + (f5.length + (k + 1) + 1) + 1) + 1) + 1) + 1 :=
    ⟨fuel - (f1.length + f2.length + f3.length + f4.length + f5.length + 6), by omega⟩
  simp only [retryCalls, retryReplies] at h
  have hentry : ndlc_entry p_dev indata t = ⟨NDLC_IDLE, 0, indata, 0, false, 0, t, []⟩ := by
    simp [ndlc_entry, hidle]
  -- SendCmd
  obtain ⟨i1, u1, hu1, hrun1⟩ := fail_run phy len outdata NDLC_SENDCMD ⟨len, outdata.take len⟩
    0 rfl f1 _ _ (f2.length + (f3.length + (f4.length + (f5.length + (k + 1) + 1) + 1) + 1) + 1)
    0 indata 0 t [] (by omega) hf1 h
  simp only [phyReplies, List.cons.injEq] at hu1
  obtain ⟨hok1, hu1⟩ := hu1
  -- ReadAck
  obtain ⟨i2, u2, hu2, hrun2⟩ := fail_run phy len outdata NDLC_READACK ⟨2, [0xFE, 0xFE]⟩
    0 rfl f2 _ _ (f3.length + (f4.length + (f5.length + (k + 1) + 1) + 1) + 1)
    0 (writeBuf i1 (0xFE :: t1)) 0 (phy u1 ⟨len, outdata.take len⟩).1
    ([] ++ (List.replicate f1.length (⟨len, outdata.take len⟩ : PhyCall)).zip f1
      ++ [(⟨len, outdata.take len⟩, ⟨(len : Int), 0xFE :: t1⟩)])
    (by omega) hf2 hu1
  simp only [phyReplies, List.cons.injEq] at hu2
  obtain ⟨hok2, hu2⟩ := hu2
  -- ReadHeader
  obtain ⟨i3, u3, hu3, hrun3⟩ := fail_run phy len outdata NDLC_READHEADER ⟨2, [0xFE, 0xFE]⟩
    0 rfl f3 _ _ (f4.length + (f5.length + (k + 1) + 1) + 1)
    0 (writeBuf i2 (0xE0 :: t2)) 0 (phy u2 ⟨2, [0xFE, 0xFE]⟩).1
    ([] ++ (List.replicate f1.length (⟨len, outdata.take len⟩ : PhyCall)).zip f1
      ++ [(⟨len, outdata.take len⟩, ⟨(len : Int), 0xFE :: t1⟩)]
      ++ (List.replicate f2.length (⟨2, [0xFE, 0xFE]⟩ : PhyCall)).zip f2
      ++ [(⟨2, [0xFE, 0xFE]⟩, ⟨2, 0xE0 :: t2⟩)])
    (by omega) hf3 hu2
  simp only [phyReplies, List.cons.injEq] at hu3
  obtain ⟨hok3, hu3⟩ := hu3
  -- ReadData
  obtain ⟨i4, u4, hu4, hrun4⟩ := fail_run phy len outdata NLDC_READDATA
    ⟨2 + r.length, List.replicate (2 + r.length) 0xFE⟩
    (2 + r.length) rfl f4 _ _ (f5.length + (k + 1) + 1)
    0 (writeBuf i3 (0x80 :: (2 + r.length) :: [])) 0 (phy u3 ⟨2, [0xFE, 0xFE]⟩).1
    ([] ++ (List.replicate f1.length (⟨len, outdata.take len⟩ : PhyCall)).zip f1
      ++ [(⟨len, outdata.take len⟩, ⟨(len : Int), 0xFE :: t1⟩)]
      ++ (List.replicate f2.length (⟨2, [0xFE, 0xFE]⟩ : PhyCall)).zip f2
      ++ [(⟨2, [0xFE, 0xFE]⟩, ⟨2, 0xE0 :: t2⟩)]
      ++ (List.replicate f3.length (⟨2, [0xFE, 0xFE]⟩ : PhyCall)).zip f3
      ++ [(⟨2, [0xFE, 0xFE]⟩, ⟨2, 0x80 :: (2 + r.length) :: []⟩)])
    (by omega) hf4 hu3
  simp only [phyReplies, List.cons.injEq] at hu4
  obtain ⟨hok4, hu4⟩ := hu4
  -- SendAck
  obtain ⟨i5, u5, hu5, hrun5⟩ := fail_run phy len outdata NLDC_SENDACK ⟨2, [0xE0, 0x00]⟩
    (2 + r.length) rfl f5 _ _ (k + 1)
    ((2 + r.length + 2 ^ 32 - 2) % 2 ^ 32 % 2 ^ 16)
    (writeBuf (writeBuf i4 (List.replicate (2 + r.length) 0xFE)) (0xE0 :: 0x50 :: r)) 0
    (phy u4 ⟨2 + r.length, List.replicate (2 + r.length) 0xFE⟩).1
    ([] ++ (List.replicate f1.length (⟨len, outdata.take len⟩ : PhyCall)).zip f1
      ++ [(⟨len, outdata.take len⟩, ⟨(len : Int), 0xFE :: t1⟩)]
      ++ (List.replicate f2.length (⟨2, [0xFE, 0xFE]⟩ : PhyCall)).zip f2
      ++ [(⟨2, [0xFE, 0xFE]⟩, ⟨2, 0xE0 :: t2⟩)]
      ++ (List.replicate f3.length (⟨2, [0xFE, 0xFE]⟩ : PhyCall)).zip f3
      ++ [(⟨2, [0xFE, 0xFE]⟩, ⟨2, 0x80 :: (2 + r.length) :: []⟩)]
      ++ (List.replicate f4.length
          (⟨2 + r.length, List.replicate (2 + r.length) 0xFE⟩ : PhyCall)).zip f4
      ++ [(⟨2 + r.length, List.replicate (2 + r.length) 0xFE⟩,
          ⟨((2 + r.length : Nat) : Int), 0xE0 :: 0x50 :: r⟩)])
    (by omega) hf5 hu4
  simp only [phyReplies, List.cons.injEq, and_true] at hu5
  have hfin : ndlc_iter phy len outdata
      (f1.length + (f2.length + (f3.length + (f4.length + (f5.length + (k + 1) + 1) + 1) + 1) + 1)
        + 1) (ndlc_entry p_dev indata t)
      = ⟨NDLC_IDLE, (2 + r.length + 2 ^ 32 - 2) % 2 ^ 32 % 2 ^ 16,
          writeBuf i5 (0xFE :: t5), 0 + f5.length, true, 2 + r.length,
          (phy u5 ⟨2, [0xE0, 0x00]⟩).1,
          [] ++ (List.replicate f1.length (⟨len, outdata.take len⟩ : PhyCall)).zip f1
            ++ [(⟨len, outdata.take len⟩, ⟨(len : Int), 0xFE :: t1⟩)]
            ++ (List.replicate f2.length (⟨2, [0xFE, 0xFE]⟩ : PhyCall)).zip f2
            ++ [(⟨2, [0xFE, 0xFE]⟩, ⟨2, 0xE0 :: t2⟩)]
            ++ (List.replicate f3.length (⟨2, [0xFE, 0xFE]⟩ : PhyCall)).zip f3
            ++ [(⟨2, [0xFE, 0xFE]⟩, ⟨2, 0x80 :: (2 + r.length) :: []⟩)]
            ++ (List.replicate f4.length
                (⟨2 + r.length, List.replicate (2 + r.length) 0xFE⟩ : PhyCall)).zip f4
            ++ [(⟨2 + r.length, List.replicate (2 + r.length) 0xFE⟩,
                ⟨((2 + r.length : Nat) : Int), 0xE0 :: 0x50 :: r⟩)]
            ++ (List.replicate f5.length (⟨2, [0xE0, 0x00]⟩ : PhyCall)).zip f5
            ++ [(⟨2, [0xE0, 0x00]⟩, ⟨2, 0xFE :: t5⟩)]⟩ := by
    rw [hentry, iter_idle phy len outdata _ _ _ _ _ _ _ (by decide), hrun1,
      iter_sendcmd_ok phy len outdata _ _ _ _ _ _ _ t1 (by omega) hlen hok1, hrun2,
      iter_readack_ack phy len outdata _ _ _ _ _ _ _ t2 (by omega) hok2, hrun3,
      iter_readheader_data phy len outdata _ _ _ _ _ _ _ (2 + r.length) [] (by omega) hok3,
      hrun4,
      iter_readdata_apdu phy len outdata _ _ _ _ _ _ _ r (by omega) hok4, hrun5,
      iter_sendack_ok phy len outdata _ _ _ _ _ _ _ t5 (by omega) hu5]
  have hdl : (2 + r.length + 2 ^ 32 - 2) % 2 ^ 32 % 2 ^ 16 = r.length := by omega
  simp only [ndlc_send_receive, hfin, hdl]
  rw [if_neg (by simp [ndlc_guard])]
  refine ⟨_, rfl, ?_⟩
  simp [retryCalls, retryReplies, List.map_fst_zip, List.map_snd_zip]
  omega

/-- Witness for C26 as amended: each of the five transfers is answered 99 times by a
transfer of one byte before the happy-path reply; the exchange succeeds after 500
transport calls. -/
theorem retry_limit_per_state_witness :
    ∃ e, ndlc_send_receive scriptPhy 501
        (retryReplies 4 (List.replicate 99 ⟨1, [0]⟩) (List.replicate 99 ⟨1, [0]⟩)
          (List.replicate 99 ⟨1, [0]⟩) (List.replicate 99 ⟨1, [0]⟩)
          (List.replicate 99 ⟨1, [0]⟩) [] [0] [9, 8] [0])
        ⟨0, NDLC_IDLE, 0, [0, 0, 0, 0]⟩ 4 [0x80, 0x02, 0xE0, 0x51] [0, 0, 0, 0] = some e
      ∧ e.res = 0
      ∧ e.dev.dataLen = 2
      ∧ e.retry = 99
      ∧ e.log.length = 500 := by
  have hF : (List.replicate 99 (⟨1, [0]⟩ : PhyReply)).length ≤ 99 :=
    le_of_eq (List.length_replicate _ _)
  have hbad : ∀ n : Int, n ≠ 1 → ∀ x ∈ List.replicate 99 (⟨1, [0]⟩ : PhyReply), x.res ≠ n := by
    intro n hn x hx
    rw [List.eq_of_mem_replicate hx]
    exact fun h => hn h.symm
  obtain ⟨-, e, he, h0, -, hdl, hretry, -, -, hlen⟩ :=
    retry_limit_per_state scriptPhy
      (retryReplies 4 (List.replicate 99 ⟨1, [0]⟩) (List.replicate 99 ⟨1, [0]⟩)
        (List.replicate 99 ⟨1, [0]⟩) (List.replicate 99 ⟨1, [0]⟩)
        (List.replicate 99 ⟨1, [0]⟩) [] [0] [9, 8] [0])
      ⟨0, NDLC_IDLE, 0, [0, 0, 0, 0]⟩ 4 [0x80, 0x02, 0xE0, 0x51] [0, 0, 0, 0]
      (List.replicate 99 ⟨1, [0]⟩) (List.replicate 99 ⟨1, [0]⟩)
      (List.replicate 99 ⟨1, [0]⟩) (List.replicate 99 ⟨1, [0]⟩)
      (List.replicate 99 ⟨1, [0]⟩) [] [0] [9, 8] [0] 501
      rfl (by decide) (by decide) hF hF hF hF hF
      (hbad _ (by decide)) (hbad _ (by decide)) (hbad _ (by decide)) (hbad _ (by decide))
      (hbad _ (by decide)) (by simp)
      (phyReplies_scriptPhy _ _ (by
        simp only [retryCalls, retryReplies, List.length_append, List.length_cons,
          List.length_replicate, List.length_nil]))
  exact ⟨e, he, h0, hdl, hretry.trans (List.length_replicate _ _),
    hlen.trans (by simp)⟩

/-! ## The value returned by the engine -/

/-- Once the guard of the loop is false after `n` iterations, `ndlc_send_receive`
returns for every bound `fuel ≥ n`, with the value that the flag `exit` selects. -/
theorem send_receive_of_ended {σ : Type} (phy : Phy σ) (fuel n : Nat) (t : σ)
    (p_dev : ndlc_device_t) (len : Nat) (outdata indata : List Nat) (hn : n ≤ fuel)
    (hg : ndlc_guard (ndlc_state phy t p_dev len outdata indata n) = false) :
    ∃ e, ndlc_send_receive phy fuel t p_dev len outdata indata = some e
      ∧ e.res = (if (ndlc_state phy t p_dev len outdata indata n).exit = true then 0 else -1)
      ∧ e.dev.status = (ndlc_state phy t p_dev len outdata indata n).status
      ∧ e.dev.dataLen = (ndlc_state phy t p_dev len outdata indata n).dataLen
      ∧ e.indata = (ndlc_state phy t p_dev len outdata indata n).indata
      ∧ e.log = (ndlc_state phy t p_dev len outdata indata n).log := by
  simp only [ndlc_state] at hg ⊢
  have hf := ndlc_iter_frozen phy len outdata n fuel (ndlc_entry p_dev indata t) hn hg
  simp only [ndlc_send_receive, hf, hg]
  exact ⟨_, rfl, rfl, rfl, rfl, rfl, rfl⟩

/-- A SendAck iteration whose transfer exchanges 2 bytes and leaves `0xFE` in byte 0 of
the receive buffer ends the loop: `ndlc_send_receive` returns 0. -/
theorem send_receive_sendack_ok {σ : Type} (phy : Phy σ) (fuel n : Nat) (t : σ)
    (p_dev : ndlc_device_t) (len : Nat) (outdata indata : List Nat) (hn : n < fuel)
    (hg : ndlc_guard (ndlc_state phy t p_dev len outdata indata n) = true)
    (hst : (ndlc_state phy t p_dev len outdata indata n).status = NLDC_SENDACK)
    (hres : (phy (ndlc_state phy t p_dev len outdata indata n).phy ⟨2, [0xE0, 0x00]⟩).2.res = 2)
    (hrd : rd (writeBuf (ndlc_state phy t p_dev len outdata indata n).indata
        (phy (ndlc_state phy t p_dev len outdata indata n).phy ⟨2, [0xE0, 0x00]⟩).2.rx) 0
        = 0xFE) :
    ∃ e, ndlc_send_receive phy fuel t p_dev len outdata indata = some e
      ∧ e.res = 0 ∧ e.dev.status = NDLC_IDLE
      ∧ e.dev.dataLen = (ndlc_state phy t p_dev len outdata indata n).dataLen := by
  have hexn : (ndlc_state phy t p_dev len outdata indata n).exit = false := by
    simp only [ndlc_guard, Bool.and_eq_true, beq_iff_eq] at hg
    exact hg.2
  have hnext : ndlc_state phy t p_dev len outdata indata (n + 1)
      = ndlc_body phy len outdata (ndlc_state phy t p_dev len outdata indata n) := by
    simp only [ndlc_state] at hg ⊢
    rw [ndlc_iter_succ_right, if_pos hg]
  obtain ⟨he, hi⟩ := body_exit phy len outdata _ hexn
  have h1 : (ndlc_state phy t p_dev len outdata indata (n + 1)).exit = true := by
    rw [hnext]
    exact he.mpr ⟨hst, hres, hrd⟩
  have h1s : (ndlc_state phy t p_dev len outdata indata (n + 1)).status = NDLC_IDLE := by
    rw [hnext] at h1 ⊢
    exact hi.mpr h1
  have h1d : (ndlc_state phy t p_dev len outdata indata (n + 1)).dataLen
      = (ndlc_state phy t p_dev len outdata indata n).dataLen := by
    rw [hnext]
    simp only [ndlc_body, hst, xfer]
    split_ifs <;> rfl
  have h2 : ndlc_guard (ndlc_state phy t p_dev len outdata indata (n + 1)) = false := by
    simp [ndlc_guard, h1]
  obtain ⟨e, hsome, hr, hs, hd, -, -⟩ :=
    send_receive_of_ended phy fuel (n + 1) t p_dev len outdata indata (by omega) h2
  exact ⟨e, hsome, by rw [hr, if_pos h1], by rw [hs, h1s], by rw [hd, h1d]⟩

/-- A loop state with the counter at 100 and `exit` not set ends the loop:
`ndlc_send_receive` returns -1. -/
theorem send_receive_exhausted {σ : Type} (phy : Phy σ) (fuel n : Nat) (t : σ)
    (p_dev : ndlc_device_t) (len : Nat) (outdata indata : List Nat) (hn : n ≤ fuel)
    (hex : (ndlc_state phy t p_dev len outdata indata n).exit = false)
    (hre : (ndlc_state phy t p_dev len outdata indata n).retry = 100) :
    ∃ e, ndlc_send_receive phy fuel t p_dev len outdata indata = some e ∧ e.res = -1 := by
  have hg : ndlc_guard (ndlc_state phy t p_dev len outdata indata n) = false := by
    simp [ndlc_guard, hre]
  obtain ⟨e, hsome, hr, -⟩ := send_receive_of_ended phy fuel n t p_dev len outdata indata hn hg
  exact ⟨e, hsome, by rw [hr, hex]; rfl⟩

/-- One iteration with `wtxForeverPhy` keeps the loop in the states `WtxLoop`. -/
theorem wtxLoop_body (len : Nat) (outdata : List Nat) (hlen : 0 < len)
    (s : LoopState Nat) (h : WtxLoop s) : WtxLoop (ndlc_body wtxForeverPhy len outdata s) := by
  obtain ⟨he, hr, h | h | h | h | h⟩ := h
  · obtain ⟨hs, hp⟩ := h
    exact ⟨by simp [ndlc_body, hs, he], by simp [ndlc_body, hs],
      Or.inr (Or.inl ⟨by simp [ndlc_body, hs], by simp [ndlc_body, hs, hp]⟩)⟩
  · obtain ⟨hs, hp⟩ := h
    obtain ⟨m, rfl⟩ : ∃ m, len = m + 1 := ⟨len - 1, by omega⟩
    have h0 : (0 : Int) < (m : Int) + 1 := by omega
    refine ⟨?_, ?_, Or.inr (Or.inr (Or.inl ⟨?_, ?_⟩))⟩ <;>
      simp [ndlc_body, xfer, hs, hp, he, wtxForeverPhy, List.replicate_succ,
        rd_writeBuf_zero, h0]
  · obtain ⟨hs, hp⟩ := h
    refine ⟨?_, ?_, Or.inr (Or.inr (Or.inr (Or.inl ⟨?_, 0, ?_⟩)))⟩ <;>
      simp [ndlc_body, xfer, hs, hp, he, wtxForeverPhy, rd_writeBuf_zero]
  · obtain ⟨hs, j, hp⟩ := h
    have hk : (2 * j) % 2 = 0 := by omega
    refine ⟨?_, ?_, Or.inr (Or.inr (Or.inr (Or.inr ⟨?_, ?_, j, ?_⟩)))⟩ <;>
      simp [ndlc_body, xfer, hs, hp, he, wtxForeverPhy, rd_writeBuf_zero, rd_writeBuf_one, hk]
  · obtain ⟨hs, hl, j, hp⟩ := h
    have hp1 : s.phy = (2 * j + 1) + 2 := by omega
    have hk : ¬ ((2 * j + 1) % 2 = 0) := by omega
    refine ⟨?_, ?_, Or.inr (Or.inr (Or.inr (Or.inl ⟨?_, j + 1, ?_⟩)))⟩ <;>
      simp [ndlc_body, xfer, hs, hp1, hl, he, wtxForeverPhy, rd_writeBuf_zero,
        rd_writeBuf_one, hk, take_writeBuf_replicate]
    omega

theorem wtxLoop_iter (len : Nat) (outdata : List Nat) (hlen : 0 < len) (n : Nat)
    (s : LoopState Nat) (h : WtxLoop s) :
    WtxLoop (ndlc_iter wtxForeverPhy len outdata n s) := by
  induction n generalizing s with
  | zero => exact h
  | succ n ih =>
    rw [ndlc_iter_step _ _ _ _ _ (by simp [ndlc_guard, h.1, h.2.1])]
    exact ih _ (wtxLoop_body len outdata hlen s h)

/-- Against `wtxForeverPhy` an exchange started in Idle is still running after any
number of iterations, with `exit` not set and the counter at 0. -/
theorem wtx_forever_running (len : Nat) (outdata indata : List Nat) (hlen : 0 < len)
    (p_dev : ndlc_device_t) (hidle : p_dev.status = NDLC_IDLE) (n : Nat) :
    ndlc_send_receive wtxForeverPhy n 0 p_dev len outdata indata = none
      ∧ (ndlc_state wtxForeverPhy 0 p_dev len outdata indata n).exit = false
      ∧ (ndlc_state wtxForeverPhy 0 p_dev len outdata indata n).retry = 0 := by
  have key : WtxLoop (ndlc_iter wtxForeverPhy len outdata n (ndlc_entry p_dev indata 0)) :=
    wtxLoop_iter len outdata hlen n _ ⟨rfl, rfl, Or.inl ⟨hidle, rfl⟩⟩
  have hg : ndlc_guard (ndlc_iter wtxForeverPhy len outdata n (ndlc_entry p_dev indata 0))
      = true := by
    simp [ndlc_guard, key.1, key.2.1]
  refine ⟨?_, key.1, key.2.1⟩
  simp only [ndlc_send_receive, hg, if_true]

/-- Counterexample to C13 as stated: an exchange that does not succeed and for which -1
is not returned. Against the peer that answers every header poll with a wait-time
extension, the Abort exchange started in Idle never sets `exit` and never counts a
retry: whatever the number of iterations, `ndlc_send_receive` has not returned. -/
theorem wtx_forever_no_result :
    (∀ fuel, ndlc_send_receive wtxForeverPhy fuel 0 ⟨0, NDLC_IDLE, 0, List.replicate 260 0⟩
        4 [0x80, 0x02, 0xE0, 0x51] (List.replicate 260 0) = none)
      ∧ (∀ n, (ndlc_state wtxForeverPhy 0 ⟨0, NDLC_IDLE, 0, List.replicate 260 0⟩
          4 [0x80, 0x02, 0xE0, 0x51] (List.replicate 260 0) n).exit = false
        ∧ (ndlc_state wtxForeverPhy 0 ⟨0, NDLC_IDLE, 0, List.replicate 260 0⟩
          4 [0x80, 0x02, 0xE0, 0x51] (List.replicate 260 0) n).retry = 0) :=
  ⟨fun fuel => (wtx_forever_running 4 [0x80, 0x02, 0xE0, 0x51] (List.replicate 260 0)
      (Nat.succ_pos 3) ⟨0, NDLC_IDLE, 0, List.replicate 260 0⟩ rfl fuel).1,
   fun n => (wtx_forever_running 4 [0x80, 0x02, 0xE0, 0x51] (List.replicate 260 0)
      (Nat.succ_pos 3) ⟨0, NDLC_IDLE, 0, List.replicate 260 0⟩ rfl n).2⟩

/-- C13, as amended. `ndlc_send_receive` returns no value other than 0 and -1. It returns
0 exactly when one of the iterations it ran was a SendAck transfer that exchanged 2
bytes and after which the first byte of the receive buffer was `0xFE`; that iteration is
the last one, and the last transport call recorded is `[0xE0, 0x00]` with result 2. It
returns -1 exactly when the loop reached a state with the retry counter at 100 without
that. As long as neither has happened it has not returned: that an exchange does not
succeed does not by itself make it return -1. -/
theorem send_receive_result {σ : Type} (phy : Phy σ) (fuel : Nat) (t : σ)
    (p_dev : ndlc_device_t) (len : Nat) (outdata indata : List Nat) :
    ((∃ e, ndlc_send_receive phy fuel t p_dev len outdata indata = some e ∧ e.res = 0)
        ↔ ∃ n, n < fuel
          ∧ ndlc_guard (ndlc_state phy t p_dev len outdata indata n) = true
          ∧ (ndlc_state phy t p_dev len outdata indata n).status = NLDC_SENDACK
          ∧ (phy (ndlc_state phy t p_dev len outdata indata n).phy ⟨2, [0xE0, 0x00]⟩).2.res = 2
          ∧ rd (writeBuf (ndlc_state phy t p_dev len outdata indata n).indata
              (phy (ndlc_state phy t p_dev len outdata indata n).phy ⟨2, [0xE0, 0x00]⟩).2.rx) 0
              = 0xFE)
      ∧ ((∃ e, ndlc_send_receive phy fuel t p_dev len outdata indata = some e ∧ e.res = -1)
        ↔ ∃ n, n ≤ fuel
          ∧ (ndlc_state phy t p_dev len outdata indata n).exit = false
          ∧ (ndlc_state phy t p_dev len outdata indata n).retry = 100)
      ∧ (∀ e, ndlc_send_receive phy fuel t p_dev len outdata indata = some e →
          e.res = 0 ∨ e.res = -1)
      ∧ (ndlc_send_receive phy fuel t p_dev len outdata indata = none
        ↔ (ndlc_state phy t p_dev len outdata indata fuel).exit = false
          ∧ (ndlc_state phy t p_dev len outdata indata fuel).retry < 100)
      ∧ (∀ e, ndlc_send_receive phy fuel t p_dev len outdata indata = some e → e.res = 0 →
          ∃ l r, e.log = l ++ [(⟨2, [0xE0, 0x00]⟩, r)] ∧ r.res = 2) := by
  have hexit : ∀ e, ndlc_send_receive phy fuel t p_dev len outdata indata = some e →
      e.res = 0 → ∃ m, m < fuel
        ∧ ndlc_guard (ndlc_iter phy len outdata m (ndlc_entry p_dev indata t)) = true
        ∧ ndlc_iter phy len outdata fuel (ndlc_entry p_dev indata t)
            = ndlc_body phy len outdata (ndlc_iter phy len outdata m (ndlc_entry p_dev indata t))
        ∧ (ndlc_iter phy len outdata m (ndlc_entry p_dev indata t)).status = NLDC_SENDACK
        ∧ (phy (ndlc_iter phy len outdata m (ndlc_entry p_dev indata t)).phy
            ⟨2, [0xE0, 0x00]⟩).2.res = 2
        ∧ rd (writeBuf (ndlc_iter phy len outdata m (ndlc_entry p_dev indata t)).indata
            (phy (ndlc_iter phy len outdata m (ndlc_entry p_dev indata t)).phy
              ⟨2, [0xE0, 0x00]⟩).2.rx) 0 = 0xFE := by
    intro e h h0
    obtain ⟨hg, hr, -, -, -, -, -⟩ := ndlc_send_receive_some _ _ _ _ _ _ _ _ h
    have hentry : ndlc_guard (ndlc_entry p_dev indata t) = true := rfl
    obtain ⟨m, hm, hgm, hbody, -⟩ := ndlc_iter_last phy len outdata fuel _ hentry hg
    have hexm : (ndlc_iter phy len outdata m (ndlc_entry p_dev indata t)).exit = false := by
      simp only [ndlc_guard, Bool.and_eq_true, beq_iff_eq] at hgm
      exact hgm.2
    have hbe := (body_exit phy len outdata _ hexm).1
    have hex : (ndlc_iter phy len outdata fuel (ndlc_entry p_dev indata t)).exit = true := by
      by_contra hne
      rw [hr, if_neg hne] at h0
      exact absurd h0 (by decide)
    rw [hbody] at hex
    exact ⟨m, hm, hgm, hbody, (hbe.mp hex).1, (hbe.mp hex).2.1, (hbe.mp hex).2.2⟩
  refine ⟨⟨?_, ?_⟩, ⟨?_, ?_⟩, ?_, ⟨?_, ?_⟩, ?_⟩
  · rintro ⟨e, h, h0⟩
    obtain ⟨m, hm, hgm, -, hst, hres, hrd⟩ := hexit e h h0
    exact ⟨m, hm, hgm, hst, hres, hrd⟩
  · rintro ⟨n, hn, hg, hst, hres, hrd⟩
    obtain ⟨e, he, h0, -⟩ :=
      send_receive_sendack_ok phy fuel n t p_dev len outdata indata hn hg hst hres hrd
    exact ⟨e, he, h0⟩
  · rintro ⟨e, h, h1⟩
    obtain ⟨hg, hr, -, -, -, -, -⟩ := ndlc_send_receive_some _ _ _ _ _ _ _ _ h
    have hex : (ndlc_iter phy len outdata fuel (ndlc_entry p_dev indata t)).exit = false := by
      by_contra hne
      have : (ndlc_iter phy len outdata fuel (ndlc_entry p_dev indata t)).exit = true := by
        simpa using hne
      rw [hr, if_pos this] at h1
      exact absurd h1 (by decide)
    have hle := iter_retry_le phy len outdata fuel (ndlc_entry p_dev indata t)
      (by simp [ndlc_entry])
    have hge : ¬ (ndlc_iter phy len outdata fuel (ndlc_entry p_dev indata t)).retry < 100 := by
      intro hlt
      simp [ndlc_guard, hlt, hex] at hg
    exact ⟨fuel, le_refl _, hex, by simp only [ndlc_state]; omega⟩
  · rintro ⟨n, hn, hex, hre⟩
    exact send_receive_exhausted phy fuel n t p_dev len outdata indata hn hex hre
  · intro e h
    obtain ⟨-, hr, -, -, -, -, -⟩ := ndlc_send_receive_some _ _ _ _ _ _ _ _ h
    rw [hr]
    split_ifs <;> simp
  · intro h
    simp only [ndlc_send_receive] at h
    by_cases hg : ndlc_guard (ndlc_iter phy len outdata fuel (ndlc_entry p_dev indata t)) = true
    · simp only [ndlc_guard, Bool.and_eq_true, beq_iff_eq, decide_eq_true_eq] at hg
      exact ⟨hg.2, hg.1⟩
    · simp [hg] at h
  · rintro ⟨hex, hlt⟩
    simp only [ndlc_state] at hex hlt
    have hg : ndlc_guard (ndlc_iter phy len outdata fuel (ndlc_entry p_dev indata t)) = true := by
      simp [ndlc_guard, hex, hlt]
    simp [ndlc_send_receive, hg]
  · intro e h h0
    obtain ⟨m, -, -, hbody, hst, hres, -⟩ := hexit e h h0
    obtain ⟨-, -, -, -, -, -, hlog⟩ := ndlc_send_receive_some _ _ _ _ _ _ _ _ h
    refine ⟨(ndlc_iter phy len outdata m (ndlc_entry p_dev indata t)).log,
      (phy (ndlc_iter phy len outdata m (ndlc_entry p_dev indata t)).phy
        ⟨2, [0xE0, 0x00]⟩).2, ?_, hres⟩
    rw [hlog, hbody]
    simp only [ndlc_body, hst, xfer]
    split_ifs <;> rfl

set_option maxRecDepth 100000 in
/-- Witness for C13 as amended: the happy path of the Abort command makes the function
return 0 (the sixth iteration is the confirmed SendAck), and the transport that answers
`0x11` everywhere makes it return -1 (the counter is at 100 after 101 iterations). -/
theorem send_receive_result_witness :
    (∃ e, ndlc_send_receive scriptPhy 6
        [⟨4, [0xFE, 0, 0, 0]⟩, ⟨2, [0xE0, 0]⟩, ⟨2, [0x80, 4]⟩, ⟨4, [0xE0, 0x52, 0x3B, 0]⟩,
          ⟨2, [0xFE, 0]⟩]
        ⟨0, NDLC_IDLE, 0, List.replicate 260 0⟩ 4 [0x80, 0x02, 0xE0, 0x51]
        (List.replicate 260 0) = some e ∧ e.res = 0)
      ∧ (∃ e, ndlc_send_receive (constPhy 0x11) 101 ()
        ⟨0, NDLC_IDLE, 0, List.replicate 260 0⟩ 4 [0x80, 0x02, 0xE0, 0x51]
        (List.replicate 260 0) = some e ∧ e.res = -1) :=
  ⟨(send_receive_result scriptPhy 6
      [⟨4, [0xFE, 0, 0, 0]⟩, ⟨2, [0xE0, 0]⟩, ⟨2, [0x80, 4]⟩, ⟨4, [0xE0, 0x52, 0x3B, 0]⟩,
        ⟨2, [0xFE, 0]⟩]
      ⟨0, NDLC_IDLE, 0, List.replicate 260 0⟩ 4 [0x80, 0x02, 0xE0, 0x51]
      (List.replicate 260 0)).1.mpr ⟨5, by decide, by decide, by decide, by decide, by decide⟩,
   (send_receive_result (constPhy 0x11) 101 ()
      ⟨0, NDLC_IDLE, 0, List.replicate 260 0⟩ 4 [0x80, 0x02, 0xE0, 0x51]
      (List.replicate 260 0)).2.1.mpr ⟨101, le_refl _, by decide, by decide⟩⟩

/-- C14, as amended. `ndlc_send_receive` returns 0 on success and -1 on failure, and
not the length of the response, which is stored in `dataLen`. For an exchange started
in Idle with a transport that writes exactly the bytes it reports: when a SendAck
transfer exchanges 2 bytes and leaves `0xFE` in byte 0 of the receive buffer, the
function returns 0 and `dataLen` is the length of the application payload delivered;
when the retry counter reaches 100 the function returns -1; and it returns no value
other than these, 0 always coming with the delivered payload length in `dataLen`. -/
theorem send_receive_status_and_length {σ : Type} (phy : Phy σ) (fuel : Nat) (t : σ)
    (p_dev : ndlc_device_t) (len : Nat) (outdata indata : List Nat)
    (hphy : ExactPhy phy) (hidle : p_dev.status = NDLC_IDLE) :
    (∀ n, n < fuel →
        ndlc_guard (ndlc_state phy t p_dev len outdata indata n) = true →
        (ndlc_state phy t p_dev len outdata indata n).status = NLDC_SENDACK →
        (phy (ndlc_state phy t p_dev len outdata indata n).phy ⟨2, [0xE0, 0x00]⟩).2.res = 2 →
        rd (writeBuf (ndlc_state phy t p_dev len outdata indata n).indata
          (phy (ndlc_state phy t p_dev len outdata indata n).phy ⟨2, [0xE0, 0x00]⟩).2.rx) 0
          = 0xFE →
        ∃ e payload, ndlc_send_receive phy fuel t p_dev len outdata indata = some e
          ∧ e.res = 0
          ∧ Delivered e.log e.dev.dataLen e.indata payload
          ∧ e.dev.dataLen = payload.length)
      ∧ (∀ n, n ≤ fuel →
          (ndlc_state phy t p_dev len outdata indata n).exit = false →
          (ndlc_state phy t p_dev len outdata indata n).retry = 100 →
          ∃ e, ndlc_send_receive phy fuel t p_dev len outdata indata = some e ∧ e.res = -1)
      ∧ (∀ e, ndlc_send_receive phy fuel t p_dev len outdata indata = some e →
          (e.res = 0 ∧ ∃ payload, Delivered e.log e.dev.dataLen e.indata payload
            ∧ e.dev.dataLen = payload.length)
          ∨ e.res = -1) := by
  have hdel : ∀ e, ndlc_send_receive phy fuel t p_dev len outdata indata = some e →
      e.res = 0 → ∃ payload, Delivered e.log e.dev.dataLen e.indata payload
        ∧ e.dev.dataLen = payload.length := by
    intro e h h0
    obtain ⟨payload, hd⟩ := delivered_of_success phy hphy fuel t p_dev len outdata indata e
      hidle h h0
    have hdl : e.dev.dataLen = payload.length := by
      obtain ⟨_, _, _, _, _, _, _, -, -, -, -, -, hdl, -⟩ := hd
      exact hdl
    exact ⟨payload, hd, hdl⟩
  refine ⟨?_, ?_, ?_⟩
  · intro n hn hg hst hres hrd
    obtain ⟨e, he, h0, -⟩ :=
      send_receive_sendack_ok phy fuel n t p_dev len outdata indata hn hg hst hres hrd
    obtain ⟨payload, hd, hdl⟩ := hdel e he h0
    exact ⟨e, payload, he, h0, hd, hdl⟩
  · intro n hn hex hre
    exact send_receive_exhausted phy fuel n t p_dev len outdata indata hn hex hre
  · intro e h
    obtain ⟨-, hr, -, -, -, -, -⟩ := ndlc_send_receive_some _ _ _ _ _ _ _ _ h
    by_cases hex : (ndlc_iter phy len outdata fuel (ndlc_entry p_dev indata t)).exit = true
    · have h0 : e.res = 0 := by rw [hr, if_pos hex]
      exact Or.inl ⟨h0, hdel e h h0⟩
    · exact Or.inr (by rw [hr, if_neg hex])

set_option maxRecDepth 100000 in
/-- Witness for C14 as amended: the happy path of the Abort command with the exact
scripted transport; the sixth iteration is the confirmed SendAck, the function returns
0 and `dataLen` is the length of the payload delivered. -/
theorem send_receive_status_and_length_witness :
    ∃ e payload, ndlc_send_receive exactScriptPhy 6
        [[0xFE, 0, 0, 0], [0xE0, 0], [0x80, 4], [0xE0, 0x52, 0x3B, 0], [0xFE, 0]]
        ⟨0, NDLC_IDLE, 0, List.replicate 260 0⟩ 4 [0x80, 0x02, 0xE0, 0x51]
        (List.replicate 260 0) = some e
      ∧ e.res = 0
      ∧ Delivered e.log e.dev.dataLen e.indata payload
      ∧ e.dev.dataLen = payload.length :=
  (send_receive_status_and_length exactScriptPhy 6
    [[0xFE, 0, 0, 0], [0xE0, 0], [0x80, 4], [0xE0, 0x52, 0x3B, 0], [0xFE, 0]]
    ⟨0, NDLC_IDLE, 0, List.replicate 260 0⟩ 4 [0x80, 0x02, 0xE0, 0x51]
    (List.replicate 260 0) exactScriptPhy_exact rfl).1 5
    (by decide) (by decide) (by decide) (by decide) (by decide)

/-! ## The output buffer after a failed exchange -/

/-- With a pointer to a buffer of the caller, `NDLC_abort_ptr` and `NDLC_apdu_ptr` are
`NDLC_abort` and `NDLC_apdu`. -/
theorem builders_ptr_caller {σ : Type} (phy : Phy σ) (fuel : Nat) (t : σ)
    (p_dev : ndlc_device_t) (apdu : List Nat) (apdu_len : Nat) (buf : List Nat) :
    NDLC_abort_ptr phy fuel t p_dev (OutPtr.caller buf) = NDLC_abort phy fuel t p_dev buf
      ∧ NDLC_apdu_ptr phy fuel t p_dev apdu apdu_len (OutPtr.caller buf)
        = NDLC_apdu phy fuel t p_dev apdu apdu_len buf := by
  exact ⟨rfl, rfl⟩

set_option maxRecDepth 100000 in
/-- Counterexample to C15 as stated: `spi_ndlc_atr` calls `NDLC_abort` with the response
buffer as output buffer. Against the transport that answers `0x11` everywhere the
exchange fails and -1 is returned, and the buffer handed in as output buffer, all
zeroes before the call, holds the four bytes `0x11` received during the exchange. -/
theorem atr_failure_changes_buffer :
    ∃ e, spi_ndlc_atr (constPhy 0x11) 101 () ⟨0, NDLC_IDLE, 0, List.replicate 8 0⟩ = some e
      ∧ e.result = -1
      ∧ e.outdata = [0x11, 0x11, 0x11, 0x11, 0, 0, 0, 0]
      ∧ e.outdata ≠ List.replicate 8 0 :=
  ⟨_, rfl, by decide, by decide, by decide⟩

/-- C15, as amended. No payload on failure: whenever `ndlc_send_receive` fails,
`NDLC_apdu` and `NDLC_abort` return -1 without copying anything to the output buffer.
An output buffer distinct from the response buffer is left unchanged. When the output
buffer is the response buffer itself, as in the calls made by `spi_ndlc_atr` and
`spi_ndlc_abort_apdu`, it holds what the engine left in the response buffer during the
failed exchange, and not what it held before the call. A builder that returns a
negative value has returned -1 with the output buffer in that condition. -/
theorem no_payload_on_failure {σ : Type} (phy : Phy σ) (fuel : Nat) (t : σ)
    (p_dev : ndlc_device_t) (apdu : List Nat) (apdu_len : Nat) (outdata : OutPtr) :
    (∀ r, ndlc_send_receive phy fuel t { p_dev with status := NDLC_IDLE }
          ((4 + apdu_len) % 2 ^ 16) (apdu_cmd apdu apdu_len) p_dev.data = some r →
        r.res = -1 →
        ∃ e, NDLC_apdu_ptr phy fuel t p_dev apdu apdu_len outdata = some e
          ∧ e.result = -1 ∧ e.dev.data = r.indata
          ∧ e.outdata = (match outdata with
              | OutPtr.caller buf => buf
              | OutPtr.response => r.indata))
      ∧ (∀ r, ndlc_send_receive phy fuel t { p_dev with status := NDLC_IDLE }
          4 [0x80, 0x02, 0xE0, 0x51] p_dev.data = some r →
        r.res = -1 →
        ∃ e, NDLC_abort_ptr phy fuel t p_dev outdata = some e
          ∧ e.result = -1 ∧ e.dev.data = r.indata
          ∧ e.outdata = (match outdata with
              | OutPtr.caller buf => buf
              | OutPtr.response => r.indata))
      ∧ (∀ e, NDLC_apdu_ptr phy fuel t p_dev apdu apdu_len outdata = some e →
          e.result < 0 →
          e.result = -1 ∧ e.outdata = (match outdata with
              | OutPtr.caller buf => buf
              | OutPtr.response => e.dev.data))
      ∧ (∀ e, NDLC_abort_ptr phy fuel t p_dev outdata = some e →
          e.result < 0 →
          e.result = -1 ∧ e.outdata = (match outdata with
              | OutPtr.caller buf => buf
              | OutPtr.response => e.dev.data))
      ∧ (∀ buf, NDLC_apdu_ptr phy fuel t p_dev apdu apdu_len (OutPtr.caller buf)
            = NDLC_apdu phy fuel t p_dev apdu apdu_len buf
          ∧ NDLC_abort_ptr phy fuel t p_dev (OutPtr.caller buf)
            = NDLC_abort phy fuel t p_dev buf) := by
  refine ⟨fun r hr hres => ?_, fun r hr hres => ?_, fun e he hneg => ?_, fun e he hneg => ?_,
    fun buf => ?_⟩
  · simp only [NDLC_apdu_ptr, hr]
    cases outdata <;> simp [hres]
  · simp only [NDLC_abort_ptr, hr]
    cases outdata <;> simp [hres]
  · rcases hsr : ndlc_send_receive phy fuel t { p_dev with status := NDLC_IDLE }
      ((4 + apdu_len) % 2 ^ 16) (apdu_cmd apdu apdu_len) p_dev.data with _ | r
    · simp only [NDLC_apdu_ptr, hsr] at he
      exact absurd he (by simp)
    · simp only [NDLC_apdu_ptr, hsr] at he
      cases outdata <;> by_cases h0 : r.res = 0 <;>
        simp only [h0, if_true, if_false, Option.some.injEq] at he <;> subst he <;>
        simp at hneg ⊢ <;> omega
  · rcases hsr : ndlc_send_receive phy fuel t { p_dev with status := NDLC_IDLE }
      4 [0x80, 0x02, 0xE0, 0x51] p_dev.data with _ | r
    · simp only [NDLC_abort_ptr, hsr] at he
      exact absurd he (by simp)
    · simp only [NDLC_abort_ptr, hsr] at he
      cases outdata <;> by_cases h0 : r.res = 0 <;>
        simp only [h0, if_true, if_false, Option.some.injEq] at he <;> subst he <;>
        simp at hneg ⊢
  · exact ⟨(builders_ptr_caller phy fuel t p_dev apdu apdu_len buf).2,
      (builders_ptr_caller phy fuel t p_dev apdu apdu_len buf).1⟩

/-- Witness for C15 as amended: against the transport that answers `0x11` everywhere,
`NDLC_apdu` with an output buffer of its own returns -1 and leaves it unchanged, and the
abort call of `spi_ndlc_abort_apdu` returns -1 with the response buffer as the engine
left it. -/
theorem no_payload_on_failure_witness :
    (∃ e, NDLC_apdu_ptr (constPhy 0x11) 101 () ⟨0, NDLC_IDLE, 0, List.replicate 8 0⟩
        [1, 2, 3] 3 (OutPtr.caller [5, 5, 5]) = some e
      ∧ e.result = -1 ∧ e.outdata = [5, 5, 5])
    ∧ (∃ e, spi_ndlc_abort_apdu (constPhy 0x11) 101 () ⟨0, NDLC_IDLE, 0, List.replicate 8 0⟩
        = some e
      ∧ e.result = -1 ∧ e.outdata = e.dev.data) := by
  obtain ⟨e1, h1, h2, -, h3⟩ :=
    (no_payload_on_failure (constPhy 0x11) 101 () ⟨0, NDLC_IDLE, 0, List.replicate 8 0⟩
      [1, 2, 3] 3 (OutPtr.caller [5, 5, 5])).1 _ rfl rfl
  obtain ⟨e2, k1, k2, k3, k4⟩ :=
    (no_payload_on_failure (constPhy 0x11) 101 () ⟨0, NDLC_IDLE, 0, List.replicate 8 0⟩
      [1, 2, 3] 3 OutPtr.response).2.1 _ rfl rfl
  exact ⟨⟨e1, h1, h2, h3⟩, ⟨e2, k1, k2, k4.trans k3.symm⟩⟩

end Ndlc

namespace Cmd

/-! ## The bound on the position in the receive line -/

theorem lineInv_init (lines : List (List Nat)) : LineInv (CMD_init lines) := by
  refine ⟨by simp [CMD_init], by simp [CMD_init], by simp [CMD_init], ?_⟩
  intro w hw
  simp only [CMD_init, storeByte, List.nil_append, List.cons_append, List.mem_cons,
    List.mem_singleton, List.not_mem_nil, or_false] at hw
  rcases hw with rfl | rfl <;> decide

theorem lineInv_step (st : CmdState) (c : Nat) (h : LineInv st) :
    LineInv (CMD_RxCpltCallback st c) := by
  obtain ⟨hp, hr, hc, hw⟩ := h
  simp only [CMD_MAX_LINE_SIZE] at hp
  unfold CMD_RxCpltCallback
  split_ifs with h1 h2 h3 h4
  · refine ⟨by simp, hc, hr, ?_⟩
    intro w hw1
    simp only [storeByte, List.mem_append, List.mem_singleton] at hw1
    rcases hw1 with hw1 | rfl
    · exact hw w hw1
    · simp only [CMD_MAX_LINE_SIZE]
      exact ⟨hr, by omega, by simp, by simp⟩
  · refine ⟨?_, hr, hc, hw⟩
    simp only [CMD_MAX_LINE_SIZE]
    omega
  · exact ⟨hp, hr, hc, hw⟩
  · simp only [not_or, not_le, CMD_MAX_LINE_SIZE] at h2
    refine ⟨?_, hr, hc, ?_⟩
    · simp only [CMD_MAX_LINE_SIZE]
      omega
    · intro w hw1
      simp only [storeByte, List.mem_append, List.mem_singleton] at hw1
      rcases hw1 with hw1 | rfl
      · exact hw w hw1
      · simp only [CMD_MAX_LINE_SIZE]
        exact ⟨hr, by omega, fun _ => by omega, by simp⟩
  · exact ⟨hp, hr, hc, hw⟩

theorem lineInv_receive (st : CmdState) (cs : List Nat) (h : LineInv st) :
    LineInv (CMD_receive st cs) := by
  induction cs generalizing st with
  | nil => exact h
  | cons c cs ih => exact ih _ (lineInv_step st c h)

/-- C30. Console line buffer bound: starting from the state set by `CMD_init`
(`CMD_CurrentPos = 0`), after any sequence of received characters processed by
`CMD_RxCpltCallback`, `CMD_CurrentPos ≤ CMD_MAX_LINE_SIZE - 1 = 99`. Every store into a
line is therefore made in one of the two rows at an index below 100: a character at an
index at most 98 and a terminating 0 at an index at most 99. The increment of the
position never wraps, and a backspace never decrements the position below 0: at
position 0 it leaves it at 0, and otherwise the position does not grow. -/
theorem line_buffer_bound (lines : List (List Nat)) (cs : List Nat) :
    (CMD_init lines).CMD_CurrentPos = 0
      ∧ (CMD_receive (CMD_init lines) cs).CMD_CurrentPos ≤ CMD_MAX_LINE_SIZE - 1
      ∧ CMD_MAX_LINE_SIZE - 1 = 99
      ∧ (∀ w ∈ (CMD_receive (CMD_init lines) cs).writes,
          w.line < 2 ∧ w.index < 100
            ∧ (w.terminator = false → w.index ≤ 98)
            ∧ (w.terminator = true → w.index ≤ 99 ∧ w.value = 0))
      ∧ (∀ c, (CMD_RxCpltCallback (CMD_receive (CMD_init lines) cs) c).CMD_CurrentPos
          ≤ (CMD_receive (CMD_init lines) cs).CMD_CurrentPos + 1)
      ∧ (CMD_RxCpltCallback (CMD_receive (CMD_init lines) cs) 8).CMD_CurrentPos
          ≤ (CMD_receive (CMD_init lines) cs).CMD_CurrentPos
      ∧ ((CMD_receive (CMD_init lines) cs).CMD_CurrentPos = 0 →
          (CMD_RxCpltCallback (CMD_receive (CMD_init lines) cs) 8).CMD_CurrentPos = 0)
      ∧ (0 < (CMD_receive (CMD_init lines) cs).CMD_CurrentPos →
          (CMD_receive (CMD_init lines) cs).CMD_CurrentPos < 99 →
          (CMD_RxCpltCallback (CMD_receive (CMD_init lines) cs) 8).CMD_CurrentPos
            = (CMD_receive (CMD_init lines) cs).CMD_CurrentPos - 1) := by
  obtain ⟨hp, -, -, hw⟩ := lineInv_receive (CMD_init lines) cs (lineInv_init lines)
  simp only [CMD_MAX_LINE_SIZE] at hp hw
  refine ⟨rfl, hp, rfl, ?_, ?_, ?_, ?_, ?_⟩
  · intro w hw1
    obtain ⟨h1, h2, h3, h4⟩ := hw w hw1
    exact ⟨h1, h2, h3, fun h => ⟨by omega, h4 h⟩⟩
  · intro c
    unfold CMD_RxCpltCallback
    split_ifs <;> simp [storeByte] <;> omega
  · have h8 : ¬ ((8 : Nat) = 10) := by decide
    simp only [CMD_RxCpltCallback, ne_eq, h8, not_false_eq_true, if_true]
    split_ifs <;> simp [storeByte]
  · intro h0
    have h8 : ¬ ((8 : Nat) = 10) := by decide
    simp only [CMD_RxCpltCallback, ne_eq, h8, not_false_eq_true, if_true]
    split_ifs <;> simp [storeByte, h0]
  · intro h0 h1
    have h8 : ¬ ((8 : Nat) = 10) := by decide
    have h9 : ¬ ((8 : Nat) = 13 ∨ CMD_MAX_LINE_SIZE - 1
        ≤ (CMD_receive (CMD_init lines) cs).CMD_CurrentPos) := by
      simp only [CMD_MAX_LINE_SIZE]
      omega
    simp only [CMD_RxCpltCallback, ne_eq, h8, not_false_eq_true, if_true, if_neg h9, if_pos h0]

/-- Witness for C30: a short line with two backspaces at the start of the line. -/
theorem line_buffer_bound_witness :
    (CMD_receive (CMD_init [[], []]) [97, 8, 8, 98, 13]).CMD_CurrentPos
      ≤ CMD_MAX_LINE_SIZE - 1 :=
  (line_buffer_bound [[], []] [97, 8, 8, 98, 13]).2.1

end Cmd
